import Mathlib

/-!
crawly-live-youtube: a verification development

A shallow embedding of the channel tracking pass (`entity.go`), the two probes
(`youtube.go`) and the XML/HTML helpers (`xmlapi/`), followed by theorems about them.

Conventions of the embedding.

* A Go `string` is the list of its runes (`Str`); `len` is the byte length.
* A `time.Time` is an integer number of nanoseconds since the Unix epoch, a
  `time.Duration` an integer number of nanoseconds in the `int64` range.
* Everything the code observes from outside (the clock, contexts, the HTTP client,
  the YouTube API) is an explicit observation record, one field per place of the
  source where the observation is made.
* Every call of a probe is recorded, so that "no call was made" can be stated.
-/

set_option autoImplicit false
set_option maxRecDepth 100000

namespace CrawlyLiveYoutube

/-! ## Strings -/

/-- Go string, as the sequence of its runes. -/
abbrev Str := List Char

/-- Byte length of a string: Go `len(s)`. -/
def len (s : Str) : Nat := (s.map Char.utf8Size).sum

/-- Go `strings.HasPrefix(s, sub)`. -/
def HasPrefix : Str → Str → Bool
  | _, [] => true
  | [], _ :: _ => false
  | c :: s, d :: sub => c == d && HasPrefix s sub

/-- Go `strings.Index(s, sub)`, with `none` for -1, counted from position `i`. -/
def Index.go (sub : Str) : Str → Nat → Option Nat
  | [], i => if sub.isEmpty then some i else none
  | c :: rest, i => if HasPrefix (c :: rest) sub then some i else Index.go sub rest (i + 1)

/-- Go `strings.Index(s, sub)`, with `none` for -1. -/
def Index (s sub : Str) : Option Nat := Index.go sub s 0

/-- Go `strings.Contains(s, sub)`. -/
def Contains (s sub : Str) : Bool := (Index s sub).isSome

/-- Go `strings.LastIndex(s, sub)`, with `none` for -1. -/
def LastIndex : Str → Str → Option Nat
  | [], sub => if sub.isEmpty then some 0 else none
  | c :: rest, sub =>
    match LastIndex rest sub with
    | some i => some (i + 1)
    | none => if HasPrefix (c :: rest) sub then some 0 else none

/-- Go `unicode.ToLower`, a table of the standard library, modelled on the runes that it
maps to an ASCII rune: the ASCII letters `A` to `Z`, U+0130 (capital I with dot above,
lowered to `i`) and U+212A (Kelvin sign, lowered to `k`). Every other rune is left as it
is; the library maps the other upper-case letters to lower-case letters that are outside
ASCII as well. -/
def unicodeToLower (r : Char) : Char :=
  if r.toNat < 0x80 then r.toLower
  else if r.toNat = 0x130 then 'i'
  else if r.toNat = 0x212A then 'k'
  else r

/-- Go `strings.ToLower`: every rune is mapped by `unicode.ToLower`. The repository
compares the result with ASCII strings only (`"alternate"`, `"canonical"`, `"url"`, `"rss"`
and attribute names); `ToLower_eq_ascii` shows that such a comparison has the same outcome
for every rune map that agrees with `unicodeToLower` where ASCII is concerned. -/
def ToLower (s : Str) : Str := s.map unicodeToLower

/-- Go `lower` of `golang.org/x/net/html`: the ASCII letters are lowered in place. -/
def lower (s : Str) : Str := s.map Char.toLower

/-- Go `unicode.IsSpace`. -/
def isSpace (r : Char) : Bool :=
  r == '\t' || r == '\n' || r.toNat == 0x0B || r.toNat == 0x0C || r == '\r' || r == ' ' ||
  r.toNat == 0x85 || r.toNat == 0xA0 || r.toNat == 0x1680 ||
  (0x2000 ≤ r.toNat && r.toNat ≤ 0x200A) ||
  r.toNat == 0x2028 || r.toNat == 0x2029 || r.toNat == 0x202F || r.toNat == 0x205F ||
  r.toNat == 0x3000

/-- Go `strings.TrimSpace`. -/
def TrimSpace (s : Str) : Str :=
  ((s.dropWhile isSpace).reverse.dropWhile isSpace).reverse

/-! ## Errors, time, integers -/

/-- Error values of the package; `foreign` stands for an error made by a collaborator
(context, HTTP client, API client), `wrapped op e` for `fmt.Errorf(op + ": %w", e)`. -/
inductive Error where
  | InvalidHandle
  | InvalidChannelID
  | InvalidChannelURL
  | InvalidVideoID
  | InvalidVideoThumbnailURL
  | UncertainLiveVideoThumbnail
  | ExceededCheckVideoTimeout
  | NilClient
  | NilService
  | new (msg : String)
  | foreign (tag : Nat)
  | wrapped (op : String) (cause : Error)
  deriving DecidableEq, Repr

/-- Equality of results is decidable. -/
instance instDecidableEqExcept {ε α : Type} [DecidableEq ε] [DecidableEq α] :
    DecidableEq (Except ε α)
  | .ok a, .ok b =>
    if h : a = b then isTrue (by rw [h]) else isFalse (fun h2 => h (Except.ok.inj h2))
  | .error a, .error b =>
    if h : a = b then isTrue (by rw [h]) else isFalse (fun h2 => h (Except.error.inj h2))
  | .ok _, .error _ => isFalse (fun h => Except.noConfusion h)
  | .error _, .ok _ => isFalse (fun h => Except.noConfusion h)

/-- Two's complement reduction of an integer to the `int64` range. -/
def wrap64 (x : Int) : Int :=
  (x + 9223372036854775808) % 18446744073709551616 - 9223372036854775808

/-- Go `time.Time`: nanoseconds since the Unix epoch. -/
abbrev Time := Int

/-- Go `time.Duration`: nanoseconds, an `int64`. -/
abbrev Duration := Int

/-- Smallest `time.Duration`. -/
def minDuration : Duration := -9223372036854775808

/-- Largest `time.Duration`. -/
def maxDuration : Duration := 9223372036854775807

/-- Go `time.Second`. -/
def Second : Duration := 1000000000

/-- Go zero `time.Time{}`: January 1, year 1, 00:00:00 UTC. -/
def zeroTime : Time := -62135596800000000000

/-- Go `t.Sub(u)`: the difference, saturated to the range of `time.Duration`. -/
def Sub (t u : Time) : Duration :=
  if t - u < minDuration then minDuration
  else if t - u > maxDuration then maxDuration
  else t - u

/-- Go `t.UnixMilli()`: whole milliseconds since the Unix epoch, as an `int64`. -/
def UnixMilli (t : Time) : Int := wrap64 (t / 1000000)

/-- Go `d.Milliseconds()`: `int64(d) / 1e6`, truncated toward zero. -/
def Milliseconds (d : Duration) : Int := Int.tdiv d 1000000

/-! ## Identifiers (`xmlapi/video.go`, `xmlapi/channel.go`) -/

/-- Body of the rune loop of `IsValidChannelID` and `IsValidVideoID`: `true` when the loop
goes on to the next rune, `false` when it returns false. -/
def validIDRune (r : Char) : Bool :=
  if !((r ≥ '0' && r ≤ '9') || (r ≥ 'A' && r ≤ 'Z') || (r ≥ 'a' && r ≤ 'z')) then
    if r == '-' || r == '_' then true else false
  else true

/-- Checks (roughly) if the given string is a valid YouTube channel ID. -/
def IsValidChannelID (s : Str) : Bool :=
  let n := len s
  if n < 6 || n > 64 then false else s.all validIDRune

/-- Checks (roughly) if the given string is a valid YouTube video ID. -/
def IsValidVideoID (s : Str) : Bool :=
  let n := len s
  if n < 6 || n > 48 then false else s.all validIDRune

/-! ## Settings and state (`settings.go`, `youtube.go`, `entity.go`) -/

/-- The fields of `CrawlerSettings` that the handlers read. -/
structure CrawlerSettings where
  StopAfterLiveVideos : Int
  MinimumFetchChannelFeedDelay : Duration
  MaximumCachedNotLivestreamAge : Duration
  MaximumCachedLivestreamFinishedAge : Duration
  MinimumCheckVideoDelay : Duration
  MaximumVideoAge : Duration
  CheckVideoTimeout : Duration
  deriving DecidableEq, Repr

/-- Go `DefaultSettings`. -/
def DefaultSettings : CrawlerSettings where
  StopAfterLiveVideos := 1
  MinimumFetchChannelFeedDelay := 45 * Second
  MaximumCachedNotLivestreamAge := 15 * 60 * Second
  MaximumCachedLivestreamFinishedAge := 60 * 60 * Second
  MinimumCheckVideoDelay := 30 * Second
  MaximumVideoAge := 60 * 24 * 3600 * Second
  CheckVideoTimeout := 10 * Second

/-- The crawler, as far as the handlers depend on it: whether `client` and `service` are
nil, and the settings snapshot returned by `loadSettings`. -/
structure Crawler where
  clientNil : Bool
  serviceNil : Bool
  settings : CrawlerSettings
  deriving DecidableEq, Repr

/-- Go `VideoCandidate`. -/
structure VideoCandidate where
  ID : Str
  ChannelID : Str
  LastProcess : Time
  Live : Bool
  LiveGenuine : Bool
  LiveCheckAttempt : Int
  LastLive : Time
  LivestreamFinished : Bool
  LastLivestreamFinished : Time
  NotLivestream : Bool
  LastNotLivestream : Time
  deriving DecidableEq, Repr

/-- The candidate `VideoCandidate{ID: id, ChannelID: channelID}` built by
`getVideoCandidates`: every other field has its zero value. -/
def VideoCandidate.fresh (id channelID : Str) : VideoCandidate where
  ID := id
  ChannelID := channelID
  LastProcess := zeroTime
  Live := false
  LiveGenuine := false
  LiveCheckAttempt := 0
  LastLive := zeroTime
  LivestreamFinished := false
  LastLivestreamFinished := zeroTime
  NotLivestream := false
  LastNotLivestream := zeroTime

/-! ## The authoritative probe (`youtube.go`, `CheckLiveVideoState`) -/

/-- The fields of `youtube.VideoLiveStreamingDetails` that are read. -/
structure LiveStreamingDetails where
  ActualStartTime : Str
  ActualEndTime : Str
  deriving DecidableEq, Repr

/-- The fields of an item of the API response that are read. -/
structure VideoItem where
  Id : Str
  LiveStreamingDetails : Option LiveStreamingDetails
  deriving DecidableEq, Repr

/-- What one call of `CheckLiveVideoState` observes: `ctx.Err()` (with `none` also for a
nil context) and the result of `call.Do()`. -/
structure StateObs where
  ctxErr : Option Error
  response : Except Error (List VideoItem)

/-- The loop over `resp.Items` of `CheckLiveVideoState`: the pair `(live, finished)`. -/
def CheckLiveVideoState.scan (videoID : Str) : List VideoItem → Bool × Bool
  | [] => (false, false)
  | item :: rest =>
    match item.LiveStreamingDetails with
    | none => CheckLiveVideoState.scan videoID rest
    | some d =>
      if item.Id ≠ videoID then CheckLiveVideoState.scan videoID rest
      else if d.ActualEndTime ≠ [] then (false, true)
      else if d.ActualStartTime ≠ [] then (true, false)
      else (false, false)

/-- Go `Crawler.CheckLiveVideoState`: `(live, finished)` or an error. -/
def CheckLiveVideoState (cr : Crawler) (obs : StateObs) (videoID : Str) :
    Except Error (Bool × Bool) :=
  if videoID = [] || !IsValidVideoID videoID then .error .InvalidVideoID
  else if cr.serviceNil then .error .NilService
  else
    match obs.ctxErr with
    | some e => .error e
    | none =>
      match obs.response with
      | .error e => .error (.wrapped "youtube.VideosService.List" e)
      | .ok items => .ok (CheckLiveVideoState.scan videoID items)

/-! ## A model of `net/url` (Go standard library)

The repository calls `url.Parse` and `url.PathEscape`. The model below follows the
library's `Parse` for the components the repository reads (`Scheme`, `Path`) and for the
errors it returns: fragment and query are split off, the scheme is recognised by
`getScheme`, the authority is split from the path and checked by `parseAuthority` (user
information, port, bytes and escapes of the host), and the path is percent-decoded. A
decoded byte is kept as the rune of the same number; positions in a string count runes. -/

/-- The components of a parsed `url.URL` that are modelled. -/
structure URL where
  Scheme : Str
  Opaque : Str
  Host : Str
  Path : Str
  RawQuery : Str
  deriving DecidableEq, Repr

/-- Go `strings.Cut(s, sep)` for a one-byte separator: before, after, found. -/
def Cut (sep : Char) : Str → Str × Str × Bool
  | [] => ([], [], false)
  | c :: rest =>
    if c == sep then ([], rest, true)
    else
      let r := Cut sep rest
      (c :: r.1, r.2.1, r.2.2)

/-- Loop of `getScheme` of `net/url`: `acc` holds the bytes read so far. -/
def getScheme.go (rawURL : Str) : Str → Str → Option (Str × Str)
  | _, [] => some ([], rawURL)
  | acc, c :: rest =>
    if ('a' ≤ c && c ≤ 'z') || ('A' ≤ c && c ≤ 'Z') then getScheme.go rawURL (acc ++ [c]) rest
    else if ('0' ≤ c && c ≤ '9') || c == '+' || c == '-' || c == '.' then
      if acc.isEmpty then some ([], rawURL) else getScheme.go rawURL (acc ++ [c]) rest
    else if c == ':' then
      if acc.isEmpty then none else some (acc, rest)
    else some ([], rawURL)

/-- Go `getScheme` of `net/url`: scheme and rest, or `none` for "missing protocol scheme". -/
def getScheme (rawURL : Str) : Option (Str × Str) := getScheme.go rawURL [] rawURL

/-- Go `ishex` of `net/url`. -/
def ishex (c : Char) : Bool :=
  ('0' ≤ c && c ≤ '9') || ('a' ≤ c && c ≤ 'f') || ('A' ≤ c && c ≤ 'F')

/-- Go `unhex` of `net/url`. -/
def unhex (c : Char) : Nat :=
  if '0' ≤ c && c ≤ '9' then c.toNat - '0'.toNat
  else if 'a' ≤ c && c ≤ 'f' then c.toNat - 'a'.toNat + 10
  else if 'A' ≤ c && c ≤ 'F' then c.toNat - 'A'.toNat + 10
  else 0

/-- Go `unescape(s, mode)` of `net/url` for the modes `encodePath`, `encodeFragment` and
`encodeUserPassword`, which differ in nothing here: percent-decoding, `none` for a
malformed escape. -/
def unescape : Str → Option Str
  | [] => some []
  | c :: rest =>
    if c == '%' then
      match rest with
      | a :: b :: rest2 =>
        if ishex a && ishex b then
          (unescape rest2).map (fun t => Char.ofNat (unhex a * 16 + unhex b) :: t)
        else none
      | _ => none
    else (unescape rest).map (fun t => c :: t)

/-- Go `stringContainsCTLByte` of `net/url`. -/
def stringContainsCTLByte (s : Str) : Bool := s.any (fun c => c.toNat < 0x20 || c.toNat == 0x7f)

/-- Go `shouldEscape(c, encodeHost)` of `net/url`: false for the ASCII letters and digits,
for the bytes that a host may hold and for the unreserved marks, true for everything else. -/
def shouldEscapeHost (c : Char) : Bool :=
  if ('a' ≤ c && c ≤ 'z') || ('A' ≤ c && c ≤ 'Z') || ('0' ≤ c && c ≤ '9') then false
  else if c == '!' || c == '$' || c == '&' || c == '\'' || c == '(' || c == ')' || c == '*' ||
      c == '+' || c == ',' || c == ';' || c == '=' || c == ':' || c == '[' || c == ']' ||
      c == '<' || c == '>' || c == '"' then false
  else if c == '-' || c == '_' || c == '.' || c == '~' then false
  else true

/-- Go `unescape(s, encodeHost)` of `net/url` and, with `zone` set, `unescape(s, encodeZone)`:
percent-decoding, `none` for an error. In a host an escape may only stand for a byte from
0x80 on or be `%25`, in a zone for `%25`, a space or a byte that a host may hold; an ASCII
byte that a host may not hold is an error. -/
def unescapeHost (zone : Bool) : Str → Option Str
  | [] => some []
  | c :: rest =>
    if c == '%' then
      match rest with
      | a :: b :: rest2 =>
        if ishex a && ishex b then
          if !zone && unhex a < 8 && !(a == '2' && b == '5') then none
          else if zone && !(a == '2' && b == '5') && unhex a * 16 + unhex b ≠ 0x20 &&
              shouldEscapeHost (Char.ofNat (unhex a * 16 + unhex b)) then none
          else (unescapeHost zone rest2).map (fun t => Char.ofNat (unhex a * 16 + unhex b) :: t)
        else none
      | _ => none
    else if c.toNat < 0x80 && shouldEscapeHost c then none
    else (unescapeHost zone rest).map (fun t => c :: t)

/-- Go `validOptionalPort` of `net/url`: empty, or a colon followed by digits only. -/
def validOptionalPort (port : Str) : Bool :=
  match port with
  | [] => true
  | c :: rest => c == ':' && rest.all (fun b => '0' ≤ b && b ≤ '9')

/-- Go `validUserinfo` of `net/url`. -/
def validUserinfo (s : Str) : Bool :=
  s.all fun r =>
    ('A' ≤ r && r ≤ 'Z') || ('a' ≤ r && r ≤ 'z') || ('0' ≤ r && r ≤ '9') ||
    r == '-' || r == '.' || r == '_' || r == ':' || r == '~' || r == '!' || r == '$' ||
    r == '&' || r == '\'' || r == '(' || r == ')' || r == '*' || r == '+' || r == ',' ||
    r == ';' || r == '=' || r == '%' || r == '@'

/-- Go `parseHost` of `net/url`: the host with its escapes decoded, `none` for an error. A
host that starts with `[` is an IP literal: it needs a `]`, what follows the last `]` is
an optional port, and a zone introduced by `%25` is decoded by the rules of a zone. In any
other host what starts at the last colon is an optional port. -/
def parseHost (host : Str) : Option Str :=
  if HasPrefix host ['['] then
    match LastIndex host [']'] with
    | none => none
    | some i =>
      if !validOptionalPort (host.drop (i + 1)) then none
      else
        match Index (host.take i) "%25".toList with
        | some zone =>
          match unescapeHost false (host.take zone),
              unescapeHost true ((host.take i).drop zone),
              unescapeHost false (host.drop i) with
          | some host1, some host2, some host3 => some (host1 ++ host2 ++ host3)
          | _, _, _ => none
        | none => unescapeHost false host
  else
    match LastIndex host [':'] with
    | some i => if !validOptionalPort (host.drop i) then none else unescapeHost false host
    | none => unescapeHost false host

/-- Go `parseAuthority` of `net/url`: the host of `[userinfo@]host`, `none` for an error.
The user information, when there is one, has to be valid and to decode. -/
def parseAuthority (authority : Str) : Option Str :=
  match LastIndex authority ['@'] with
  | none => parseHost authority
  | some i =>
    match parseHost (authority.drop (i + 1)) with
    | none => none
    | some host =>
      if !validUserinfo (authority.take i) then none
      else if !Contains (authority.take i) [':'] then
        match unescape (authority.take i) with
        | none => none
        | some _ => some host
      else
        match unescape (Cut ':' (authority.take i)).1,
            unescape (Cut ':' (authority.take i)).2.1 with
        | some _, some _ => some host
        | _, _ => none

/-- Go `parse(rawURL, false)` of `net/url`, after the fragment has been cut off. -/
def urlParse.parse (rawURL : Str) : Option URL :=
  if stringContainsCTLByte rawURL then none
  else if rawURL = ['*'] then some ⟨[], [], [], ['*'], []⟩
  else
    match getScheme rawURL with
    | none => none
    | some (scheme0, rest0) =>
      let scheme := ToLower scheme0
      let cutQ : Str × Str :=
        if rest0.getLast? = some '?' && rest0.count '?' = 1 then (rest0.dropLast, [])
        else ((Cut '?' rest0).1, (Cut '?' rest0).2.1)
      let rest := cutQ.1
      let rawQuery := cutQ.2
      if !HasPrefix rest ['/'] && scheme ≠ [] then some ⟨scheme, rest, [], [], rawQuery⟩
      else if !HasPrefix rest ['/'] && Contains (Cut '/' rest).1 [':'] then none
      else
        let split : Str × Str :=
          if (scheme ≠ [] || !HasPrefix rest ['/', '/', '/']) && HasPrefix rest ['/', '/'] then
            let authority := rest.drop 2
            match Index authority ['/'] with
            | some i => (authority.take i, authority.drop i)
            | none => (authority, [])
          else ([], rest)
        let host : Option Str :=
          if (scheme ≠ [] || !HasPrefix rest ['/', '/', '/']) && HasPrefix rest ['/', '/'] then
            parseAuthority split.1
          else some []
        match host with
        | none => none
        | some host =>
          match unescape split.2 with
          | none => none
          | some path => some ⟨scheme, [], host, path, rawQuery⟩

/-- Go `url.Parse`: `none` stands for a non-nil error. -/
def urlParse (rawURL : Str) : Option URL :=
  let c := Cut '#' rawURL
  match urlParse.parse c.1 with
  | none => none
  | some u => if c.2.2 && (unescape c.2.1).isNone then none else some u

/-- Upper-case hexadecimal digit, `"0123456789ABCDEF"[n]`. -/
def upperhex (n : Nat) : Char :=
  if n < 10 then Char.ofNat ('0'.toNat + n) else Char.ofNat ('A'.toNat + (n - 10))

/-- Go `shouldEscape(c, encodePathSegment)` of `net/url`. -/
def shouldEscape (c : UInt8) : Bool :=
  let r := Char.ofNat c.toNat
  if ('a' ≤ r && r ≤ 'z') || ('A' ≤ r && r ≤ 'Z') || ('0' ≤ r && r ≤ '9') then false
  else if r == '-' || r == '_' || r == '.' || r == '~' then false
  else if r == '$' || r == '&' || r == '+' || r == ':' || r == '=' || r == '@' then false
  else true

/-- Go `url.PathEscape`: the bytes that `shouldEscape` selects become `%XX`. -/
def PathEscape (s : Str) : Str :=
  s.flatMap fun r =>
    (String.utf8EncodeChar r).flatMap fun b =>
      if shouldEscape b then ['%', upperhex (b.toNat / 16), upperhex (b.toNat % 16)]
      else [Char.ofNat b.toNat]

/-! ## The live thumbnail probe (`youtube.go`, `CheckLiveVideoThumbnail`) -/

/-- Go `validVideoThumbnailSuffixes`. -/
def validVideoThumbnailSuffixes : List Str := [".jpg".toList, ".webp".toList]

/-- Go `liveVideoThumbnailFilenameSuffix`. -/
def liveVideoThumbnailFilenameSuffix : Str := "_live".toList

/-- What one call of `CheckLiveVideoThumbnail` observes: `ctx.Err()` (with `none` also for
a nil context) and, for the path of the requested URL, the result of `cr.client.Request`:
an error or the status code of the response. -/
structure ThumbObs where
  ctxErr : Option Error
  request : Str → Except Error Nat

/-- Lines 208 to 237 of `youtube.go`: the URL the probe starts from, the hint when it
parses and its path contains a thumbnail extension, the synthesized default otherwise;
`none` stands for `InvalidVideoThumbnailURL`. -/
def CheckLiveVideoThumbnail.baseURL (videoID thumbnailURL : Str) : Option URL :=
  let hint : Option URL :=
    if thumbnailURL ≠ [] then
      match urlParse thumbnailURL with
      | none => none
      | some u =>
        if validVideoThumbnailSuffixes.any (fun suffix => Contains u.Path suffix) then some u
        else none
    else none
  match hint with
  | some u => some u
  | none => urlParse ("https://i.ytimg.com/vi/".toList ++ PathEscape videoID ++ "/sddefault.jpg".toList)

/-- Lines 239 to 256 of `youtube.go`: the rewrite of the path; `none` when the path has no
dot (`InvalidVideoThumbnailURL`). -/
def CheckLiveVideoThumbnail.rewrite (path : Str) : Option Str :=
  match LastIndex path ['.'] with
  | none => none
  | some sepPos =>
    let pathFile := path.take sepPos
    if !Contains pathFile liveVideoThumbnailFilenameSuffix then
      some (pathFile ++ liveVideoThumbnailFilenameSuffix ++ path.drop sepPos)
    else some path

/-- The path of the URL that `CheckLiveVideoThumbnail` requests, when it gets as far as
building one (lines 208 to 256). -/
def CheckLiveVideoThumbnail.requestPath (videoID thumbnailURL : Str) : Except Error Str :=
  match CheckLiveVideoThumbnail.baseURL videoID thumbnailURL with
  | none => .error .InvalidVideoThumbnailURL
  | some u =>
    match CheckLiveVideoThumbnail.rewrite u.Path with
    | none => .error .InvalidVideoThumbnailURL
    | some p => .ok p

/-- Go `Crawler.CheckLiveVideoThumbnail`: `exists` or an error. -/
def CheckLiveVideoThumbnail (cr : Crawler) (obs : ThumbObs) (videoID thumbnailURL : Str) :
    Except Error Bool :=
  if videoID = [] || !IsValidVideoID videoID then .error .InvalidVideoID
  else if cr.clientNil then .error .NilClient
  else
    match obs.ctxErr with
    | some e => .error e
    | none =>
      match CheckLiveVideoThumbnail.requestPath videoID thumbnailURL with
      | .error e => .error e
      | .ok path =>
        match obs.request path with
        | .error e => .error e
        | .ok status =>
          if status = 404 then .ok false
          else if status = 200 || status = 302 || status = 304 then .ok true
          else .error .UncertainLiveVideoThumbnail

/-! ## The feed (`xmlapi/channel.go`, `xmlapi/util.go`) -/

/-- Go `xmlapi.Link`. -/
structure Link where
  Rel : Str
  Href : Str
  deriving DecidableEq, Repr

/-- The fields of `xmlapi.MediaGroup` that are read; `Thumbnail` is the URL of the
thumbnail element, `none` when the pointer is nil. -/
structure MediaGroup where
  Description : Str
  Thumbnail : Option Str
  deriving DecidableEq, Repr

/-- The fields of `xmlapi.ChannelFeedEntry` that are read. -/
structure ChannelFeedEntry where
  VideoID : Str
  ChannelID : Str
  Title : Str
  Links : List Link
  Published : Str
  Updated : Str
  MediaGroups : List MediaGroup
  deriving DecidableEq, Repr

/-- The fields of `xmlapi.ChannelFeed` that are read. -/
structure ChannelFeed where
  Entries : List ChannelFeedEntry
  deriving DecidableEq, Repr

/-- Go `xmlapi.ChannelFeedVideo`; the timestamps are `int64` milliseconds. -/
structure ChannelFeedVideo where
  ID : Str
  ChannelID : Str
  Title : Str
  Description : Str
  URL : Str
  ThumbnailURL : Str
  Published : Int
  Updated : Int
  deriving DecidableEq, Repr

/-- Go `isValidURL` (`xmlapi/util.go`, `util.go`). -/
def isValidURL (s : Str) : Bool :=
  match urlParse s with
  | none => false
  | some u => if u.Scheme = [] then false else true

/-- Go `parseDate` (`xmlapi/util.go`). The parameter `rfc3339` stands for the standard
library: `time.Parse(time.RFC3339, datetime)` followed by `UnixMilli()`, `none` for an
error. -/
def parseDate (rfc3339 : Str → Option Int) (datetime : Str) : Int × Bool :=
  match rfc3339 datetime with
  | none => (0, false)
  | some t => (t, true)

/-- The loop over `entry.Links` of `ChannelFeed.Videos`, from the URL set so far. -/
def ChannelFeed.Videos.url (url : Str) : List Link → Str
  | [] => url
  | link :: rest =>
    if link.Href.length = 0 || ToLower link.Rel ≠ "alternate".toList then
      ChannelFeed.Videos.url url rest
    else if isValidURL link.Href then ChannelFeed.Videos.url url rest
    else link.Href

/-- The loop over `entry.MediaGroups` of `ChannelFeed.Videos`, from the description and
thumbnail URL set so far. -/
def ChannelFeed.Videos.media (description thumbnailURL : Str) : List MediaGroup → Str × Str
  | [] => (description, thumbnailURL)
  | mg :: rest =>
    match mg.Thumbnail with
    | some url =>
      if url.length > 0 && isValidURL url then (mg.Description, url)
      else ChannelFeed.Videos.media mg.Description thumbnailURL rest
    | none => ChannelFeed.Videos.media mg.Description thumbnailURL rest

/-- The video that `ChannelFeed.Videos` builds from one entry. -/
def ChannelFeed.Videos.video (rfc3339 : Str → Option Int) (entry : ChannelFeedEntry) :
    ChannelFeedVideo :=
  let m := ChannelFeed.Videos.media [] [] entry.MediaGroups
  { ID := entry.VideoID
    ChannelID := entry.ChannelID
    Title := entry.Title
    Description := m.1
    URL := ChannelFeed.Videos.url ("https://www.youtube.com/watch?v=".toList ++ entry.VideoID)
      entry.Links
    ThumbnailURL := m.2
    Published := (parseDate rfc3339 entry.Published).1
    Updated := (parseDate rfc3339 entry.Updated).1 }

/-- The loop over `f.Entries` of `ChannelFeed.Videos`; `ids` are the ids seen so far. -/
def ChannelFeed.Videos.go (rfc3339 : Str → Option Int) (ids : List Str) :
    List ChannelFeedEntry → List ChannelFeedVideo
  | [] => []
  | entry :: rest =>
    if entry.VideoID.length = 0 then ChannelFeed.Videos.go rfc3339 ids rest
    else if ids.contains entry.VideoID then ChannelFeed.Videos.go rfc3339 ids rest
    else
      ChannelFeed.Videos.video rfc3339 entry ::
        ChannelFeed.Videos.go rfc3339 (ids ++ [entry.VideoID]) rest

/-- Go `(*ChannelFeed).Videos`; a nil receiver is `none`. -/
def ChannelFeed.Videos (rfc3339 : Str → Option Int) (f : Option ChannelFeed) :
    List ChannelFeedVideo :=
  match f with
  | none => []
  | some feed => ChannelFeed.Videos.go rfc3339 [] feed.Entries

/-! ## The channel pass (`entity.go`, `entityHandler`) -/

/-- Go `Handle`; the field `Type` (here `Type_`) is a `HandleType`, an unsigned integer:
1 for `HandleChannelID`, 2 for `HandleChannelURL`. -/
structure Handle where
  Type_ : Nat
  Value : Str
  deriving DecidableEq, Repr

/-- Go `HandleChannelID`. -/
def HandleChannelID : Nat := 1

/-- Go `HandleChannelURL`. -/
def HandleChannelURL : Nat := 2

/-- Go `Handle.Valid`. -/
def Handle.Valid (h : Handle) : Bool := h.Type_ ≠ 0 && h.Value ≠ []

/-- Go `ChannelID`: the handle of a channel id. -/
def ChannelID (channelID : Str) : Handle := ⟨HandleChannelID, channelID⟩

/-- Go `EntityData`. -/
structure EntityData where
  Live : Bool
  LiveVideos : List Str
  Feed : Option ChannelFeed
  LastFeedFetch : Time
  FeedVideoCandidates : List VideoCandidate
  deriving DecidableEq, Repr

/-- The zero value of `EntityData`. -/
def EntityData.zero : EntityData := ⟨false, [], none, zeroTime, []⟩

/-- The closure `max` of `entityHandler`: `v`, floored at `min`. -/
def entityHandler.max (min v : Duration) : Duration := if v < min then min else v

/-- The local `stopAfterLiveVideos` of `entityHandler`. -/
def entityHandler.stopAfterLiveVideos (settings : CrawlerSettings) : Int :=
  if settings.StopAfterLiveVideos < 1 then 0 else settings.StopAfterLiveVideos

/-- The local `minimumFetchChannelFeedDelay` of `entityHandler`. -/
def entityHandler.minimumFetchChannelFeedDelay (settings : CrawlerSettings) : Duration :=
  entityHandler.max (1 * Second) settings.MinimumFetchChannelFeedDelay

/-- The local `maximumCachedNotLivestreamAge` of `entityHandler`. -/
def entityHandler.maximumCachedNotLivestreamAge (settings : CrawlerSettings) : Duration :=
  entityHandler.max (1 * Second) settings.MaximumCachedNotLivestreamAge

/-- The local `maximumCachedLivestreamFinishedAge` of `entityHandler`. -/
def entityHandler.maximumCachedLivestreamFinishedAge (settings : CrawlerSettings) : Duration :=
  entityHandler.max (1 * Second) settings.MaximumCachedLivestreamFinishedAge

/-- The local `minimumCheckVideoDelay` of `entityHandler`. -/
def entityHandler.minimumCheckVideoDelay (settings : CrawlerSettings) : Duration :=
  entityHandler.max (1 * Second) settings.MinimumCheckVideoDelay

/-- The local `maximumVideoAge` of `entityHandler`. -/
def entityHandler.maximumVideoAge (settings : CrawlerSettings) : Duration :=
  entityHandler.max (0 * Second) settings.MaximumVideoAge

/-- The local `checkVideoTimeout` of `entityHandler`. -/
def entityHandler.checkVideoTimeout (settings : CrawlerSettings) : Duration :=
  entityHandler.max (0 * Second) settings.CheckVideoTimeout

/-- The loop over `vids` of the closure `getVideoCandidates` (lines 76 to 93); `nowm` is
`now.UnixMilli()`, the subtraction is an `int64` subtraction. -/
def entityHandler.getVideoCandidates.go (settings : CrawlerSettings) (channelID : Str)
    (nowm : Int) : List ChannelFeedVideo → List VideoCandidate
  | [] => []
  | vid :: rest =>
    let lastTouch := if vid.Published > vid.Updated then vid.Published else vid.Updated
    if lastTouch ≥ nowm then entityHandler.getVideoCandidates.go settings channelID nowm rest
    else if wrap64 (nowm - lastTouch) > Milliseconds (entityHandler.maximumVideoAge settings) then
      entityHandler.getVideoCandidates.go settings channelID nowm rest
    else
      VideoCandidate.fresh vid.ID channelID ::
        entityHandler.getVideoCandidates.go settings channelID nowm rest

/-- The closure `getVideoCandidates` of `entityHandler`; `now` is the value of `time.Now()`
at line 74. -/
def entityHandler.getVideoCandidates (settings : CrawlerSettings) (rfc3339 : Str → Option Int)
    (now : Time) (feed : Option ChannelFeed) (channelID : Str) :
    Except Error (List VideoCandidate) :=
  match feed with
  | none => .error (.new "feed is nil")
  | some f =>
    .ok (entityHandler.getVideoCandidates.go settings channelID (UnixMilli now)
      (ChannelFeed.Videos rfc3339 (some f)))

/-- A call made on behalf of one candidate: of the closure `processVideoCandidate`, of
`CheckLiveVideoThumbnail`, of `CheckLiveVideoState`. -/
inductive Call where
  | process
  | thumbnail
  | state
  deriving DecidableEq, Repr

/-- What one call of `processVideoCandidate` observes, in the order of the source:
`pctx.Err()` at line 106 (`none` also for a nil context), `time.Now()` at lines 120, 135,
160, 179 and 182, and what the two probes observe. The deadline that lines 113 to 117 set
on the derived context shows only in what the probes observe. -/
structure CheckObs where
  ctxErr : Option Error
  nowCache : Time
  thumb : ThumbObs
  nowThumb : Time
  nowFinished : Time
  state : StateObs
  nowLive : Time
  nowState : Time

/-- The result of one call of `processVideoCandidate`: the candidate as the call leaves it,
the error returned, and the probe calls made, in order. -/
structure Processed where
  vc : VideoCandidate
  err : Option Error
  calls : List Call
  deriving DecidableEq, Repr

/-- Lines 151 to 201 of `processVideoCandidate`: from the check of `vc.NotLivestream` on. -/
def entityHandler.processVideoCandidate.verdict (cr : Crawler) (obs : CheckObs)
    (vc : VideoCandidate) (calls : List Call) : Processed :=
  if vc.NotLivestream then
    ⟨{ vc with Live := false, LiveCheckAttempt := 0, LivestreamFinished := false,
               LastLivestreamFinished := zeroTime }, none, calls⟩
  else if vc.LivestreamFinished &&
      Sub obs.nowFinished vc.LastLivestreamFinished ≤
        entityHandler.maximumCachedLivestreamFinishedAge cr.settings then
    ⟨{ vc with Live := false, LiveCheckAttempt := 0 }, none, calls⟩
  else
    match CheckLiveVideoState cr obs.state vc.ID with
    | .ok (live, finished) =>
      ⟨{ vc with LastLive := obs.nowLive, LivestreamFinished := finished,
                 LastLivestreamFinished := obs.nowState, Live := live },
        none, calls ++ [Call.state]⟩
    | .error err =>
      ⟨{ vc with LastLive := obs.nowLive, LiveCheckAttempt := wrap64 (vc.LiveCheckAttempt + 1) },
        some (.wrapped "CheckLiveVideoState" err), calls ++ [Call.state]⟩

/-- The closure `processVideoCandidate` of `entityHandler`, called on a non-nil candidate
(its only call, at line 248, passes the address of a slice element). -/
def entityHandler.processVideoCandidate (cr : Crawler) (obs : CheckObs) (vc : VideoCandidate) :
    Processed :=
  match obs.ctxErr with
  | some err => ⟨vc, some err, []⟩
  | none =>
    if Sub obs.nowCache vc.LastNotLivestream ≥
        entityHandler.maximumCachedNotLivestreamAge cr.settings then
      match CheckLiveVideoThumbnail cr obs.thumb vc.ID [] with
      | .ok thumbnailExists =>
        entityHandler.processVideoCandidate.verdict cr obs
          { vc with LastNotLivestream := obs.nowThumb, NotLivestream := !thumbnailExists }
          [Call.thumbnail]
      | .error err =>
        ⟨{ vc with NotLivestream := false }, some (.wrapped "CheckLiveVideoThumbnail" err),
          [Call.thumbnail]⟩
    else entityHandler.processVideoCandidate.verdict cr obs vc []


/-- What one call of `FetchChannelXMLFeed` observes: `ctx.Err()` (with `none` also for a
nil context) and the outcome of lines 127 to 143: the request, the reading of the body and
`xmlapi.ParseChannelFeed`. -/
structure FeedObs where
  ctxErr : Option Error
  response : Except Error ChannelFeed

/-- Go `Crawler.FetchChannelXMLFeed`. -/
def FetchChannelXMLFeed (cr : Crawler) (obs : FeedObs) (channelID : Str) :
    Except Error ChannelFeed :=
  if channelID = [] || !IsValidChannelID channelID then .error .InvalidChannelID
  else if cr.clientNil then .error .NilClient
  else
    match obs.ctxErr with
    | some e => .error e
    | none => obs.response

/-- What one pass of `entityHandler` observes: `time.Now()` at lines 208, 225 and 74, what
`FetchChannelXMLFeed` observes, and for the candidate at index `idx` the values of
`time.Now()` at lines 247 and 249 and what `processVideoCandidate` observes. -/
structure PassObs where
  nowFeed : Time
  feed : FeedObs
  nowFetched : Time
  nowCandidates : Time
  nowLoop : Nat → Time
  check : Nat → CheckObs
  nowProcessed : Nat → Time

/-- The result of one pass: `entity.Data` after the call (`none` when it holds no
`EntityData`), the error returned, whether `FetchChannelXMLFeed` was called, and the calls
made on behalf of candidates, each with the candidate's index, in order. -/
structure PassResult where
  data : Option EntityData
  err : Option Error
  fetched : Bool
  calls : List (Nat × Call)
  deriving DecidableEq, Repr

/-- Lines 208 to 241 of `entityHandler`: the refresh of the feed. Returns the data, the
error to return if any, and whether `FetchChannelXMLFeed` was called. -/
def entityHandler.refresh (cr : Crawler) (rfc3339 : Str → Option Int) (obs : PassObs)
    (channelID : Str) (data : EntityData) : EntityData × Option Error × Bool :=
  if (data.Feed.isNone || data.FeedVideoCandidates.length = 0) &&
      Sub obs.nowFeed data.LastFeedFetch ≥
        entityHandler.minimumFetchChannelFeedDelay cr.settings then
    let cleared : EntityData :=
      { data with Feed := none, FeedVideoCandidates := [], LiveVideos := [] }
    match FetchChannelXMLFeed cr obs.feed channelID with
    | .error err => (cleared, some (.wrapped "FetchChannelXMLFeed" err), true)
    | .ok feed =>
      let fetched : EntityData :=
        { cleared with Feed := some feed, LastFeedFetch := obs.nowFetched }
      match entityHandler.getVideoCandidates cr.settings rfc3339 obs.nowCandidates (some feed)
          channelID with
      | .error err => ({ fetched with FeedVideoCandidates := [] }, some err, true)
      | .ok vcs => ({ fetched with FeedVideoCandidates := vcs }, none, true)
  else (data, none, false)

/-- Lines 247 to 266 of `entityHandler`: one candidate of the loop, up to the test of
`vc.LiveGenuine && vc.Live`. Returns the candidate and the calls made for it. -/
def entityHandler.visit (cr : Crawler) (obs : PassObs) (idx : Nat) (vc : VideoCandidate) :
    VideoCandidate × List (Nat × Call) :=
  if Sub (obs.nowLoop idx) vc.LastProcess ≥ entityHandler.minimumCheckVideoDelay cr.settings then
    let p := entityHandler.processVideoCandidate cr (obs.check idx) vc
    let calls := (idx, Call.process) :: p.calls.map (fun c => (idx, c))
    match p.err with
    | none => ({ p.vc with LastProcess := obs.nowProcessed idx, LiveGenuine := true }, calls)
    | some _ => ({ p.vc with LastProcess := obs.nowProcessed idx, LiveGenuine := false }, calls)
  else (vc, [])

/-- The test of line 271, `stopAfterLiveVideos > 0 && len(data.LiveVideos) >=
stopAfterLiveVideos`, when `data.LiveVideos` holds `n` ids. -/
def entityHandler.stops (settings : CrawlerSettings) (n : Nat) : Bool :=
  entityHandler.stopAfterLiveVideos settings > 0 &&
    (n : Int) ≥ entityHandler.stopAfterLiveVideos settings

/-- Lines 244 to 275 of `entityHandler`: the loop over `data.FeedVideoCandidates` from
index `idx` on, with `live` the value of `data.LiveVideos` so far. Returns the candidates,
`data.LiveVideos` and the calls made. -/
def entityHandler.loop (cr : Crawler) (obs : PassObs) :
    Nat → List VideoCandidate → List Str → List VideoCandidate × List Str × List (Nat × Call)
  | _, [], live => ([], live, [])
  | idx, vc :: rest, live =>
    let v := entityHandler.visit cr obs idx vc
    if v.1.LiveGenuine && v.1.Live then
      if entityHandler.stops cr.settings (live ++ [v.1.ID]).length then
        (v.1 :: rest, live ++ [v.1.ID], v.2)
      else
        let r := entityHandler.loop cr obs (idx + 1) rest (live ++ [v.1.ID])
        (v.1 :: r.1, r.2.1, v.2 ++ r.2.2)
    else
      let r := entityHandler.loop cr obs (idx + 1) rest live
      (v.1 :: r.1, r.2.1, v.2 ++ r.2.2)

/-- Go `Crawler.entityHandler`. The handle is `none` when `entity.Handle` is not a
`Handle`, the data `none` when `entity.Data` is not an `EntityData`. -/
def entityHandler (cr : Crawler) (rfc3339 : Str → Option Int) (obs : PassObs)
    (handle : Option Handle) (entityData : Option EntityData) : PassResult :=
  match handle with
  | none => ⟨entityData, some .InvalidHandle, false, []⟩
  | some h =>
    if !h.Valid then ⟨entityData, some .InvalidHandle, false, []⟩
    else if h.Type_ ≠ HandleChannelID then
      ⟨some (entityData.getD EntityData.zero), some .InvalidHandle, false, []⟩
    else
      let data : EntityData := { entityData.getD EntityData.zero with Live := false }
      match entityHandler.refresh cr rfc3339 obs h.Value data with
      | (data, some err, fetched) => ⟨some data, some err, fetched, []⟩
      | (data, none, fetched) =>
        let r := entityHandler.loop cr obs 0 data.FeedVideoCandidates []
        ⟨some { data with FeedVideoCandidates := r.1, LiveVideos := r.2.1,
                          Live := decide (r.2.1.length > 0) },
          none, fetched, r.2.2⟩


/-- The candidate list that the loop of `entityHandler` starts from, for a valid handle
of type `HandleChannelID`: `data.FeedVideoCandidates` after lines 205 to 241. -/
def entityHandler.candidates (cr : Crawler) (rfc3339 : Str → Option Int) (obs : PassObs)
    (h : Handle) (entityData : Option EntityData) : List VideoCandidate :=
  (entityHandler.refresh cr rfc3339 obs h.Value
    { entityData.getD EntityData.zero with Live := false }).1.FeedVideoCandidates

/-- The error with which lines 205 to 241 of `entityHandler` return, if they do. -/
def entityHandler.refreshErr (cr : Crawler) (rfc3339 : Str → Option Int) (obs : PassObs)
    (h : Handle) (entityData : Option EntityData) : Option Error :=
  (entityHandler.refresh cr rfc3339 obs h.Value
    { entityData.getD EntityData.zero with Live := false }).2.1

/-- The field `FeedVideoCandidates` of `entity.Data` after a pass. -/
def PassResult.candidates (r : PassResult) : List VideoCandidate :=
  match r.data with
  | some d => d.FeedVideoCandidates
  | none => []

/-- The field `LiveVideos` of `entity.Data` after a pass. -/
def PassResult.liveVideos (r : PassResult) : List Str :=
  match r.data with
  | some d => d.LiveVideos
  | none => []

/-- The test of line 268: `vc.LiveGenuine && vc.Live`. -/
def VideoCandidate.liveGenuine (vc : VideoCandidate) : Bool := vc.LiveGenuine && vc.Live

/-- The number of candidates among the first `i` of `cands` that pass the test of line
268. -/
def liveBefore (cands : List VideoCandidate) (i : Nat) : Nat :=
  ((cands.take i).filter VideoCandidate.liveGenuine).length

/-! ## The channel index (`xmlapi/channel.go`, `ParseChannelIndex`) -/

/-- Go `html.NodeType` of `golang.org/x/net/html`; `ErrorNode` is 0. -/
inductive NodeType where
  | ErrorNode
  | TextNode
  | DocumentNode
  | ElementNode
  | CommentNode
  | DoctypeNode
  | RawNode
  deriving DecidableEq, Repr

/-- Go `atom.Atom`, as far as the code compares it: 0 (also the atom of every element name
that is not listed), `atom.Html`, `atom.Head`, `atom.Body`, `atom.Link`. -/
inductive Atom where
  | zero
  | Html
  | Head
  | Body
  | Link
  deriving DecidableEq, Repr

/-- Go `html.Attribute`: key and value. -/
structure Attribute where
  Key : Str
  Val : Str
  deriving DecidableEq, Repr

/-- Go `html.Node`: type, atom, attributes and the list of children. A pointer to a node
is modelled by the list made of the node and its next siblings, nil by the empty list. -/
inductive Node where
  | mk (type : NodeType) (dataAtom : Atom) (attr : List Attribute) (children : List Node)

/-- Field `Type` of a node. -/
def Node.Type_ : Node → NodeType
  | .mk t _ _ _ => t

/-- Field `DataAtom` of a node. -/
def Node.DataAtom : Node → Atom
  | .mk _ a _ _ => a

/-- Field `Attr` of a node. -/
def Node.Attr : Node → List Attribute
  | .mk _ _ attr _ => attr

/-- Field `FirstChild` of a node, with the siblings that follow it. -/
def Node.FirstChild : Node → List Node
  | .mk _ _ _ children => children

/-- Go `ChannelIndex`. -/
structure ChannelIndex where
  ChannelID : Str
  deriving DecidableEq, Repr

/-- The local `linkTagStart` of `ParseChannelIndex`. -/
def linkTagStart : Str := "<link".toList

/-- The local `linkTagEnd` of `ParseChannelIndex`. -/
def linkTagEnd : Str := ">".toList

/-- Lines 42 to 59 of `ParseChannelIndex`: the loop that collects the link tags of `p` after
`linkTags`. Every turn shortens `p`, `fuel` bounds the number of turns. -/
def ParseChannelIndex.collect : Nat → Str → Str → Str
  | 0, _, linkTags => linkTags
  | fuel + 1, p, linkTags =>
    match Index p linkTagStart with
    | none => linkTags
    | some startPos =>
      match Index (p.drop startPos) linkTagEnd with
      | none => linkTags
      | some endPos =>
        let linkTag := (p.drop startPos).take (endPos + 1)
        ParseChannelIndex.collect fuel ((p.drop startPos).drop (endPos + 1))
          (if len linkTag > len linkTagStart + len linkTagEnd then linkTags ++ linkTag
           else linkTags)

/-- Lines 36 to 61 of `ParseChannelIndex`: the document handed to the HTML parser. -/
def ParseChannelIndex.linkTags (b : Str) : Str :=
  ParseChannelIndex.collect (b.length + 1) b "<html><body>".toList ++ "</body></html>".toList

/-- The closure `skipIntoChild` of `extract`: the first child of the first node, among
`node` and its next siblings, of the given type and atom (0 stands for any). -/
def ParseChannelIndex.skipIntoChild : List Node → NodeType → Atom → List Node
  | [], _, _ => []
  | node :: siblings, nodeType, atomType =>
    if (nodeType = .ErrorNode || node.Type_ = nodeType) &&
        (atomType = .zero || node.DataAtom = atomType) then node.FirstChild
    else ParseChannelIndex.skipIntoChild siblings nodeType atomType

/-- The local `attrs` of the loop of `extract`. -/
structure LinkAttrs where
  rel : Str
  itemprop : Str
  typ : Str
  href : Str
  deriving DecidableEq, Repr

/-- Lines 113 to 126 of `extract`: the loop over `node.Attr`. -/
def ParseChannelIndex.readAttrs (attrs : LinkAttrs) : List Attribute → LinkAttrs
  | [] => attrs
  | attr :: rest =>
    let k := ToLower attr.Key
    if k = "rel".toList then
      ParseChannelIndex.readAttrs { attrs with rel := ToLower attr.Val } rest
    else if k = "itemprop".toList then
      ParseChannelIndex.readAttrs { attrs with itemprop := ToLower attr.Val } rest
    else if k = "type".toList then
      ParseChannelIndex.readAttrs { attrs with typ := ToLower attr.Val } rest
    else if k = "href".toList then
      ParseChannelIndex.readAttrs { attrs with href := TrimSpace attr.Val } rest
    else ParseChannelIndex.readAttrs attrs rest

/-- Lines 129 to 142 and 144 to 157 of `extract`: the id that follows `marker` in `href`, up
to the separator `sep`, when the marker is found past position 0 and the id is valid. -/
def ParseChannelIndex.idAfter (href marker sep : Str) : Option Str :=
  match Index href marker with
  | none => none
  | some markerPos =>
    if markerPos > 0 then
      let s := href.drop (markerPos + marker.length)
      let s2 :=
        match Index s sep with
        | some pos => if pos > 0 then s.take pos else s
        | none => s
      if IsValidChannelID s2 then some s2 else none
    else none

/-- Lines 102 to 158 of `extract`: the channel id that one node yields, if any. -/
def ParseChannelIndex.nodeID (node : Node) : Option Str :=
  if node.Type_ ≠ .ElementNode || node.DataAtom ≠ .Link || node.Attr.length = 0 then none
  else
    let attrs := ParseChannelIndex.readAttrs ⟨[], [], [], []⟩ node.Attr
    if attrs.rel = "canonical".toList || attrs.itemprop = "url".toList then
      ParseChannelIndex.idAfter attrs.href "channel/".toList "/".toList
    else if attrs.rel = "alternate".toList && Contains attrs.typ "rss".toList then
      ParseChannelIndex.idAfter attrs.href "channel_id=".toList "&".toList
    else none

/-- Lines 101 to 164 of `extract`: the loop over `node` and its next siblings; the empty
string when no node yields an id. -/
def ParseChannelIndex.scan : List Node → Str
  | [] => []
  | node :: siblings =>
    match ParseChannelIndex.nodeID node with
    | some s => s
    | none => ParseChannelIndex.scan siblings

/-- Lines 86 to 99 of `extract`: the three calls of `skipIntoChild`, from the root to the
first child of the body element. -/
def ParseChannelIndex.bodyNodes (root : Node) : List Node :=
  ParseChannelIndex.skipIntoChild
    (ParseChannelIndex.skipIntoChild
      (ParseChannelIndex.skipIntoChild [root] .DocumentNode .zero)
      .ElementNode .Html)
    .ElementNode .Body

/-- The closure `extract` of `ParseChannelIndex`. The parameter `parse` stands for
`html.Parse` of `golang.org/x/net/html`: an error, a nil root, or a root. -/
def ParseChannelIndex.extract (parse : Str → Except Error (Option Node)) (b : Str) :
    Except Error Str :=
  match parse b with
  | .error err => .error err
  | .ok none => .ok []
  | .ok (some root) => .ok (ParseChannelIndex.scan (ParseChannelIndex.bodyNodes root))

/-- Go `xmlapi.ParseChannelIndex`, with `html.Parse` as the parameter `parse`. -/
def ParseChannelIndex (parse : Str → Except Error (Option Node)) (b : Str) :
    Except Error ChannelIndex :=
  if len b = 0 then .error (.new "b is empty")
  else
    match ParseChannelIndex.extract parse (ParseChannelIndex.linkTags b) with
    | .error err => .error (.wrapped "failed HTML extraction" err)
    | .ok channelID =>
      if channelID = [] then .error (.new "failed HTML extraction")
      else .ok ⟨channelID⟩


/-! ## A model of `html.Parse` (`golang.org/x/net/html`)

`ParseChannelIndex` hands to the library a document made of `<html><body>`, of pieces of
the page that each start with `<link` and end at the next `>`, and of `</body></html>`. In
such a document every `>` is followed by `<link`, by `</body>` or by nothing, so the
library's tokenizer finds tags only. The model follows the tokenizer on tags (`readTag`,
`readTagName`, `readTagAttrKey`, `readTagAttrVal`) and the tree construction on such
documents: `html`, an implied `head`, `body`; a `link` element becomes a child of the
current element; an element of another name becomes a child and the current element.
Character references in attribute values are not decoded, text, comments and doctypes are
not modelled. -/

/-- A tag found by the tokenizer. -/
inductive Token where
  | startTag (name : Str) (attr : List Attribute)
  | endTag (name : Str)
  deriving DecidableEq, Repr

/-- White space inside a tag. -/
def isTagSpace (c : Char) : Bool :=
  c == ' ' || c == '\n' || c == '\r' || c == '\t' || c.toNat == 0x0C

/-- Go `readTagName`: the name ends before white space, `/` or `>`. -/
def readTagName (s : Str) : Str × Str :=
  (s.takeWhile (fun c => !(isTagSpace c || c == '/' || c == '>')),
   s.dropWhile (fun c => !(isTagSpace c || c == '/' || c == '>')))

/-- Go `readTagAttrKey`: the key read so far is `key`; white space and `/` end the key and
are consumed, `>` and a `=` that is not the first byte end it and are left. -/
def readTagAttrKey (key : Str) : Str → Str × Str
  | [] => (key, [])
  | c :: rest =>
    if isTagSpace c || c == '/' then (key, rest)
    else if c == '=' then
      if key.isEmpty then readTagAttrKey (key ++ [c]) rest else (key, c :: rest)
    else if c == '>' then (key, c :: rest)
    else readTagAttrKey (key ++ [c]) rest

/-- Go `readTagAttrVal`: the value after `=`, quoted or up to white space or `>`. -/
def readTagAttrVal (s : Str) : Str × Str :=
  match s.dropWhile isTagSpace with
  | '=' :: s2 =>
    match s2.dropWhile isTagSpace with
    | [] => ([], [])
    | q :: s4 =>
      if q == '>' then ([], q :: s4)
      else if q == '"' || q == '\'' then
        (s4.takeWhile (fun c => c != q), (s4.dropWhile (fun c => c != q)).drop 1)
      else
        ((q :: s4).takeWhile (fun c => !(isTagSpace c || c == '>')),
         match (q :: s4).dropWhile (fun c => !(isTagSpace c || c == '>')) with
         | [] => []
         | c :: rest => if c == '>' then c :: rest else rest)
  | other => ([], other)

/-- The loop of Go `readTag` over the attributes, up to the closing `>`; `none` when the
input ends inside the tag. -/
def readTagAttrs : Nat → Str → List Attribute → Option (List Attribute × Str)
  | 0, _, _ => none
  | _ + 1, [], _ => none
  | fuel + 1, c :: rest, attr =>
    if c == '>' then some (attr, rest)
    else
      let k := readTagAttrKey [] (c :: rest)
      let v := readTagAttrVal k.2
      readTagAttrs fuel (v.2.dropWhile isTagSpace)
        (if k.1.isEmpty then attr else attr ++ [⟨lower k.1, v.1⟩])

/-- The tags of a document, in order: `<` starts a start tag, `</` an end tag; the
tokenizer stops at a tag that the input ends in. -/
def tokenize : Nat → Str → List Token
  | 0, _ => []
  | _ + 1, [] => []
  | fuel + 1, c :: rest =>
    if c == '<' then
      if HasPrefix rest ['/'] then
        match readTagAttrs (rest.length + 1)
            ((readTagName (rest.drop 1)).2.dropWhile isTagSpace) [] with
        | none => []
        | some (_, rest3) =>
          Token.endTag (lower (readTagName (rest.drop 1)).1) :: tokenize fuel rest3
      else
        match readTagAttrs (rest.length + 1) ((readTagName rest).2.dropWhile isTagSpace) [] with
        | none => []
        | some (attr, rest3) =>
          Token.startTag (lower (readTagName rest).1) attr :: tokenize fuel rest3
    else tokenize fuel rest

/-- The children of the current element, from the tags that follow in the body. -/
def bodyChildren : List Token → List Node
  | [] => []
  | Token.endTag _ :: _ => []
  | Token.startTag name attr :: rest =>
    if name = "link".toList then Node.mk .ElementNode .Link attr [] :: bodyChildren rest
    else [Node.mk .ElementNode .zero attr (bodyChildren rest)]

/-- The tree of a document whose body has the given children: the document node, the
`html` element, the implied `head` element and the `body` element. -/
def documentOf (children : List Node) : Node :=
  Node.mk .DocumentNode .zero []
    [Node.mk .ElementNode .Html []
      [Node.mk .ElementNode .Head [] [], Node.mk .ElementNode .Body [] children]]

/-- The model of `html.Parse` on the documents that `ParseChannelIndex` builds: the tree
of the document, with the children of the body that the tags give. Other documents get an
empty document node. -/
def htmlParse (b : Str) : Except Error (Option Node) :=
  match tokenize (b.length + 1) b with
  | Token.startTag name1 _ :: Token.startTag name2 _ :: rest =>
    if name1 = "html".toList && name2 = "body".toList then
      .ok (some (documentOf (bodyChildren rest)))
    else .ok (some (Node.mk .DocumentNode .zero [] []))
  | _ => .ok (some (Node.mk .DocumentNode .zero [] []))

/-! ## Specification-side definitions -/

/-- From the words of the specification ("dedup by first-seen id", "using the first
occurrence's metadata"): the entries that give a video, in order: those with a non-empty
video id that no entry before them carries; `earlier` holds the entries before. -/
def firstWithID (earlier : List ChannelFeedEntry) :
    List ChannelFeedEntry → List ChannelFeedEntry
  | [] => []
  | entry :: rest =>
    if entry.VideoID ≠ [] ∧ ∀ x ∈ earlier, x.VideoID ≠ entry.VideoID then
      entry :: firstWithID (earlier ++ [entry]) rest
    else firstWithID (earlier ++ [entry]) rest

/-- From the words of the specification for the authoritative probe: the verdict
`(live, finished)` taken from the first item whose id is `videoID` and that has
live-streaming details: `finished` when `ActualEndTime` is present, `live` when it is not
and `ActualStartTime` is present; both false without such an item. -/
def liveVerdict (videoID : Str) (items : List VideoItem) : Bool × Bool :=
  match items.find? (fun item => item.Id = videoID && item.LiveStreamingDetails.isSome) with
  | none => (false, false)
  | some item =>
    match item.LiveStreamingDetails with
    | none => (false, false)
    | some d =>
      (decide (d.ActualEndTime = [] ∧ d.ActualStartTime ≠ []), decide (d.ActualEndTime ≠ []))

/-- From the words of the specification ("URL preferred from an `alternate` link if present
and not itself a generic external URL"): the first link of an entry with a non-empty
address, of relation `alternate`, whose address is not a valid URL. -/
def firstAlternate (links : List Link) : Option Link :=
  links.find? fun link =>
    link.Href ≠ [] && ToLower link.Rel = "alternate".toList && !isValidURL link.Href

/-- From the words of the specification ("the first per-entry media group with a valid
thumbnail URL"): the first media group of an entry whose thumbnail has a non-empty, valid
URL. -/
def firstWithThumbnail (groups : List MediaGroup) : Option MediaGroup :=
  groups.find? fun mg =>
    match mg.Thumbnail with
    | some url => url ≠ [] && isValidURL url
    | none => false

/-- From the words of the specification: the video of an entry. Id, channel id and title are
the entry's; the URL is the address of `firstAlternate`, "else synthesized as a canonical
watch URL"; description and thumbnail URL are "taken from the first per-entry media group
with a valid thumbnail URL" (without such a group the thumbnail URL is empty and the
description is the one of the last group, if any); a timestamp that does not parse is 0. -/
def videoOf (rfc3339 : Str → Option Int) (entry : ChannelFeedEntry) : ChannelFeedVideo :=
  { ID := entry.VideoID
    ChannelID := entry.ChannelID
    Title := entry.Title
    Description :=
      match firstWithThumbnail entry.MediaGroups with
      | some mg => mg.Description
      | none => (entry.MediaGroups.getLast?.map MediaGroup.Description).getD []
    URL :=
      match firstAlternate entry.Links with
      | some link => link.Href
      | none => "https://www.youtube.com/watch?v=".toList ++ entry.VideoID
    ThumbnailURL :=
      match firstWithThumbnail entry.MediaGroups with
      | some mg => mg.Thumbnail.getD []
      | none => []
    Published := (rfc3339 entry.Published).getD 0
    Updated := (rfc3339 entry.Updated).getD 0 }

/-- The invariant of the states that passes start from and leave: a state that holds candidates holds the
feed they were taken from (lines 209 and 210 clear both, line 224 sets `Feed` before line
237 sets the candidates). -/
def EntityData.consistent (d : EntityData) : Bool :=
  d.FeedVideoCandidates.isEmpty || d.Feed.isSome

/-! ## Concrete inputs used by the closed theorems -/

/-- The link element of the specification's example: a canonical link to the channel
`id`. -/
def canonicalLink (id : Str) : Str :=
  "<link rel=\"canonical\" href=\"https://www.youtube.com/channel/".toList ++ id ++ "\">".toList

/-- An alternate link to the RSS feed of the channel `id`. -/
def alternateLink (id : Str) : Str :=
  "<link rel=\"alternate\" type=\"application/rss+xml\" title=\"RSS\" href=\"https://www.youtube.com/feeds/videos.xml?channel_id=".toList
    ++ id ++ "\">".toList

/-- The node of the element `canonicalLink id`. -/
def canonicalNode (id : Str) : Node :=
  Node.mk .ElementNode .Link
    [⟨"rel".toList, "canonical".toList⟩,
     ⟨"href".toList, "https://www.youtube.com/channel/".toList ++ id⟩] []

/-- The node of the element `alternateLink id`. -/
def alternateNode (id : Str) : Node :=
  Node.mk .ElementNode .Link
    [⟨"rel".toList, "alternate".toList⟩, ⟨"type".toList, "application/rss+xml".toList⟩,
     ⟨"title".toList, "RSS".toList⟩,
     ⟨"href".toList, "https://www.youtube.com/feeds/videos.xml?channel_id=".toList ++ id⟩] []

/-- The channel id of the specification's example. -/
def channelA : Str := "UC_x5XG1OV2P6uZZ5FSM9Ttw".toList

/-- Another channel id. -/
def channelB : Str := "UCBBBBBBBBBBBBBBBBBBBBBB".toList


/-- A crawler with a client, a service and the default settings. -/
def demoCrawler : Crawler := ⟨false, false, DefaultSettings⟩

/-- The instant 2024-01-01T00:00:00Z. -/
def demoNow : Time := 1704067200 * Second

/-- A thumbnail probe that finds the live thumbnail (status 200). -/
def thumbFound : ThumbObs := ⟨none, fun _ => .ok 200⟩

/-- A thumbnail probe whose request gets status 500. -/
def thumbFails : ThumbObs := ⟨none, fun _ => .ok 500⟩

/-- An authoritative probe that answers: the video `id` has started and not ended. -/
def stateLive (id : Str) : StateObs :=
  ⟨none, .ok [⟨id, some ⟨"2024-01-01T00:00:00Z".toList, []⟩⟩]⟩

/-- Observations of one `processVideoCandidate` call at `demoNow`: the context is alive, the
thumbnail probe gives `thumb`, the authoritative probe says that `id` is live. -/
def checkLive (thumb : ThumbObs) (id : Str) : CheckObs :=
  { ctxErr := none, nowCache := demoNow, thumb := thumb, nowThumb := demoNow,
    nowFinished := demoNow, state := stateLive id, nowLive := demoNow, nowState := demoNow }

/-- A candidate whose thumbnail was probed one minute before `demoNow` and found: the
not-livestream cache is fresh and says `NotLivestream = false`. Three authoritative checks
have failed before. -/
def cachedThumbnailFound : VideoCandidate :=
  { VideoCandidate.fresh "abc123def45".toList "UC_x5XG1OV2P6uZZ5FSM9Ttw".toList with
    LastNotLivestream := demoNow - 60 * Second, LiveCheckAttempt := 3 }

/-- The handle of the channel of the examples. -/
def demoHandle : Handle := ChannelID "UC_x5XG1OV2P6uZZ5FSM9Ttw".toList

/-- Three candidates of the channel, never processed before. -/
def demoCandidates : List VideoCandidate :=
  [ VideoCandidate.fresh "video-aaaa1".toList demoHandle.Value,
    VideoCandidate.fresh "video-bbbb2".toList demoHandle.Value,
    VideoCandidate.fresh "video-cccc3".toList demoHandle.Value ]

/-- The state of an entity that holds a feed and the three candidates. -/
def demoData : EntityData :=
  { Live := false, LiveVideos := [], Feed := some ⟨[]⟩, LastFeedFetch := demoNow - 10 * Second,
    FeedVideoCandidates := demoCandidates }

/-- The id of the candidate of `demoCandidates` at index `idx`. -/
def demoID (idx : Nat) : Str := ((demoCandidates.map VideoCandidate.ID)[idx]?).getD []

/-- Observations of a pass at `demoNow` in which no feed can be fetched and the candidate
at index `idx` observes `check idx`. -/
def passAt (check : Nat → CheckObs) : PassObs :=
  { nowFeed := demoNow, feed := ⟨none, .error (.foreign 1)⟩, nowFetched := demoNow,
    nowCandidates := demoNow, nowLoop := fun _ => demoNow, check := check,
    nowProcessed := fun _ => demoNow }

/-- A pass in which the thumbnail probe of the first candidate fails with status 500 and
every other candidate is found live. -/
def firstProbeFails : PassObs :=
  passAt fun idx => if idx = 0 then checkLive thumbFails (demoID idx)
    else checkLive thumbFound (demoID idx)

/-- A pass in which the candidate at index 1 has no live thumbnail (status 404) and the
others are found live. -/
def firstAndThirdLive : PassObs :=
  passAt fun idx => if idx = 1 then checkLive ⟨none, fun _ => .ok 404⟩ (demoID idx)
    else checkLive thumbFound (demoID idx)

/-- A standard library that parses no timestamp: `time.Parse` fails on every input. -/
def noRfc3339 : Str → Option Int := fun _ => none

/-- The standard library on the timestamps of the examples: the milliseconds since the
Unix epoch of three RFC 3339 strings; every other string is taken not to parse. -/
def demoRfc3339 (s : Str) : Option Int :=
  if s = "2023-11-02T00:00:00Z".toList then some 1698883200000
  else if s = "2023-11-01T23:59:59.999Z".toList then some 1698883199999
  else if s = "2023-12-31T23:00:00Z".toList then some 1704063600000
  else none

/-- A feed entry of the channel of the examples, with the given video id and timestamp of
publication and update. -/
def demoEntry (videoID datetime : String) : ChannelFeedEntry :=
  { VideoID := videoID.toList, ChannelID := "UC_x5XG1OV2P6uZZ5FSM9Ttw".toList,
    Title := "title".toList, Links := [], Published := datetime.toList,
    Updated := datetime.toList, MediaGroups := [] }

/-- A feed with a video last touched exactly 60 days before `demoNow` and one last touched
a millisecond earlier. -/
def boundaryFeed : ChannelFeed :=
  ⟨[demoEntry "video-edge0" "2023-11-02T00:00:00Z",
    demoEntry "video-older" "2023-11-01T23:59:59.999Z"]⟩

/-- A feed with one video, last touched an hour before `demoNow`. -/
def recentFeed : ChannelFeed := ⟨[demoEntry "video-hour1" "2023-12-31T23:00:00Z"]⟩

/-- A candidate of the examples that has never been probed: its caches are stale. -/
def neverProbed : VideoCandidate :=
  VideoCandidate.fresh "abc123def45".toList "UC_x5XG1OV2P6uZZ5FSM9Ttw".toList

/-- The state of an entity that holds the three candidates but no feed, last fetched an
hour before `demoNow`. -/
def candidatesWithoutFeed : EntityData :=
  { demoData with Feed := none, LastFeedFetch := demoNow - 3600 * Second }

/-- The three candidates, each processed a second before `demoNow`; the first was found
live then. -/
def restingCandidates : List VideoCandidate :=
  [ { VideoCandidate.fresh "video-aaaa1".toList demoHandle.Value with
      LastProcess := demoNow - 1 * Second, LiveGenuine := true, Live := true },
    { VideoCandidate.fresh "video-bbbb2".toList demoHandle.Value with
      LastProcess := demoNow - 1 * Second, LiveGenuine := true, NotLivestream := true },
    { VideoCandidate.fresh "video-cccc3".toList demoHandle.Value with
      LastProcess := demoNow - 1 * Second } ]

/-- The state of an entity that holds a feed and `restingCandidates`. -/
def restingData : EntityData := { demoData with FeedVideoCandidates := restingCandidates }

/-- The state of an entity whose feed is due: no feed, no candidates, last fetched an hour
before `demoNow`. -/
def dueData : EntityData :=
  { Live := true, LiveVideos := ["video-aaaa1".toList], Feed := none,
    LastFeedFetch := demoNow - 3600 * Second, FeedVideoCandidates := [] }

/-- Observations of a pass at `demoNow` in which the fetch of the feed answers
`recentFeed` and every candidate is found live. -/
def passFetching : PassObs :=
  { passAt (fun _ => checkLive thumbFound "video-hour1".toList) with
    feed := ⟨none, .ok recentFeed⟩ }

/-- A link element that yields no channel id: a style sheet. -/
def stylesheetLink : Str := "<link rel=\"stylesheet\" href=\"/s/channel/style.css\">".toList

/-- The node of the element `stylesheetLink`. -/
def stylesheetNode : Node :=
  Node.mk .ElementNode .Link
    [⟨"rel".toList, "stylesheet".toList⟩, ⟨"href".toList, "/s/channel/style.css".toList⟩] []

/-! # Theorems -/

/-! ## The candidate state machine -/

/-- With a fresh not-livestream cache the thumbnail probe is not called. -/
theorem processVideoCandidate_fresh_skips_thumbnail (cr : Crawler) (obs : CheckObs)
    (vc : VideoCandidate)
    (hfresh : Sub obs.nowCache vc.LastNotLivestream <
      entityHandler.maximumCachedNotLivestreamAge cr.settings) :
    Call.thumbnail ∉ (entityHandler.processVideoCandidate cr obs vc).calls := by
  have hnot : ¬ (Sub obs.nowCache vc.LastNotLivestream ≥
      entityHandler.maximumCachedNotLivestreamAge cr.settings) := not_le.mpr hfresh
  unfold entityHandler.processVideoCandidate
  cases hc : obs.ctxErr with
  | some e => simp
  | none =>
    simp only [hnot, if_false]
    unfold entityHandler.processVideoCandidate.verdict
    split
    · simp
    · split
      · simp
      · split <;> simp

/-- C1 (as stated, refuted): a candidate whose not-livestream cache is fresh but holds the
verdict `NotLivestream = false` is sent to the authoritative probe and comes out live; and
with a cancelled context a candidate with a fresh cache gets an error. -/
theorem C1_fresh_cache_does_not_stop :
    (Sub (checkLive thumbFound cachedThumbnailFound.ID).nowCache
        cachedThumbnailFound.LastNotLivestream <
      entityHandler.maximumCachedNotLivestreamAge demoCrawler.settings) ∧
    (entityHandler.processVideoCandidate demoCrawler
        (checkLive thumbFound cachedThumbnailFound.ID) cachedThumbnailFound).calls
      = [Call.state] ∧
    (entityHandler.processVideoCandidate demoCrawler
        (checkLive thumbFound cachedThumbnailFound.ID) cachedThumbnailFound).vc.Live = true ∧
    (entityHandler.processVideoCandidate demoCrawler
        { checkLive thumbFound cachedThumbnailFound.ID with ctxErr := some (.foreign 0) }
        { cachedThumbnailFound with NotLivestream := true }).err = some (.foreign 0) := by
  decide

/-- C1 (amended): for a candidate processed with a context that is not cancelled and a
fresh not-livestream cache, the thumbnail probe is not called; if moreover the cached
verdict `NotLivestream` is true, no probe at all is called, `Live = false`,
`LiveCheckAttempt = 0`, `LivestreamFinished = false` and no error is returned. -/
theorem C1_fresh_notLivestream_verdict_stops (cr : Crawler) (obs : CheckObs)
    (vc : VideoCandidate) (hctx : obs.ctxErr = none)
    (hfresh : Sub obs.nowCache vc.LastNotLivestream <
      entityHandler.maximumCachedNotLivestreamAge cr.settings) :
    Call.thumbnail ∉ (entityHandler.processVideoCandidate cr obs vc).calls ∧
    (vc.NotLivestream = true →
      (entityHandler.processVideoCandidate cr obs vc).calls = [] ∧
      (entityHandler.processVideoCandidate cr obs vc).vc.Live = false ∧
      (entityHandler.processVideoCandidate cr obs vc).vc.LiveCheckAttempt = 0 ∧
      (entityHandler.processVideoCandidate cr obs vc).vc.LivestreamFinished = false ∧
      (entityHandler.processVideoCandidate cr obs vc).err = none) := by
  refine ⟨processVideoCandidate_fresh_skips_thumbnail cr obs vc hfresh, ?_⟩
  intro hnl
  have hnot : ¬ (Sub obs.nowCache vc.LastNotLivestream ≥
      entityHandler.maximumCachedNotLivestreamAge cr.settings) := not_le.mpr hfresh
  simp [entityHandler.processVideoCandidate, entityHandler.processVideoCandidate.verdict,
    hctx, hnot, hnl]

/-- C1 (amended), at a concrete candidate: the cached verdict `NotLivestream = true` is
one minute old, the candidate was live before; after processing no call was made and the
candidate is not live. -/
theorem C1_fresh_notLivestream_verdict_stops_witness :
    (Sub (checkLive thumbFound cachedThumbnailFound.ID).nowCache
        ({ cachedThumbnailFound with NotLivestream := true, Live := true } :
          VideoCandidate).LastNotLivestream <
      entityHandler.maximumCachedNotLivestreamAge demoCrawler.settings) ∧
    Call.thumbnail ∉ (entityHandler.processVideoCandidate demoCrawler
        (checkLive thumbFound cachedThumbnailFound.ID)
        { cachedThumbnailFound with NotLivestream := true, Live := true }).calls ∧
    (entityHandler.processVideoCandidate demoCrawler
        (checkLive thumbFound cachedThumbnailFound.ID)
        { cachedThumbnailFound with NotLivestream := true, Live := true }).calls = [] ∧
    (entityHandler.processVideoCandidate demoCrawler
        (checkLive thumbFound cachedThumbnailFound.ID)
        { cachedThumbnailFound with NotLivestream := true, Live := true }).vc.Live = false ∧
    (entityHandler.processVideoCandidate demoCrawler
        (checkLive thumbFound cachedThumbnailFound.ID)
        { cachedThumbnailFound with NotLivestream := true, Live := true }).vc.LiveCheckAttempt
          = 0 ∧
    (entityHandler.processVideoCandidate demoCrawler
        (checkLive thumbFound cachedThumbnailFound.ID)
        { cachedThumbnailFound with NotLivestream := true, Live := true }).vc.LivestreamFinished
          = false ∧
    (entityHandler.processVideoCandidate demoCrawler
        (checkLive thumbFound cachedThumbnailFound.ID)
        { cachedThumbnailFound with NotLivestream := true, Live := true }).err = none :=
  ⟨by decide,
    (C1_fresh_notLivestream_verdict_stops demoCrawler
      (checkLive thumbFound cachedThumbnailFound.ID)
      { cachedThumbnailFound with NotLivestream := true, Live := true } rfl (by decide)).1,
    (C1_fresh_notLivestream_verdict_stops demoCrawler
      (checkLive thumbFound cachedThumbnailFound.ID)
      { cachedThumbnailFound with NotLivestream := true, Live := true } rfl (by decide)).2 rfl⟩

/-- When the authoritative probe is reached and succeeds, `Live` and `LivestreamFinished`
take the probe's verdicts and `LiveCheckAttempt` keeps the value it had before. -/
theorem processVideoCandidate_state_success (cr : Crawler) (obs : CheckObs)
    (vc : VideoCandidate) (live finished : Bool)
    (hreach : Call.state ∈ (entityHandler.processVideoCandidate cr obs vc).calls)
    (hok : CheckLiveVideoState cr obs.state vc.ID = .ok (live, finished)) :
    (entityHandler.processVideoCandidate cr obs vc).vc.Live = live ∧
    (entityHandler.processVideoCandidate cr obs vc).vc.LivestreamFinished = finished ∧
    (entityHandler.processVideoCandidate cr obs vc).vc.LiveCheckAttempt = vc.LiveCheckAttempt ∧
    (entityHandler.processVideoCandidate cr obs vc).err = none := by
  have key : ∀ (v : VideoCandidate) (calls : List Call), v.ID = vc.ID → Call.state ∉ calls →
      Call.state ∈ (entityHandler.processVideoCandidate.verdict cr obs v calls).calls →
      (entityHandler.processVideoCandidate.verdict cr obs v calls).vc.Live = live ∧
      (entityHandler.processVideoCandidate.verdict cr obs v calls).vc.LivestreamFinished
        = finished ∧
      (entityHandler.processVideoCandidate.verdict cr obs v calls).vc.LiveCheckAttempt
        = v.LiveCheckAttempt ∧
      (entityHandler.processVideoCandidate.verdict cr obs v calls).err = none := by
    intro v calls hid hnc
    unfold entityHandler.processVideoCandidate.verdict
    split
    · intro h; exact absurd h hnc
    · split
      · intro h; exact absurd h hnc
      · rw [hid, hok]; simp
  revert hreach
  unfold entityHandler.processVideoCandidate
  cases hc : obs.ctxErr with
  | some e => simp
  | none =>
    simp only
    split
    · cases ht : CheckLiveVideoThumbnail cr obs.thumb vc.ID [] with
      | error e => simp
      | ok b =>
        simp only
        intro h
        exact key _ [Call.thumbnail] rfl (by simp) h
    · intro h
      exact key vc [] rfl (by simp) h

/-- C2 (the code at the failing input): a candidate with `LiveCheckAttempt = 3` is sent to
the authoritative probe, the probe succeeds with live = true and finished = false; after
processing `Live` and `LivestreamFinished` hold the verdicts but `LiveCheckAttempt` is
still 3, not 0. -/
theorem C2_success_keeps_LiveCheckAttempt :
    cachedThumbnailFound.LiveCheckAttempt = 3 ∧
    CheckLiveVideoState demoCrawler (checkLive thumbFound cachedThumbnailFound.ID).state
      cachedThumbnailFound.ID = .ok (true, false) ∧
    Call.state ∈ (entityHandler.processVideoCandidate demoCrawler
        (checkLive thumbFound cachedThumbnailFound.ID) cachedThumbnailFound).calls ∧
    (entityHandler.processVideoCandidate demoCrawler
        (checkLive thumbFound cachedThumbnailFound.ID) cachedThumbnailFound).vc.Live = true ∧
    (entityHandler.processVideoCandidate demoCrawler
        (checkLive thumbFound cachedThumbnailFound.ID) cachedThumbnailFound).vc.LivestreamFinished
      = false ∧
    (entityHandler.processVideoCandidate demoCrawler
        (checkLive thumbFound cachedThumbnailFound.ID) cachedThumbnailFound).vc.LiveCheckAttempt
      = 3 ∧
    (entityHandler.processVideoCandidate demoCrawler
        (checkLive thumbFound cachedThumbnailFound.ID) cachedThumbnailFound).err = none := by
  decide


/-! ## The loop over the candidates -/

/-- The calls that `visit` records: none when the candidate is not due, else the call of
`processVideoCandidate` followed by the probe calls it made, all with the index. -/
theorem visit_calls (cr : Crawler) (obs : PassObs) (idx : Nat) (vc : VideoCandidate) :
    (entityHandler.visit cr obs idx vc).2 =
      if Sub (obs.nowLoop idx) vc.LastProcess ≥ entityHandler.minimumCheckVideoDelay cr.settings
      then (idx, Call.process) ::
        (entityHandler.processVideoCandidate cr (obs.check idx) vc).calls.map (fun c => (idx, c))
      else [] := by
  unfold entityHandler.visit
  split
  · cases h : (entityHandler.processVideoCandidate cr (obs.check idx) vc).err <;> simp [h]
  · rfl

/-- The candidate that `visit` returns: unchanged when it is not due, else as
`processVideoCandidate` leaves it, with `LastProcess` set and `LiveGenuine` telling whether
no error was returned. -/
theorem visit_candidate (cr : Crawler) (obs : PassObs) (idx : Nat) (vc : VideoCandidate) :
    (entityHandler.visit cr obs idx vc).1 =
      if Sub (obs.nowLoop idx) vc.LastProcess ≥ entityHandler.minimumCheckVideoDelay cr.settings
      then { (entityHandler.processVideoCandidate cr (obs.check idx) vc).vc with
        LastProcess := obs.nowProcessed idx
        LiveGenuine := (entityHandler.processVideoCandidate cr (obs.check idx) vc).err.isNone }
      else vc := by
  unfold entityHandler.visit
  split
  · cases h : (entityHandler.processVideoCandidate cr (obs.check idx) vc).err <;> simp [h]
  · rfl

/-- Every call that `visit` records carries the index of the visited candidate. -/
theorem visit_calls_index (cr : Crawler) (obs : PassObs) (idx : Nat) (vc : VideoCandidate)
    (j : Nat) (c : Call) (h : (j, c) ∈ (entityHandler.visit cr obs idx vc).2) : j = idx := by
  rw [visit_calls] at h
  split at h
  · simp only [List.mem_cons, List.mem_map, Prod.mk.injEq] at h
    rcases h with h | ⟨_, _, h⟩
    · exact h.1
    · exact h.1.symm
  · simp at h

/-- The loop keeps the number of candidates. -/
theorem loop_length (cr : Crawler) (obs : PassObs) (cands : List VideoCandidate) :
    ∀ (idx : Nat) (live : List Str),
      (entityHandler.loop cr obs idx cands live).1.length = cands.length := by
  induction cands with
  | nil => intro idx live; simp [entityHandler.loop]
  | cons vc rest ih =>
    intro idx live
    unfold entityHandler.loop
    simp only
    split
    · split
      · simp
      · simp [ih]
    · simp [ih]

/-- Every call that the loop records was recorded by the visit of the candidate whose index
it carries. -/
theorem loop_calls_sound (cr : Crawler) (obs : PassObs) (cands : List VideoCandidate) :
    ∀ (idx : Nat) (live : List Str) (j : Nat) (c : Call),
      (j, c) ∈ (entityHandler.loop cr obs idx cands live).2.2 →
      ∃ i vc, j = idx + i ∧ cands[i]? = some vc ∧ (j, c) ∈ (entityHandler.visit cr obs j vc).2 := by
  induction cands with
  | nil => intro idx live j c h; simp [entityHandler.loop] at h
  | cons v0 rest ih =>
    intro idx live j c h
    have here : (j, c) ∈ (entityHandler.visit cr obs idx v0).2 →
        ∃ i vc, j = idx + i ∧ (v0 :: rest)[i]? = some vc ∧
          (j, c) ∈ (entityHandler.visit cr obs j vc).2 := by
      intro hc
      have hj := visit_calls_index cr obs idx v0 j c hc
      exact ⟨0, v0, by omega, by simp, hj ▸ hc⟩
    have there : ∀ live2, (j, c) ∈ (entityHandler.loop cr obs (idx + 1) rest live2).2.2 →
        ∃ i vc, j = idx + i ∧ (v0 :: rest)[i]? = some vc ∧
          (j, c) ∈ (entityHandler.visit cr obs j vc).2 := by
      intro live2 hc
      obtain ⟨i, vc, hj, hi, hm⟩ := ih (idx + 1) live2 j c hc
      exact ⟨i + 1, vc, by omega, by simpa using hi, hm⟩
    unfold entityHandler.loop at h
    simp only at h
    split at h
    · split at h
      · exact here h
      · rcases List.mem_append.mp h with h | h
        · exact here h
        · exact there _ h
    · rcases List.mem_append.mp h with h | h
      · exact here h
      · exact there _ h

/-- The stop test is monotone in the number of ids. -/
theorem stops_mono (settings : CrawlerSettings) (m n : Nat) (hmn : m ≤ n)
    (h : entityHandler.stops settings m = true) : entityHandler.stops settings n = true := by
  unfold entityHandler.stops at *
  simp only [Bool.and_eq_true, decide_eq_true_eq] at *
  refine ⟨h.1, ?_⟩
  have : (m : Int) ≤ n := by exact_mod_cast hmn
  omega

/-- No candidate is counted before position 0. -/
theorem liveBefore_zero (cands : List VideoCandidate) : liveBefore cands 0 = 0 := by
  simp [liveBefore]

/-- The count of live candidates before a position of a list with a head. -/
theorem liveBefore_cons_succ (vc : VideoCandidate) (cands : List VideoCandidate) (i : Nat) :
    liveBefore (vc :: cands) (i + 1) =
      (if vc.liveGenuine then 1 else 0) + liveBefore cands i := by
  unfold liveBefore
  by_cases h : vc.liveGenuine = true
  · simp [List.take, List.filter, h]; omega
  · simp [List.take, List.filter, h]

/-- The count of live candidates before the next position adds the candidate at the position. -/
theorem liveBefore_succ (cands : List VideoCandidate) (i : Nat) (x : VideoCandidate)
    (h : cands[i]? = some x) :
    liveBefore cands (i + 1) = liveBefore cands i + (if x.liveGenuine then 1 else 0) := by
  unfold liveBefore
  rw [List.take_succ, h]
  by_cases hx : x.liveGenuine = true <;> simp [List.filter_append, List.filter, hx]

/-- The count of live candidates before a position does not decrease with the position. -/
theorem liveBefore_mono (cands : List VideoCandidate) (j i : Nat) (h : j ≤ i) :
    liveBefore cands j ≤ liveBefore cands i := by
  unfold liveBefore
  apply List.Sublist.length_le
  apply List.Sublist.filter
  exact List.take_sublist_take_left _ h

/-- The loop, candidate by candidate: as long as the stop test has not fired, the candidate
at position `i` is visited with its own observations; once it has fired, the candidate is
left as it was and no call is made for it. -/
theorem loop_visit (cr : Crawler) (obs : PassObs) (cands : List VideoCandidate) :
    ∀ (idx : Nat) (live : List Str), entityHandler.stops cr.settings live.length = false →
    ∀ (i : Nat) (vc : VideoCandidate), cands[i]? = some vc →
      (entityHandler.stops cr.settings
          (live.length + liveBefore (entityHandler.loop cr obs idx cands live).1 i) = false →
        (entityHandler.loop cr obs idx cands live).1[i]? =
            some (entityHandler.visit cr obs (idx + i) vc).1 ∧
        ∀ x ∈ (entityHandler.visit cr obs (idx + i) vc).2,
          x ∈ (entityHandler.loop cr obs idx cands live).2.2) ∧
      (entityHandler.stops cr.settings
          (live.length + liveBefore (entityHandler.loop cr obs idx cands live).1 i) = true →
        (entityHandler.loop cr obs idx cands live).1[i]? = some vc ∧
        ∀ c, (idx + i, c) ∉ (entityHandler.loop cr obs idx cands live).2.2) := by
  induction cands with
  | nil => intro idx live _ i vc h; simp at h
  | cons v0 rest ih =>
    intro idx live hlive i vc hi
    cases i with
    | zero =>
      simp only [List.getElem?_cons_zero, Option.some.injEq] at hi
      subst hi
      simp only [liveBefore_zero, Nat.add_zero, hlive]
      refine ⟨fun _ => ?_, fun h => by simp at h⟩
      unfold entityHandler.loop
      simp only
      split
      · split
        · simp
        · refine ⟨by simp, fun x hx => List.mem_append.mpr (Or.inl hx)⟩
      · refine ⟨by simp, fun x hx => List.mem_append.mpr (Or.inl hx)⟩
    | succ i =>
      simp only [List.getElem?_cons_succ] at hi
      have hidx : idx + (i + 1) = idx + 1 + i := by omega
      have hv0 : ∀ c, (idx + (i + 1), c) ∉ (entityHandler.visit cr obs idx v0).2 := by
        intro c hc
        have := visit_calls_index cr obs idx v0 _ c hc
        omega
      unfold entityHandler.loop
      simp only
      split
      · rename_i hlg
        have hlg2 : (entityHandler.visit cr obs idx v0).1.liveGenuine = true := hlg
        split
        · rename_i hstop
          simp only [liveBefore_cons_succ, hlg2, if_true, List.getElem?_cons_succ, hi]
          have hs : entityHandler.stops cr.settings (live.length + (1 + liveBefore rest i))
              = true := by
            apply stops_mono cr.settings _ _ _ hstop
            simp only [List.length_append, List.length_singleton]
            omega
          refine ⟨fun h => by simp [hs] at h, fun _ => ⟨trivial, fun c => hv0 c⟩⟩
        · rename_i hstop
          have hstop2 : entityHandler.stops cr.settings
              (live ++ [(entityHandler.visit cr obs idx v0).1.ID]).length = false := by
            simpa using hstop
          have := ih (idx + 1) (live ++ [(entityHandler.visit cr obs idx v0).1.ID]) hstop2 i vc hi
          simp only [liveBefore_cons_succ, hlg2, if_true, List.getElem?_cons_succ]
          simp only [List.length_append, List.length_singleton] at this
          rw [hidx]
          have e : live.length + (1 + liveBefore
              (entityHandler.loop cr obs (idx + 1) rest
                (live ++ [(entityHandler.visit cr obs idx v0).1.ID])).1 i) =
              live.length + 1 + liveBefore
              (entityHandler.loop cr obs (idx + 1) rest
                (live ++ [(entityHandler.visit cr obs idx v0).1.ID])).1 i := by omega
          rw [e]
          refine ⟨fun h => ⟨(this.1 h).1, fun x hx => List.mem_append.mpr (Or.inr ((this.1 h).2 x hx))⟩,
            fun h => ⟨(this.2 h).1, fun c hc => ?_⟩⟩
          rcases List.mem_append.mp hc with hc | hc
          · exact hv0 c (hidx ▸ hc)
          · exact (this.2 h).2 c hc
      · rename_i hlg
        have hlg2 : (entityHandler.visit cr obs idx v0).1.liveGenuine = false := by
          simpa [VideoCandidate.liveGenuine] using hlg
        have := ih (idx + 1) live hlive i vc hi
        simp only [liveBefore_cons_succ, hlg2, List.getElem?_cons_succ]
        rw [hidx]
        simp only [Bool.false_eq_true, if_false, Nat.zero_add]
        refine ⟨fun h => ⟨(this.1 h).1, fun x hx => List.mem_append.mpr (Or.inr ((this.1 h).2 x hx))⟩,
          fun h => ⟨(this.2 h).1, fun c hc => ?_⟩⟩
        rcases List.mem_append.mp hc with hc | hc
        · exact hv0 c (hidx ▸ hc)
        · exact (this.2 h).2 c hc

/-- What the loop leaves in `data.LiveVideos`: the ids found before, followed by the ids of
the candidates that pass the test of line 268 after the loop, cut at the stop count. -/
theorem loop_liveVideos (cr : Crawler) (obs : PassObs) (cands : List VideoCandidate) :
    ∀ (idx : Nat) (live : List Str), entityHandler.stops cr.settings live.length = false →
      (entityHandler.loop cr obs idx cands live).2.1 =
        live ++
          (if entityHandler.stopAfterLiveVideos cr.settings > 0 then
            (((entityHandler.loop cr obs idx cands live).1.filter
              VideoCandidate.liveGenuine).map VideoCandidate.ID).take
                ((entityHandler.stopAfterLiveVideos cr.settings).toNat - live.length)
          else ((entityHandler.loop cr obs idx cands live).1.filter
              VideoCandidate.liveGenuine).map VideoCandidate.ID) := by
  induction cands with
  | nil => intro idx live _; simp [entityHandler.loop]
  | cons v0 rest ih =>
    intro idx live hlive
    have hl : ¬ (entityHandler.stopAfterLiveVideos cr.settings > 0 ∧
        (live.length : Int) ≥ entityHandler.stopAfterLiveVideos cr.settings) := by
      simpa [entityHandler.stops] using hlive
    unfold entityHandler.loop
    simp only
    split
    · rename_i hlg
      have hlg2 : (entityHandler.visit cr obs idx v0).1.liveGenuine = true := hlg
      split
      · rename_i hstop
        have hs : entityHandler.stopAfterLiveVideos cr.settings > 0 ∧
            ((live.length : Int) + 1) ≥ entityHandler.stopAfterLiveVideos cr.settings := by
          simpa [entityHandler.stops] using hstop
        have h1 : (entityHandler.stopAfterLiveVideos cr.settings).toNat - live.length = 1 := by
          omega
        simp [hs.1, h1, List.filter, hlg2]
      · rename_i hstop
        have hstop2 : entityHandler.stops cr.settings
            (live ++ [(entityHandler.visit cr obs idx v0).1.ID]).length = false := by
          simpa using hstop
        have hs : ¬ (entityHandler.stopAfterLiveVideos cr.settings > 0 ∧
            ((live.length : Int) + 1) ≥ entityHandler.stopAfterLiveVideos cr.settings) := by
          simpa [entityHandler.stops] using hstop2
        rw [ih (idx + 1) _ hstop2]
        by_cases hn : entityHandler.stopAfterLiveVideos cr.settings > 0
        · have h1 : (entityHandler.stopAfterLiveVideos cr.settings).toNat - live.length =
              ((entityHandler.stopAfterLiveVideos cr.settings).toNat - (live.length + 1)) + 1 := by
            omega
          simp only [hn, if_true, List.filter, hlg2, List.map_cons, List.length_append,
            List.length_singleton]
          rw [h1]
          simp
        · simp [hn, List.filter, hlg2]
    · rename_i hlg
      have hlg2 : (entityHandler.visit cr obs idx v0).1.liveGenuine = false := by
        simpa [VideoCandidate.liveGenuine] using hlg
      rw [ih (idx + 1) live hlive]
      simp [List.filter, hlg2]

/-- A pass on a valid handle of type `HandleChannelID`: the refresh of the feed, then, if it
returned no error, the loop over the candidates. -/
theorem entityHandler_channel (cr : Crawler) (rfc3339 : Str → Option Int) (obs : PassObs)
    (h : Handle) (entityData : Option EntityData) (hv : h.Valid = true)
    (ht : h.Type_ = HandleChannelID) :
    (entityHandler cr rfc3339 obs (some h) entityData).err =
        entityHandler.refreshErr cr rfc3339 obs h entityData ∧
    (entityHandler.refreshErr cr rfc3339 obs h entityData ≠ none →
      (entityHandler cr rfc3339 obs (some h) entityData).calls = [] ∧
      (entityHandler cr rfc3339 obs (some h) entityData).candidates =
        entityHandler.candidates cr rfc3339 obs h entityData) ∧
    (entityHandler.refreshErr cr rfc3339 obs h entityData = none →
      (entityHandler cr rfc3339 obs (some h) entityData).candidates =
        (entityHandler.loop cr obs 0
          (entityHandler.candidates cr rfc3339 obs h entityData) []).1 ∧
      (entityHandler cr rfc3339 obs (some h) entityData).liveVideos =
        (entityHandler.loop cr obs 0
          (entityHandler.candidates cr rfc3339 obs h entityData) []).2.1 ∧
      (entityHandler cr rfc3339 obs (some h) entityData).calls =
        (entityHandler.loop cr obs 0
          (entityHandler.candidates cr rfc3339 obs h entityData) []).2.2) := by
  unfold entityHandler entityHandler.refreshErr entityHandler.candidates
  simp only [hv, ht, Bool.not_true, Bool.false_eq_true, if_false, ne_eq, not_true]
  rcases hr : entityHandler.refresh cr rfc3339 obs h.Value
    { entityData.getD EntityData.zero with Live := false } with ⟨d, e, f⟩
  cases e with
  | none => simp [PassResult.candidates, PassResult.liveVideos]
  | some err => simp [PassResult.candidates]

/-- When the refresh of the feed returns an error, it leaves no candidate and no live
video. -/
theorem refresh_err (cr : Crawler) (rfc3339 : Str → Option Int) (obs : PassObs)
    (channelID : Str) (data : EntityData)
    (h : (entityHandler.refresh cr rfc3339 obs channelID data).2.1 ≠ none) :
    (entityHandler.refresh cr rfc3339 obs channelID data).1.FeedVideoCandidates = [] ∧
    (entityHandler.refresh cr rfc3339 obs channelID data).1.LiveVideos = [] ∧
    (entityHandler.refresh cr rfc3339 obs channelID data).2.2 = true := by
  revert h
  unfold entityHandler.refresh
  split
  · cases FetchChannelXMLFeed cr obs.feed channelID with
    | error e => simp
    | ok feed =>
      simp only
      cases entityHandler.getVideoCandidates cr.settings rfc3339 obs.nowCandidates (some feed)
        channelID with
      | error e => simp
      | ok vcs => simp
  · simp

/-- A pass on a valid handle of type `HandleChannelID` whose refresh of the feed returns an
error: no candidate is visited and none is left. -/
theorem entityHandler_refresh_err (cr : Crawler) (rfc3339 : Str → Option Int) (obs : PassObs)
    (h : Handle) (entityData : Option EntityData) (hv : h.Valid = true)
    (ht : h.Type_ = HandleChannelID)
    (he : entityHandler.refreshErr cr rfc3339 obs h entityData ≠ none) :
    (entityHandler cr rfc3339 obs (some h) entityData).calls = [] ∧
    (entityHandler cr rfc3339 obs (some h) entityData).candidates = [] ∧
    (entityHandler cr rfc3339 obs (some h) entityData).liveVideos = [] ∧
    entityHandler.candidates cr rfc3339 obs h entityData = [] := by
  have hr := refresh_err cr rfc3339 obs h.Value
    { entityData.getD EntityData.zero with Live := false } he
  revert he hr
  unfold entityHandler entityHandler.refreshErr entityHandler.candidates
  simp only [hv, ht, Bool.not_true, Bool.false_eq_true, if_false, ne_eq, not_true]
  rcases entityHandler.refresh cr rfc3339 obs h.Value
    { entityData.getD EntityData.zero with Live := false } with ⟨d, e, f⟩
  cases e with
  | none => simp
  | some err =>
    simp only [PassResult.candidates, PassResult.liveVideos]
    intro _ hr
    exact ⟨trivial, hr.1, hr.2.1, hr.1⟩


/-! ## The channel pass -/

/-- C3 (as stated, refuted): in a pass over three candidates the thumbnail probe of the
first one fails (status 500, `UncertainLiveVideoThumbnail`); the pass returns no error and
goes on to process the second candidate, which it finds live. -/
theorem C3_pass_returns_nil_after_probe_failure :
    CheckLiveVideoThumbnail demoCrawler (firstProbeFails.check 0).thumb (demoID 0) [] =
      .error .UncertainLiveVideoThumbnail ∧
    (entityHandler demoCrawler noRfc3339 firstProbeFails (some demoHandle) (some demoData)).err
      = none ∧
    (entityHandler demoCrawler noRfc3339 firstProbeFails (some demoHandle) (some demoData)).calls
      = [(0, Call.process), (0, Call.thumbnail),
         (1, Call.process), (1, Call.thumbnail), (1, Call.state)] ∧
    (entityHandler demoCrawler noRfc3339 firstProbeFails (some demoHandle)
      (some demoData)).liveVideos = [demoID 1] := by
  decide

/-- C3 (amended): on a valid handle of type `HandleChannelID` the pass returns the error of
the refresh of the feed, if any, and never a probe's. When the candidate at index `i` is
processed and its processing fails (thumbnail probe, authoritative probe or context), the
pass returns no error, the candidate keeps what `processVideoCandidate` did to it and gets
`LiveGenuine = false`, every earlier candidate holds the state its own visit left, and the
next candidate, if it is due, is processed in the same pass. -/
theorem C3_probe_failure_does_not_abort (cr : Crawler) (rfc3339 : Str → Option Int)
    (obs : PassObs) (h : Handle) (entityData : Option EntityData) (hv : h.Valid = true)
    (ht : h.Type_ = HandleChannelID) :
    (entityHandler cr rfc3339 obs (some h) entityData).err =
      entityHandler.refreshErr cr rfc3339 obs h entityData ∧
    ∀ i vc, (entityHandler.candidates cr rfc3339 obs h entityData)[i]? = some vc →
      (i, Call.process) ∈ (entityHandler cr rfc3339 obs (some h) entityData).calls →
      (entityHandler.processVideoCandidate cr (obs.check i) vc).err ≠ none →
      (entityHandler cr rfc3339 obs (some h) entityData).err = none ∧
      (entityHandler cr rfc3339 obs (some h) entityData).candidates[i]? =
        some { (entityHandler.processVideoCandidate cr (obs.check i) vc).vc with
          LastProcess := obs.nowProcessed i, LiveGenuine := false } ∧
      (∀ j w, j < i → (entityHandler.candidates cr rfc3339 obs h entityData)[j]? = some w →
        (entityHandler cr rfc3339 obs (some h) entityData).candidates[j]? =
          some (entityHandler.visit cr obs j w).1) ∧
      (∀ w, (entityHandler.candidates cr rfc3339 obs h entityData)[i + 1]? = some w →
        Sub (obs.nowLoop (i + 1)) w.LastProcess ≥
          entityHandler.minimumCheckVideoDelay cr.settings →
        (i + 1, Call.process) ∈ (entityHandler cr rfc3339 obs (some h) entityData).calls) := by
  obtain ⟨herr, _, hok⟩ := entityHandler_channel cr rfc3339 obs h entityData hv ht
  refine ⟨herr, ?_⟩
  intro i vc hvc hcall hfail
  have hs0 : entityHandler.stops cr.settings ([] : List Str).length = false := by
    simp [entityHandler.stops]
  cases hre : entityHandler.refreshErr cr rfc3339 obs h entityData with
  | some err =>
    have := (entityHandler_refresh_err cr rfc3339 obs h entityData hv ht (by simp [hre])).1
    rw [this] at hcall
    simp at hcall
  | none =>
    obtain ⟨hc, hl, hcalls⟩ := hok hre
    have visitAt : ∀ k w, (entityHandler.candidates cr rfc3339 obs h entityData)[k]? = some w →
        (entityHandler.stops cr.settings
            (liveBefore (entityHandler cr rfc3339 obs (some h) entityData).candidates k) = false →
          (entityHandler cr rfc3339 obs (some h) entityData).candidates[k]? =
              some (entityHandler.visit cr obs k w).1 ∧
          ∀ x ∈ (entityHandler.visit cr obs k w).2,
            x ∈ (entityHandler cr rfc3339 obs (some h) entityData).calls) ∧
        (entityHandler.stops cr.settings
            (liveBefore (entityHandler cr rfc3339 obs (some h) entityData).candidates k) = true →
          ∀ c, (k, c) ∉ (entityHandler cr rfc3339 obs (some h) entityData).calls) := by
      intro k w hw
      have := loop_visit cr obs _ 0 [] hs0 k w hw
      rw [← hc, ← hcalls] at this
      simp only [List.length_nil, Nat.zero_add] at this
      exact ⟨this.1, fun hst => (this.2 hst).2⟩
    -- the candidate at `i` was visited
    have hsi : entityHandler.stops cr.settings
        (liveBefore (entityHandler cr rfc3339 obs (some h) entityData).candidates i) = false := by
      cases hst : entityHandler.stops cr.settings
        (liveBefore (entityHandler cr rfc3339 obs (some h) entityData).candidates i) with
      | false => rfl
      | true => exact absurd hcall ((visitAt i vc hvc).2 hst Call.process)
    have hdue : Sub (obs.nowLoop i) vc.LastProcess ≥
        entityHandler.minimumCheckVideoDelay cr.settings := by
      rw [hcalls] at hcall
      obtain ⟨k, w, hk, hw, hm⟩ := loop_calls_sound cr obs _ 0 [] i Call.process hcall
      have hki : k = i := by omega
      subst hki
      rw [hvc] at hw
      cases hw
      rw [visit_calls] at hm
      by_contra hnd
      simp [hnd] at hm
    obtain ⟨e, he⟩ : ∃ e, (entityHandler.processVideoCandidate cr (obs.check i) vc).err = some e :=
      Option.ne_none_iff_exists'.mp hfail
    have hvi : (entityHandler.visit cr obs i vc).1 =
        { (entityHandler.processVideoCandidate cr (obs.check i) vc).vc with
          LastProcess := obs.nowProcessed i, LiveGenuine := false } := by
      rw [visit_candidate]
      simp [hdue, he]
    have hci := ((visitAt i vc hvc).1 hsi).1
    rw [hvi] at hci
    refine ⟨by rw [herr, hre], hci, ?_, ?_⟩
    · intro j w hj hw
      have hsj : entityHandler.stops cr.settings
          (liveBefore (entityHandler cr rfc3339 obs (some h) entityData).candidates j) = false := by
        cases hst : entityHandler.stops cr.settings
          (liveBefore (entityHandler cr rfc3339 obs (some h) entityData).candidates j) with
        | false => rfl
        | true =>
          have := stops_mono cr.settings _ _
            (liveBefore_mono (entityHandler cr rfc3339 obs (some h) entityData).candidates j i
              (Nat.le_of_lt hj)) hst
          rw [hsi] at this
          cases this
      exact ((visitAt j w hw).1 hsj).1
    · intro w hw hduew
      have hcount := liveBefore_succ _ i _ hci
      simp only [VideoCandidate.liveGenuine, Bool.false_and, Bool.false_eq_true, if_false,
        Nat.add_zero] at hcount
      have hsn : entityHandler.stops cr.settings
          (liveBefore (entityHandler cr rfc3339 obs (some h) entityData).candidates (i + 1))
            = false := by
        rw [hcount]; exact hsi
      apply ((visitAt (i + 1) w hw).1 hsn).2
      rw [visit_calls]
      simp [hduew]

/-- C3 (amended), at the pass `firstProbeFails`: the processing of the candidate at index 0
fails, the pass returns no error and the candidate at index 1 is processed. -/
theorem C3_probe_failure_does_not_abort_witness :
    demoHandle.Valid = true ∧ demoHandle.Type_ = HandleChannelID ∧
    (entityHandler.processVideoCandidate demoCrawler (firstProbeFails.check 0)
      (VideoCandidate.fresh (demoID 0) demoHandle.Value)).err ≠ none ∧
    (entityHandler demoCrawler noRfc3339 firstProbeFails (some demoHandle) (some demoData)).err
      = none ∧
    (1, Call.process) ∈
      (entityHandler demoCrawler noRfc3339 firstProbeFails (some demoHandle)
        (some demoData)).calls :=
  ⟨by decide, by decide, by decide,
    ((C3_probe_failure_does_not_abort demoCrawler noRfc3339 firstProbeFails demoHandle
      (some demoData) (by decide) (by decide)).2 0
      (VideoCandidate.fresh (demoID 0) demoHandle.Value)
      (by decide) (by decide) (by decide)).1,
    ((C3_probe_failure_does_not_abort demoCrawler noRfc3339 firstProbeFails demoHandle
      (some demoData) (by decide) (by decide)).2 0
      (VideoCandidate.fresh (demoID 0) demoHandle.Value)
      (by decide) (by decide) (by decide)).2.2.2
      (VideoCandidate.fresh (demoID 1) demoHandle.Value) (by decide) (by decide)⟩

/-- C4: on a valid handle of type `HandleChannelID` with effective `stopAfterLiveVideos`
n > 0, `LiveVideos` has at most n ids, it is the ids of the first n candidates, in order,
that end the pass with `LiveGenuine && Live`, and for a candidate placed after the n-th of
them no call is made (neither `processVideoCandidate` nor a probe) and its state is the one
it had when the loop started. -/
theorem C4_early_stop (cr : Crawler) (rfc3339 : Str → Option Int) (obs : PassObs)
    (h : Handle) (entityData : Option EntityData) (hv : h.Valid = true)
    (ht : h.Type_ = HandleChannelID)
    (hn : entityHandler.stopAfterLiveVideos cr.settings > 0) :
    ((entityHandler cr rfc3339 obs (some h) entityData).liveVideos.length : Int) ≤
      entityHandler.stopAfterLiveVideos cr.settings ∧
    (entityHandler cr rfc3339 obs (some h) entityData).liveVideos =
      (((entityHandler cr rfc3339 obs (some h) entityData).candidates.filter
        VideoCandidate.liveGenuine).map VideoCandidate.ID).take
          (entityHandler.stopAfterLiveVideos cr.settings).toNat ∧
    ∀ i, i < (entityHandler.candidates cr rfc3339 obs h entityData).length →
      (entityHandler.stopAfterLiveVideos cr.settings).toNat ≤
        liveBefore (entityHandler cr rfc3339 obs (some h) entityData).candidates i →
      (∀ c, (i, c) ∉ (entityHandler cr rfc3339 obs (some h) entityData).calls) ∧
      (entityHandler cr rfc3339 obs (some h) entityData).candidates[i]? =
        (entityHandler.candidates cr rfc3339 obs h entityData)[i]? := by
  obtain ⟨herr, hfail, hok⟩ := entityHandler_channel cr rfc3339 obs h entityData hv ht
  have hs0 : entityHandler.stops cr.settings ([] : List Str).length = false := by
    simp [entityHandler.stops]
  cases hre : entityHandler.refreshErr cr rfc3339 obs h entityData with
  | some err =>
    obtain ⟨hcalls, hcands, hlive, hempty⟩ :=
      entityHandler_refresh_err cr rfc3339 obs h entityData hv ht (by simp [hre])
    rw [hcands, hlive, hempty]
    simp
    omega
  | none =>
    obtain ⟨hc, hl, hcalls⟩ := hok hre
    have hlive := loop_liveVideos cr obs (entityHandler.candidates cr rfc3339 obs h entityData)
      0 [] hs0
    simp only [hn, if_true, List.nil_append, List.length_nil, Nat.sub_zero] at hlive
    rw [← hc, ← hl] at hlive
    refine ⟨?_, hlive, ?_⟩
    · rw [hlive]
      have := List.length_take_le (entityHandler.stopAfterLiveVideos cr.settings).toNat
        (((entityHandler cr rfc3339 obs (some h) entityData).candidates.filter
        VideoCandidate.liveGenuine).map VideoCandidate.ID)
      omega
    · intro i hi hcount
      obtain ⟨vc, hvc⟩ : ∃ vc, (entityHandler.candidates cr rfc3339 obs h entityData)[i]?
          = some vc := ⟨_, List.getElem?_eq_getElem hi⟩
      have hv := (loop_visit cr obs _ 0 [] hs0 i vc hvc).2
      rw [← hc, ← hcalls] at hv
      simp only [List.length_nil, Nat.zero_add] at hv
      have hst : entityHandler.stops cr.settings
          (liveBefore (entityHandler cr rfc3339 obs (some h) entityData).candidates i) = true := by
        simp only [entityHandler.stops, Bool.and_eq_true, decide_eq_true_eq]
        refine ⟨hn, ?_⟩
        omega
      obtain ⟨h1, h2⟩ := hv hst
      exact ⟨h2, by rw [h1, hvc]⟩

/-- The example of the specification for the early stop: with `stopAfterLiveVideos = 1` and
the candidates at the first and third place live, `LiveVideos` is the id of the first and
the only calls made are for the first. -/
theorem early_stop_example :
    entityHandler.stopAfterLiveVideos demoCrawler.settings = 1 ∧
    (entityHandler demoCrawler noRfc3339 firstAndThirdLive (some demoHandle)
      (some demoData)).liveVideos = [demoID 0] ∧
    (entityHandler demoCrawler noRfc3339 firstAndThirdLive (some demoHandle)
      (some demoData)).calls = [(0, Call.process), (0, Call.thumbnail), (0, Call.state)] ∧
    (entityHandler { demoCrawler with settings := { DefaultSettings with StopAfterLiveVideos := 0 } }
      noRfc3339 firstAndThirdLive (some demoHandle) (some demoData)).liveVideos
      = [demoID 0, demoID 2] := by
  decide

/-- C4, at the pass `firstAndThirdLive` with `stopAfterLiveVideos = 1`: at most one id is
listed and no call is made for the candidate at the third place. -/
theorem C4_early_stop_witness :
    demoHandle.Valid = true ∧ demoHandle.Type_ = HandleChannelID ∧
    entityHandler.stopAfterLiveVideos demoCrawler.settings > 0 ∧
    ((entityHandler demoCrawler noRfc3339 firstAndThirdLive (some demoHandle)
      (some demoData)).liveVideos.length : Int) ≤
        entityHandler.stopAfterLiveVideos demoCrawler.settings ∧
    (2, Call.process) ∉ (entityHandler demoCrawler noRfc3339 firstAndThirdLive
      (some demoHandle) (some demoData)).calls ∧
    (2, Call.thumbnail) ∉ (entityHandler demoCrawler noRfc3339 firstAndThirdLive
      (some demoHandle) (some demoData)).calls ∧
    (2, Call.state) ∉ (entityHandler demoCrawler noRfc3339 firstAndThirdLive
      (some demoHandle) (some demoData)).calls :=
  ⟨by decide, by decide, by decide,
    (C4_early_stop demoCrawler noRfc3339 firstAndThirdLive demoHandle (some demoData)
      (by decide) (by decide) (by decide)).1,
    ((C4_early_stop demoCrawler noRfc3339 firstAndThirdLive demoHandle (some demoData)
      (by decide) (by decide) (by decide)).2.2 2 (by decide) (by decide)).1 Call.process,
    ((C4_early_stop demoCrawler noRfc3339 firstAndThirdLive demoHandle (some demoData)
      (by decide) (by decide) (by decide)).2.2 2 (by decide) (by decide)).1 Call.thumbnail,
    ((C4_early_stop demoCrawler noRfc3339 firstAndThirdLive demoHandle (some demoData)
      (by decide) (by decide) (by decide)).2.2 2 (by decide) (by decide)).1 Call.state⟩


/-! ## The model of `strings.ToLower` -/

/-- A prefix test with an ASCII pattern has the same outcome on the images of a string
under two rune maps that agree wherever one of them gives an ASCII rune. -/
theorem HasPrefix_map_ascii (f g : Char → Char)
    (hfg : ∀ r, (g r).toNat < 0x80 → f r = g r)
    (hgf : ∀ r, (f r).toNat < 0x80 → f r = g r) :
    ∀ (t s : Str), (∀ c ∈ t, c.toNat < 0x80) →
      HasPrefix (s.map f) t = HasPrefix (s.map g) t := by
  intro t
  induction t with
  | nil => intro s _; cases s <;> rfl
  | cons d t ih =>
    intro s ht
    cases s with
    | nil => rfl
    | cons c s =>
      simp only [List.map_cons, HasPrefix]
      rw [ih s (fun x hx => ht x (List.mem_cons_of_mem _ hx))]
      have hd := ht d (List.mem_cons_self _ _)
      have : (f c == d) = (g c == d) := by
        by_cases h1 : f c = d
        · have := hgf c (by rw [h1]; exact hd)
          rw [← this, h1]
        · by_cases h2 : g c = d
          · have := hfg c (by rw [h2]; exact hd)
            exact absurd (this.trans h2) h1
          · simp [h1, h2]
      rw [this]

/-- The position of an ASCII pattern is the same in the images of a string under two rune
maps that agree wherever one of them gives an ASCII rune. -/
theorem Index_go_map_ascii (f g : Char → Char)
    (hfg : ∀ r, (g r).toNat < 0x80 → f r = g r)
    (hgf : ∀ r, (f r).toNat < 0x80 → f r = g r)
    (t : Str) (ht : ∀ c ∈ t, c.toNat < 0x80) :
    ∀ (s : Str) (i : Nat), Index.go t (s.map f) i = Index.go t (s.map g) i := by
  intro s
  induction s with
  | nil => intro i; rfl
  | cons c s ih =>
    intro i
    simp only [List.map_cons, Index.go]
    have := HasPrefix_map_ascii f g hfg hgf t (c :: s) ht
    simp only [List.map_cons] at this
    rw [this, ih]

/-- The model of `strings.ToLower` is adequate for the comparisons of the repository: for
every rune map `toLower` that agrees with `unicodeToLower` wherever one of the two gives an
ASCII rune (as `unicode.ToLower` of the library does), lowering with `toLower` and with the
model give the same outcome of a comparison with an ASCII string and of a search for an
ASCII string. -/
theorem ToLower_eq_ascii (toLower : Char → Char)
    (h1 : ∀ r, (unicodeToLower r).toNat < 0x80 → toLower r = unicodeToLower r)
    (h2 : ∀ r, (toLower r).toNat < 0x80 → toLower r = unicodeToLower r)
    (s t : Str) (ht : ∀ c ∈ t, c.toNat < 0x80) :
    (s.map toLower = t ↔ ToLower s = t) ∧
    Contains (s.map toLower) t = Contains (ToLower s) t := by
  refine ⟨?_, ?_⟩
  · unfold ToLower
    induction s generalizing t with
    | nil => simp
    | cons c s ih =>
      cases t with
      | nil => simp
      | cons d t =>
        have hd := ht d (List.mem_cons_self _ _)
        have iht := ih t (fun x hx => ht x (List.mem_cons_of_mem _ hx))
        simp only [List.map_cons, List.cons.injEq]
        constructor
        · rintro ⟨hc, hs⟩
          exact ⟨by rw [← h2 c (by rw [hc]; exact hd)]; exact hc, iht.mp hs⟩
        · rintro ⟨hc, hs⟩
          exact ⟨by rw [h1 c (by rw [hc]; exact hd)]; exact hc, iht.mpr hs⟩
  · unfold Contains Index ToLower
    rw [Index_go_map_ascii toLower unicodeToLower h1 h2 t ht]

/-! ## Strings and the thumbnail path -/

/-- A string has each of its own beginnings as a prefix. -/
theorem HasPrefix_append (sub b : Str) : HasPrefix (sub ++ b) sub = true := by
  induction sub with
  | nil => cases b <;> rfl
  | cons c sub ih => simp [HasPrefix, ih]

/-- The search finds a substring that is there. -/
theorem Index_go_isSome (sub b : Str) (a : Str) :
    ∀ i, (Index.go sub (a ++ sub ++ b) i).isSome = true := by
  induction a with
  | nil =>
    intro i
    cases h : ([] ++ sub ++ b : Str) with
    | nil =>
      have : sub = [] := by
        cases sub with
        | nil => rfl
        | cons c t => simp at h
      simp [Index.go, this]
    | cons c rest =>
      have hp : HasPrefix (c :: rest) sub = true := by
        rw [← h]; simpa using HasPrefix_append sub b
      simp [Index.go, hp]
  | cons c a ih =>
    intro i
    simp only [List.cons_append, Index.go]
    split
    · rfl
    · exact ih (i + 1)

/-- Go `strings.Contains(a + sub + b, sub)` is true. -/
theorem Contains_append (a sub b : Str) : Contains (a ++ sub ++ b) sub = true := by
  unfold Contains Index
  exact Index_go_isSome sub b a 0

/-- The last dot of a string that has no dot after a given one. -/
theorem LastIndex_dot_append (a b : Str) (hb : '.' ∉ b) :
    LastIndex (a ++ '.' :: b) ['.'] = some a.length := by
  have hnone : LastIndex b ['.'] = none := by
    induction b with
    | nil => rfl
    | cons c b ih =>
      have hc : c ≠ '.' := fun h => hb (by simp [h])
      have hb2 : '.' ∉ b := fun h => hb (by simp [h])
      simp [LastIndex, ih hb2, HasPrefix, hc]
  induction a with
  | nil => simp [LastIndex, hnone, HasPrefix]
  | cons c a ih => simp [LastIndex, ih]

/-- A string without a last dot has no dot. -/
theorem LastIndex_dot_none (p : Str) (hl : LastIndex p ['.'] = none) : '.' ∉ p := by
  induction p with
  | nil => simp
  | cons d p ih =>
    unfold LastIndex at hl
    cases hl2 : LastIndex p ['.'] with
    | some i => rw [hl2] at hl; simp at hl
    | none =>
      rw [hl2] at hl
      simp only at hl
      split at hl
      · simp at hl
      · rename_i hd
        have hd2 : d ≠ '.' := by simpa [HasPrefix] using hd
        simp only [List.mem_cons, not_or]
        exact ⟨fun e => hd2 e.symm, ih hl2⟩

/-- The last dot of a string splits it into a part, the dot, and a part without a dot. -/
theorem LastIndex_dot_spec (p : Str) :
    ∀ k, LastIndex p ['.'] = some k →
      ∃ b, p = p.take k ++ '.' :: b ∧ '.' ∉ b ∧ (p.take k).length = k ∧ p.drop k = '.' :: b := by
  induction p with
  | nil => intro k h; simp [LastIndex] at h
  | cons c p ih =>
    intro k h
    unfold LastIndex at h
    cases hl : LastIndex p ['.'] with
    | some i =>
      rw [hl] at h
      simp only [Option.some.injEq] at h
      subst h
      obtain ⟨b, h1, h2, h3, h4⟩ := ih i hl
      refine ⟨b, ?_, h2, ?_, ?_⟩
      · simp only [List.take_succ_cons, List.cons_append]; rw [← h1]
      · simp [h3]
      · simpa using h4
    | none =>
      rw [hl] at h
      simp only at h
      split at h
      · rename_i hp
        simp only [Option.some.injEq] at h
        subst h
        have hc : c = '.' := by simpa [HasPrefix] using hp
        have hnot : '.' ∉ p := LastIndex_dot_none p hl
        exact ⟨p, by simp [hc], hnot, by simp, by simp [hc]⟩
      · simp at h

/-- A string with a dot has a last dot. -/
theorem LastIndex_dot_isSome (p : Str) (h : '.' ∈ p) : ∃ k, LastIndex p ['.'] = some k := by
  induction p with
  | nil => simp at h
  | cons c p ih =>
    unfold LastIndex
    cases hl : LastIndex p ['.'] with
    | some i => exact ⟨i + 1, rfl⟩
    | none =>
      simp only
      have hc : c = '.' := by
        rcases List.mem_cons.mp h with h | h
        · exact h.symm
        · obtain ⟨k, hk⟩ := ih h
          rw [hk] at hl; cases hl
      exact ⟨0, by simp [HasPrefix, hc]⟩

/-- C6: the rewrite of the thumbnail path is idempotent: a path with a dot is rewritten to
a path that the rewrite leaves as it is. -/
theorem C6_rewrite_idempotent (p : Str) (h : '.' ∈ p) :
    ∃ q, CheckLiveVideoThumbnail.rewrite p = some q ∧
      CheckLiveVideoThumbnail.rewrite q = some q := by
  obtain ⟨k, hk⟩ := LastIndex_dot_isSome p h
  obtain ⟨b, hp, hb, hlen, hdrop⟩ := LastIndex_dot_spec p k hk
  by_cases hc : Contains (p.take k) liveVideoThumbnailFilenameSuffix = true
  · have hr : CheckLiveVideoThumbnail.rewrite p = some p := by
      simp [CheckLiveVideoThumbnail.rewrite, hk, hc]
    exact ⟨p, hr, hr⟩
  · have hr : CheckLiveVideoThumbnail.rewrite p =
        some (p.take k ++ liveVideoThumbnailFilenameSuffix ++ '.' :: b) := by
      simp [CheckLiveVideoThumbnail.rewrite, hk, hc, hdrop]
    refine ⟨_, hr, ?_⟩
    have hl := LastIndex_dot_append (p.take k ++ liveVideoThumbnailFilenameSuffix) b hb
    have hcont : Contains (p.take k ++ liveVideoThumbnailFilenameSuffix)
        liveVideoThumbnailFilenameSuffix = true := by
      simpa using Contains_append (p.take k) liveVideoThumbnailFilenameSuffix []
    unfold CheckLiveVideoThumbnail.rewrite
    rw [hl]
    simp only [List.take_left', hcont, Bool.not_true, Bool.false_eq_true, if_false]

/-- C6, at the path of the specification. -/
theorem C6_rewrite_idempotent_witness :
    '.' ∈ "/vi/abc123/sddefault.jpg".toList ∧
    ∃ q, CheckLiveVideoThumbnail.rewrite "/vi/abc123/sddefault.jpg".toList = some q ∧
      CheckLiveVideoThumbnail.rewrite q = some q :=
  ⟨by decide, C6_rewrite_idempotent "/vi/abc123/sddefault.jpg".toList (by decide)⟩

/-- The rewrite on the path of the specification. -/
theorem rewrite_example :
    CheckLiveVideoThumbnail.rewrite "/vi/abc123/sddefault.jpg".toList =
      some "/vi/abc123/sddefault_live.jpg".toList ∧
    CheckLiveVideoThumbnail.rewrite "/vi/abc123/sddefault_live.jpg".toList =
      some "/vi/abc123/sddefault_live.jpg".toList := by
  decide

/-- C5 (the code at the failing input): the valid video id `abc_live123` contains `_live`,
and for it the requested path is `/vi/abc_live123/sddefault.jpg`, without the marker before
the extension; for the id `abc1live123` the marker is inserted. -/
theorem C5_live_in_id_suppresses_marker :
    IsValidVideoID "abc_live123".toList = true ∧
    CheckLiveVideoThumbnail.requestPath "abc_live123".toList [] =
      .ok "/vi/abc_live123/sddefault.jpg".toList ∧
    CheckLiveVideoThumbnail.requestPath "abc1live123".toList [] =
      .ok "/vi/abc1live123/sddefault_live.jpg".toList := by
  decide

/-! ## The feed -/

/-- The id of the video built from an entry is the entry's video id. -/
theorem Videos_video_ID (rfc3339 : Str → Option Int) (entry : ChannelFeedEntry) :
    (ChannelFeed.Videos.video rfc3339 entry).ID = entry.VideoID := rfl

/-- The loop of `Videos` returns videos with pairwise distinct ids, none of them among the
ids seen before. -/
theorem Videos_go_nodup (rfc3339 : Str → Option Int) (entries : List ChannelFeedEntry) :
    ∀ ids : List Str,
      (∀ v ∈ ChannelFeed.Videos.go rfc3339 ids entries, v.ID ∉ ids) ∧
      ((ChannelFeed.Videos.go rfc3339 ids entries).map ChannelFeedVideo.ID).Nodup := by
  induction entries with
  | nil => intro ids; simp [ChannelFeed.Videos.go]
  | cons entry rest ih =>
    intro ids
    unfold ChannelFeed.Videos.go
    split
    · exact ih ids
    · split
      · exact ih ids
      · rename_i hne hnc
        have hnot : entry.VideoID ∉ ids := by simpa using hnc
        obtain ⟨h1, h2⟩ := ih (ids ++ [entry.VideoID])
        refine ⟨?_, ?_⟩
        · intro v hv
          rcases List.mem_cons.mp hv with hv | hv
          · rw [hv]; exact hnot
          · exact fun hin => h1 v hv (List.mem_append.mpr (Or.inl hin))
        · simp only [List.map_cons, List.nodup_cons, Videos_video_ID]
          refine ⟨?_, h2⟩
          intro hin
          obtain ⟨v, hv, hid⟩ := List.mem_map.mp hin
          exact h1 v hv (List.mem_append.mpr (Or.inr (by simp [hid])))

/-- Two videos of `Videos` with the same id are the same video. -/
theorem Videos_ID_inj (rfc3339 : Str → Option Int) (f : Option ChannelFeed)
    (v w : ChannelFeedVideo) (hv : v ∈ ChannelFeed.Videos rfc3339 f)
    (hw : w ∈ ChannelFeed.Videos rfc3339 f) (hid : v.ID = w.ID) : v = w := by
  cases f with
  | none => simp [ChannelFeed.Videos] at hv
  | some feed =>
    exact List.inj_on_of_nodup_map (Videos_go_nodup rfc3339 feed.Entries []).2 hv hw hid

/-! ## The candidates of a feed -/

/-- The test of lines 77 to 87 of `getVideoCandidates`: whether a video becomes a
candidate. -/
theorem getVideoCandidates_go_mem (settings : CrawlerSettings) (channelID : Str) (nowm : Int)
    (vids : List ChannelFeedVideo) (vc : VideoCandidate) :
    vc ∈ entityHandler.getVideoCandidates.go settings channelID nowm vids ↔
      ∃ vid ∈ vids, vc = VideoCandidate.fresh vid.ID channelID ∧
        ¬ ((if vid.Published > vid.Updated then vid.Published else vid.Updated) ≥ nowm) ∧
        ¬ (wrap64 (nowm - (if vid.Published > vid.Updated then vid.Published else vid.Updated)) >
          Milliseconds (entityHandler.maximumVideoAge settings)) := by
  induction vids with
  | nil => simp [entityHandler.getVideoCandidates.go]
  | cons vid rest ih =>
    unfold entityHandler.getVideoCandidates.go
    simp only
    by_cases h1 : (if vid.Published > vid.Updated then vid.Published else vid.Updated) ≥ nowm
    · rw [if_pos h1, ih]
      constructor
      · rintro ⟨v, hv, h⟩
        exact ⟨v, List.mem_cons_of_mem _ hv, h⟩
      · rintro ⟨v, hv, h⟩
        rcases List.mem_cons.mp hv with hv | hv
        · subst hv; exact absurd h1 h.2.1
        · exact ⟨v, hv, h⟩
    · rw [if_neg h1]
      by_cases h2 : wrap64 (nowm -
          (if vid.Published > vid.Updated then vid.Published else vid.Updated)) >
          Milliseconds (entityHandler.maximumVideoAge settings)
      · rw [if_pos h2, ih]
        constructor
        · rintro ⟨v, hv, h⟩
          exact ⟨v, List.mem_cons_of_mem _ hv, h⟩
        · rintro ⟨v, hv, h⟩
          rcases List.mem_cons.mp hv with hv | hv
          · subst hv; exact absurd h2 h.2.2
          · exact ⟨v, hv, h⟩
      · rw [if_neg h2, List.mem_cons, ih]
        constructor
        · rintro (h | ⟨v, hv, h⟩)
          · exact ⟨vid, List.mem_cons_self _ _, h, h1, h2⟩
          · exact ⟨v, List.mem_cons_of_mem _ hv, h⟩
        · rintro ⟨v, hv, h⟩
          rcases List.mem_cons.mp hv with hv | hv
          · subst hv; exact Or.inl h.1
          · exact Or.inr ⟨v, hv, h⟩

/-- The source's `lastTouch` is the larger of the two timestamps. -/
theorem lastTouch_eq_max (a b : Int) : (if a > b then a else b) = max a b := by
  split
  · rw [max_eq_left]; omega
  · rw [max_eq_right]; omega

/-- C7: with an effective `maximumVideoAge` of `ageMs` whole milliseconds, `ageMs ≥ 1`, and
`T = max(Published, Updated)` of a video of the feed: `getVideoCandidates` returns a list
that contains the video's candidate when `T = now - ageMs` and no candidate with the
video's id when `T = now - ageMs - 1` (`now` being `time.Now().UnixMilli()`). -/
theorem C7_age_boundary (settings : CrawlerSettings) (rfc3339 : Str → Option Int) (now : Time)
    (feed : ChannelFeed) (channelID : Str) (vid : ChannelFeedVideo) (ageMs : Int)
    (hage : entityHandler.maximumVideoAge settings = ageMs * 1000000) (h1 : 1 ≤ ageMs)
    (hmax : ageMs * 1000000 ≤ maxDuration)
    (hvid : vid ∈ ChannelFeed.Videos rfc3339 (some feed)) :
    ∃ vcs, entityHandler.getVideoCandidates settings rfc3339 now (some feed) channelID = .ok vcs ∧
      (max vid.Published vid.Updated = UnixMilli now - ageMs →
        VideoCandidate.fresh vid.ID channelID ∈ vcs) ∧
      (max vid.Published vid.Updated = UnixMilli now - ageMs - 1 →
        ∀ vc ∈ vcs, vc.ID ≠ vid.ID) := by
  refine ⟨_, rfl, ?_, ?_⟩
  · intro hT
    rw [getVideoCandidates_go_mem]
    refine ⟨vid, hvid, rfl, ?_, ?_⟩
    · rw [lastTouch_eq_max, hT]; omega
    · rw [lastTouch_eq_max, hT, hage]
      unfold maxDuration at hmax
      have e : UnixMilli now - (UnixMilli now - ageMs) = ageMs := by omega
      rw [e]
      have hm : Milliseconds (ageMs * 1000000) = ageMs := by
        unfold Milliseconds
        exact Int.mul_tdiv_cancel _ (by norm_num)
      rw [hm]
      unfold wrap64
      omega
  · intro hT vc hvc hid
    rw [getVideoCandidates_go_mem] at hvc
    obtain ⟨w, hw, hvcw, _, hkeep⟩ := hvc
    have hwid : w.ID = vid.ID := by rw [← hid, hvcw]; rfl
    have hwv : w = vid := Videos_ID_inj rfc3339 (some feed) w vid hw hvid hwid
    subst hwv
    apply hkeep
    rw [lastTouch_eq_max, hT, hage]
    unfold maxDuration at hmax
    have e : UnixMilli now - (UnixMilli now - ageMs - 1) = ageMs + 1 := by omega
    rw [e]
    have hm : Milliseconds (ageMs * 1000000) = ageMs := by
      unfold Milliseconds
      exact Int.mul_tdiv_cancel _ (by norm_num)
    rw [hm]
    unfold wrap64
    omega

/-- The boundary of the age window with the default 60 days: of the two videos of
`boundaryFeed` the one last touched exactly 60 days ago is the only candidate. -/
theorem age_boundary_example :
    entityHandler.getVideoCandidates DefaultSettings demoRfc3339 demoNow (some boundaryFeed)
      demoHandle.Value = .ok [VideoCandidate.fresh "video-edge0".toList demoHandle.Value] := by
  decide

/-- C7, at the video of `boundaryFeed` last touched exactly 60 days before `demoNow`, with
the default settings. -/
theorem C7_age_boundary_witness :
    entityHandler.maximumVideoAge DefaultSettings = 5184000000 * 1000000 ∧
    ChannelFeed.Videos.video demoRfc3339 (demoEntry "video-edge0" "2023-11-02T00:00:00Z") ∈
      ChannelFeed.Videos demoRfc3339 (some boundaryFeed) ∧
    ∃ vcs, entityHandler.getVideoCandidates DefaultSettings demoRfc3339 demoNow
        (some boundaryFeed) demoHandle.Value = .ok vcs ∧
      VideoCandidate.fresh "video-edge0".toList demoHandle.Value ∈ vcs :=
  ⟨by decide, by decide,
    match C7_age_boundary DefaultSettings demoRfc3339 demoNow boundaryFeed demoHandle.Value
      (ChannelFeed.Videos.video demoRfc3339 (demoEntry "video-edge0" "2023-11-02T00:00:00Z"))
      5184000000 (by decide) (by decide) (by decide) (by decide) with
    | ⟨vcs, h, hin, _⟩ => ⟨vcs, h, hin (by decide)⟩⟩

/-- When the effective maximum video age is 0, no video of the feed becomes a candidate
(the timestamps being such that the `int64` subtraction of line 85 does not overflow). -/
theorem getVideoCandidates_zero_age (settings : CrawlerSettings) (rfc3339 : Str → Option Int)
    (now : Time) (feed : ChannelFeed) (channelID : Str)
    (h0 : entityHandler.maximumVideoAge settings = 0)
    (hrange : ∀ vid ∈ ChannelFeed.Videos rfc3339 (some feed),
      UnixMilli now - max vid.Published vid.Updated ≤ 9223372036854775807) :
    entityHandler.getVideoCandidates settings rfc3339 now (some feed) channelID = .ok [] := by
  unfold entityHandler.getVideoCandidates
  simp only [Except.ok.injEq]
  apply List.eq_nil_iff_forall_not_mem.mpr
  intro vc hvc
  rw [getVideoCandidates_go_mem] at hvc
  obtain ⟨vid, hvid, _, hlt, hkeep⟩ := hvc
  apply hkeep
  have := hrange vid hvid
  rw [lastTouch_eq_max] at hlt ⊢
  rw [h0]
  have hm : Milliseconds 0 = 0 := by decide
  rw [hm]
  unfold wrap64
  omega

/-- C8 (the code at the failing input): with `MaximumVideoAge = 0` (and also with a
negative value) the video of `recentFeed`, last touched one hour before now, is not a
candidate; with the default settings it is. -/
theorem C8_zero_age_drops_every_video :
    entityHandler.maximumVideoAge { DefaultSettings with MaximumVideoAge := 0 } = 0 ∧
    entityHandler.getVideoCandidates { DefaultSettings with MaximumVideoAge := 0 } demoRfc3339
      demoNow (some recentFeed) demoHandle.Value = .ok [] ∧
    entityHandler.getVideoCandidates { DefaultSettings with MaximumVideoAge := -1 } demoRfc3339
      demoNow (some recentFeed) demoHandle.Value = .ok [] ∧
    entityHandler.getVideoCandidates DefaultSettings demoRfc3339
      demoNow (some recentFeed) demoHandle.Value =
        .ok [VideoCandidate.fresh "video-hour1".toList demoHandle.Value] := by
  decide

/-! ## The channel index -/

/-- The order of runes is the order of their numbers. -/
theorem char_le_toNat (c d : Char) : (c ≤ d) = (c.toNat ≤ d.toNat) := propext Iff.rfl

/-- Runes are equal when their numbers are. -/
theorem char_eq_toNat (c d : Char) : (c = d) = (c.toNat = d.toNat) := by
  apply propext
  constructor
  · intro h; rw [h]
  · intro h
    apply Char.ext
    exact UInt32.ext h

/-- The runes that pass the loop of `IsValidChannelID`, by their numbers. -/
theorem validIDRune_toNat (c : Char) (h : validIDRune c = true) :
    (48 ≤ c.toNat ∧ c.toNat ≤ 57) ∨ (65 ≤ c.toNat ∧ c.toNat ≤ 90) ∨
    (97 ≤ c.toNat ∧ c.toNat ≤ 122) ∨ c.toNat = 45 ∨ c.toNat = 95 := by
  unfold validIDRune at h
  have n0 : '0'.toNat = 48 := rfl
  have n9 : '9'.toNat = 57 := rfl
  have nA : 'A'.toNat = 65 := rfl
  have nZ : 'Z'.toNat = 90 := rfl
  have na : 'a'.toNat = 97 := rfl
  have nz : 'z'.toNat = 122 := rfl
  have nm : '-'.toNat = 45 := rfl
  have nu : '_'.toNat = 95 := rfl
  by_contra hc
  simp only [not_or, not_and, not_le] at hc
  obtain ⟨h1, h2, h3, h4, h5⟩ := hc
  revert h
  split
  · split
    · rename_i hh
      simp only [Bool.or_eq_true, beq_iff_eq, char_eq_toNat, nm, nu] at hh
      omega
    · simp
  · rename_i hh
    simp only [ge_iff_le, Bool.not_eq_true', Bool.not_eq_false, Bool.or_eq_true,
      Bool.and_eq_true, decide_eq_true_eq, char_le_toNat, n0, n9, nA, nZ, na, nz] at hh
    omega

/-- A rune of a valid id takes one byte. -/
theorem validIDRune_utf8Size (c : Char) (h : validIDRune c = true) : c.utf8Size = 1 := by
  have := validIDRune_toNat c h
  unfold Char.utf8Size
  have : c.val ≤ 127 := by
    show c.val.toNat ≤ 127
    show c.toNat ≤ 127
    omega
  simp [this]

/-- A rune of a valid id is not white space. -/
theorem validIDRune_not_space (c : Char) (h : validIDRune c = true) : isSpace c = false := by
  have := validIDRune_toNat c h
  unfold isSpace
  have nt : '\t'.toNat = 9 := rfl
  have nn : '\n'.toNat = 10 := rfl
  have nr : '\r'.toNat = 13 := rfl
  have ns : ' '.toNat = 32 := rfl
  simp only [Bool.or_eq_false_iff, beq_eq_false_iff_ne, ne_eq, char_eq_toNat, nt, nn, nr, ns,
    Bool.and_eq_false_imp, decide_eq_true_eq, decide_eq_false_iff_not, not_le]
  omega

/-- A rune of a valid id is none of the separators of the link tags. -/
theorem validIDRune_ne (c : Char) (h : validIDRune c = true) :
    c ≠ '/' ∧ c ≠ '>' ∧ c ≠ '<' ∧ c ≠ '"' ∧ c ≠ '&' := by
  have := validIDRune_toNat c h
  have n1 : '/'.toNat = 47 := rfl
  have n2 : '>'.toNat = 62 := rfl
  have n3 : '<'.toNat = 60 := rfl
  have n4 : '"'.toNat = 34 := rfl
  have n5 : '&'.toNat = 38 := rfl
  simp only [ne_eq, char_eq_toNat, n1, n2, n3, n4, n5]
  omega

/-- A valid channel id: its runes pass the loop and its length is between 6 and 64. -/
theorem IsValidChannelID_iff (s : Str) :
    IsValidChannelID s = true ↔ (6 ≤ s.length ∧ s.length ≤ 64 ∧ ∀ c ∈ s, validIDRune c = true) := by
  have hlen : (∀ c ∈ s, validIDRune c = true) → len s = s.length := by
    intro hall
    unfold len
    induction s with
    | nil => rfl
    | cons c s ih =>
      simp only [List.map_cons, List.sum_cons, List.length_cons]
      rw [validIDRune_utf8Size c (hall c (List.mem_cons_self _ _)),
        ih (fun d hd => hall d (List.mem_cons_of_mem _ hd))]
      omega
  unfold IsValidChannelID
  simp only [Bool.or_eq_true, decide_eq_true_eq]
  constructor
  · intro h
    split at h
    · cases h
    · rename_i hn
      have hall : ∀ c ∈ s, validIDRune c = true := by simpa using h
      have := hlen hall
      refine ⟨by omega, by omega, hall⟩
  · rintro ⟨h1, h2, hall⟩
    have := hlen hall
    rw [if_neg (by omega)]
    simpa using hall



/-- A prefix test looks only at as many runes as the prefix has. -/
theorem HasPrefix_append_left (sub : Str) :
    ∀ (l r : Str), sub.length ≤ l.length → HasPrefix (l ++ r) sub = HasPrefix l sub := by
  induction sub with
  | nil => intro l r _; cases l <;> cases r <;> rfl
  | cons d sub ih =>
    intro l r hl
    cases l with
    | nil => simp at hl
    | cons c l =>
      simp only [List.cons_append, HasPrefix, List.append_eq]
      rw [ih l r (by simpa using hl)]

/-- The first occurrence of a substring stays the first when the string is extended. -/
theorem Index_go_append (sub rest : Str) (a : Str) :
    ∀ i, Index.go sub (a ++ sub) i = some (i + a.length) →
      Index.go sub (a ++ sub ++ rest) i = some (i + a.length) := by
  induction a with
  | nil =>
    intro i _
    cases h : ([] ++ sub ++ rest : Str) with
    | nil =>
      have : sub = [] := by
        cases sub with
        | nil => rfl
        | cons c t => simp at h
      simp [Index.go, this]
    | cons c t =>
      have hp : HasPrefix (c :: t) sub = true := by
        rw [← h]; simpa using HasPrefix_append sub rest
      simp [Index.go, hp]
  | cons c a ih =>
    intro i h
    have hl : sub.length ≤ (c :: (a ++ sub)).length := by
      simp only [List.length_cons, List.length_append]; omega
    have hp := HasPrefix_append_left sub (c :: (a ++ sub)) rest hl
    have e1 : (c :: a) ++ sub = c :: (a ++ sub) := rfl
    have e2 : (c :: a) ++ sub ++ rest = c :: (a ++ sub ++ rest) := rfl
    have e3 : c :: (a ++ sub) ++ rest = c :: (a ++ sub ++ rest) := rfl
    rw [e3] at hp
    rw [e1] at h
    rw [e2]
    unfold Index.go at h ⊢
    rw [hp]
    split at h
    · simp only [Option.some.injEq, List.length_cons] at h; omega
    · rename_i hnp
      rw [if_neg hnp]
      have := ih (i + 1) (by rw [h]; simp only [List.length_cons]; congr 1; omega)
      rw [this]; simp only [List.length_cons]; congr 1; omega

/-- The first occurrence of a rune after a part that does not have it. -/
theorem Index_go_rune (c : Char) (r : Str) (a : Str) (ha : c ∉ a) :
    ∀ i, Index.go [c] (a ++ c :: r) i = some (i + a.length) := by
  induction a with
  | nil => intro i; simp [Index.go, HasPrefix]
  | cons d a ih =>
    intro i
    have hd : d ≠ c := fun h => ha (by simp [h])
    have ha2 : c ∉ a := fun h => ha (by simp [h])
    have e1 : (d :: a) ++ c :: r = d :: (a ++ c :: r) := rfl
    rw [e1]
    unfold Index.go
    have hp : HasPrefix (d :: (a ++ c :: r)) [c] = false := by simp [HasPrefix, hd]
    rw [hp]
    simp only [Bool.false_eq_true, if_false]
    rw [ih ha2]; simp only [List.length_cons]; congr 1; omega

/-- No occurrence of a rune in a string that does not have it. -/
theorem Index_go_rune_none (c : Char) (a : Str) (ha : c ∉ a) :
    ∀ i, Index.go [c] a i = none := by
  induction a with
  | nil => intro i; simp [Index.go]
  | cons d a ih =>
    intro i
    have hd : d ≠ c := fun h => ha (by simp [h])
    have ha2 : c ∉ a := fun h => ha (by simp [h])
    unfold Index.go
    have hp : HasPrefix (d :: a) [c] = false := by simp [HasPrefix, hd]
    rw [hp]
    simp only [Bool.false_eq_true, if_false]
    exact ih ha2 _

/-- The byte length of a concatenation. -/
theorem len_append (a b : Str) : len (a ++ b) = len a + len b := by
  simp [len]

/-- The loop that collects the link tags never runs out of fuel: with more turns allowed
than `p` has runes the result does not depend on the number of turns. -/
theorem collect_fuel : ∀ (fuel : Nat) (p linkTags : Str), p.length < fuel →
    ParseChannelIndex.collect fuel p linkTags =
      ParseChannelIndex.collect (p.length + 1) p linkTags := by
  intro fuel
  induction fuel using Nat.strong_induction_on with
  | _ fuel ih =>
    intro p linkTags hp
    cases fuel with
    | zero => omega
    | succ fuel =>
      rw [ParseChannelIndex.collect, ParseChannelIndex.collect]
      cases hs : Index p linkTagStart with
      | none => rfl
      | some startPos =>
        simp only
        cases he : Index (p.drop startPos) linkTagEnd with
        | none => rfl
        | some endPos =>
          simp only
          have hne : p ≠ [] := by
            intro h0
            rw [h0] at hs
            have hnil : Index [] linkTagStart = none := by decide
            rw [hnil] at hs
            cases hs
          have hpos : 0 < p.length := List.length_pos.mpr hne
          have hlt : ((p.drop startPos).drop (endPos + 1)).length < p.length := by
            simp only [List.length_drop]
            omega
          rw [ih fuel (Nat.lt_succ_self _) _ _ (by omega),
            ih p.length (by omega) _ _ hlt]

/-- The link tags of a page with one link tag: when `<link` first occurs in `pre ++ tag` at
the start of `tag`, the tag ends with its only `>`, is longer than `<link>`, and `<link`
does not occur in `post`, the document handed to the parser holds `tag` alone. -/
theorem linkTags_single (pre inner post : Str)
    (hpre : Index (pre ++ linkTagStart) linkTagStart = some pre.length)
    (hinner : '>' ∉ inner) (hlen : len inner > 0)
    (hpost : Index post linkTagStart = none) :
    ParseChannelIndex.linkTags (pre ++ (linkTagStart ++ inner ++ linkTagEnd) ++ post) =
      "<html><body>".toList ++ (linkTagStart ++ inner ++ linkTagEnd) ++
        "</body></html>".toList := by
  unfold ParseChannelIndex.linkTags
  congr 1
  have hstart : Index (pre ++ (linkTagStart ++ inner ++ linkTagEnd) ++ post) linkTagStart
      = some pre.length := by
    have := Index_go_append linkTagStart (inner ++ linkTagEnd ++ post) pre 0
      (by simpa [Index] using hpre)
    simpa [Index, List.append_assoc] using this
  have hdrop : (pre ++ (linkTagStart ++ inner ++ linkTagEnd) ++ post).drop pre.length =
      (linkTagStart ++ inner) ++ '>' :: post := by
    simp [List.append_assoc, linkTagEnd]
  have hend : Index ((linkTagStart ++ inner) ++ '>' :: post) linkTagEnd =
      some (linkTagStart ++ inner).length := by
    have hn : '>' ∉ linkTagStart ++ inner := by
      intro h
      rcases List.mem_append.mp h with h | h
      · revert h; decide
      · exact hinner h
    have := Index_go_rune '>' post (linkTagStart ++ inner) hn 0
    simpa [Index, linkTagEnd] using this
  have htake : ((linkTagStart ++ inner) ++ '>' :: post).take ((linkTagStart ++ inner).length + 1)
      = linkTagStart ++ inner ++ linkTagEnd := by
    have e : (linkTagStart ++ inner) ++ '>' :: post = (linkTagStart ++ inner ++ linkTagEnd) ++ post := by
      simp [linkTagEnd]
    rw [e]
    have e2 : (linkTagStart ++ inner).length + 1 = (linkTagStart ++ inner ++ linkTagEnd).length := by
      simp [linkTagEnd, Nat.add_assoc]
    rw [e2, List.take_left']
    rfl
  have hdrop2 : ((linkTagStart ++ inner) ++ '>' :: post).drop ((linkTagStart ++ inner).length + 1)
      = post := by
    have e : (linkTagStart ++ inner) ++ '>' :: post = (linkTagStart ++ inner ++ linkTagEnd) ++ post := by
      simp [linkTagEnd]
    rw [e]
    have e2 : (linkTagStart ++ inner).length + 1 = (linkTagStart ++ inner ++ linkTagEnd).length := by
      simp [linkTagEnd, Nat.add_assoc]
    rw [e2, List.drop_left']
    rfl
  have hbig : len (linkTagStart ++ inner ++ linkTagEnd) > len linkTagStart + len linkTagEnd := by
    rw [len_append, len_append]; omega
  obtain ⟨k, hk⟩ : ∃ k, (pre ++ (linkTagStart ++ inner ++ linkTagEnd) ++ post).length = k + 1 := by
    refine ⟨(pre ++ (linkTagStart ++ inner ++ linkTagEnd) ++ post).length - 1, ?_⟩
    have : 0 < (pre ++ (linkTagStart ++ inner ++ linkTagEnd) ++ post).length := by
      simp [linkTagEnd]
    omega
  rw [hk]
  rw [ParseChannelIndex.collect]
  simp only [hstart, hdrop, hend, htake, hdrop2, hbig, if_true]
  rw [ParseChannelIndex.collect]
  simp only [hpost]

/-- The children of the body of `documentOf children` are `children`. -/
theorem bodyNodes_documentOf (children : List Node) :
    ParseChannelIndex.bodyNodes (documentOf children) = children := by
  simp [ParseChannelIndex.bodyNodes, documentOf, ParseChannelIndex.skipIntoChild, Node.Type_,
    Node.DataAtom, Node.FirstChild]

/-- Go `strings.TrimSpace` leaves a string that neither starts nor ends with white space. -/
theorem TrimSpace_eq (c d : Char) (s t : Str) (hc : isSpace c = false) (hd : isSpace d = false) :
    TrimSpace (c :: s ++ t ++ [d]) = c :: s ++ t ++ [d] := by
  unfold TrimSpace
  have e1 : (c :: s ++ t ++ [d]).dropWhile isSpace = c :: s ++ t ++ [d] := by
    simp [List.dropWhile, hc]
  rw [e1]
  have e2 : (c :: s ++ t ++ [d]).reverse = d :: (c :: s ++ t).reverse := by simp
  rw [e2]
  simp [List.dropWhile, hd]

/-- The canonical link node of a valid channel id yields the id. -/
theorem nodeID_canonicalNode (X : Str) (hX : IsValidChannelID X = true) :
    ParseChannelIndex.nodeID (canonicalNode X) = some X := by
  obtain ⟨h6, _, hall⟩ := (IsValidChannelID_iff X).mp hX
  obtain ⟨t, d, hXe⟩ : ∃ t d, X = t ++ [d] := by
    have hne : X ≠ [] := by intro h; rw [h] at h6; simp at h6
    exact ⟨X.dropLast, X.getLast hne, (List.dropLast_append_getLast hne).symm⟩
  have hd : isSpace d = false :=
    validIDRune_not_space d (hall d (by rw [hXe]; simp))
  have htrim : TrimSpace ("https://www.youtube.com/channel/".toList ++ X) =
      "https://www.youtube.com/channel/".toList ++ X := by
    rw [hXe]
    have := TrimSpace_eq 'h' d "ttps://www.youtube.com/channel/".toList t (by decide) hd
    simpa using this
  have hslash : '/' ∉ X := fun h => (validIDRune_ne '/' (hall '/' h)).1 rfl
  have hidx : Index X "/".toList = none := Index_go_rune_none '/' X hslash 0
  have hid : ParseChannelIndex.idAfter ("https://www.youtube.com/channel/".toList ++ X)
      "channel/".toList "/".toList = some X := by
    unfold ParseChannelIndex.idAfter
    have hm : Index ("https://www.youtube.com/channel/".toList ++ X) "channel/".toList = some 24 := by
      simp [Index, Index.go, HasPrefix]
    rw [hm]
    have hdrop : ("https://www.youtube.com/channel/".toList ++ X).drop (24 + "channel/".toList.length)
        = X := by
      simp
    simp only [hdrop, hidx, hX]
    simp
  unfold ParseChannelIndex.nodeID
  have hattr : ParseChannelIndex.readAttrs ⟨[], [], [], []⟩ (canonicalNode X).Attr =
      ⟨"canonical".toList, [], [], "https://www.youtube.com/channel/".toList ++ X⟩ := by
    simp only [canonicalNode, Node.Attr, ParseChannelIndex.readAttrs]
    have k1 : ToLower "rel".toList = "rel".toList := by decide
    have k2 : ToLower "href".toList = "href".toList := by decide
    have k3 : ToLower "canonical".toList = "canonical".toList := by decide
    have n1 : ¬ ("href".toList = "rel".toList) := by decide
    have n2 : ¬ ("href".toList = "itemprop".toList) := by decide
    have n3 : ¬ ("href".toList = "type".toList) := by decide
    simp only [k1, k2, k3, n1, n2, n3, if_true, if_false, htrim]
  rw [hattr]
  have hel : ¬ (((canonicalNode X).Type_ ≠ NodeType.ElementNode ||
      (canonicalNode X).DataAtom ≠ Atom.Link || (canonicalNode X).Attr.length = 0) = true) := by
    simp [canonicalNode, Node.Type_, Node.DataAtom, Node.Attr]
  rw [if_neg hel]
  simp only [hid]
  simp

/-- An id that `idAfter` returns is a valid channel id. -/
theorem idAfter_valid (href marker sep id : Str)
    (h : ParseChannelIndex.idAfter href marker sep = some id) : IsValidChannelID id = true := by
  unfold ParseChannelIndex.idAfter at h
  split at h
  · simp at h
  · split at h
    · simp only at h
      split at h
      · rename_i hv
        simp only [Option.some.injEq] at h
        rw [← h]; exact hv
      · simp at h
    · simp at h

/-- An id that a node yields is a valid channel id. -/
theorem nodeID_valid (node : Node) (id : Str)
    (h : ParseChannelIndex.nodeID node = some id) : IsValidChannelID id = true := by
  unfold ParseChannelIndex.nodeID at h
  split at h
  · simp at h
  · simp only at h
    split at h
    · exact idAfter_valid _ _ _ _ h
    · split at h
      · exact idAfter_valid _ _ _ _ h
      · simp at h

/-- The loop over the nodes returns the empty string or a valid channel id. -/
theorem scan_valid (nodes : List Node) :
    ParseChannelIndex.scan nodes = [] ∨ IsValidChannelID (ParseChannelIndex.scan nodes) = true := by
  induction nodes with
  | nil => exact Or.inl rfl
  | cons node rest ih =>
    unfold ParseChannelIndex.scan
    cases h : ParseChannelIndex.nodeID node with
    | none => exact ih
    | some id => exact Or.inr (nodeID_valid node id h)

/-- The loop over the nodes returns the id of the first node that yields one. -/
theorem scan_first (before after : List Node) (node : Node) (id : Str)
    (hbefore : ∀ n ∈ before, ParseChannelIndex.nodeID n = none)
    (hnode : ParseChannelIndex.nodeID node = some id) :
    ParseChannelIndex.scan (before ++ node :: after) = id := by
  induction before with
  | nil => simp [ParseChannelIndex.scan, hnode]
  | cons n rest ih =>
    have hn := hbefore n (List.mem_cons_self _ _)
    simp only [List.cons_append, ParseChannelIndex.scan, hn]
    exact ih (fun m hm => hbefore m (List.mem_cons_of_mem _ hm))

/-- Whenever `ParseChannelIndex` succeeds, the id it returns is a valid channel id. -/
theorem ParseChannelIndex_ok_valid (parse : Str → Except Error (Option Node)) (b : Str)
    (index : ChannelIndex) (h : ParseChannelIndex parse b = .ok index) :
    IsValidChannelID index.ChannelID = true := by
  unfold ParseChannelIndex at h
  split at h
  · cases h
  · cases he : ParseChannelIndex.extract parse (ParseChannelIndex.linkTags b) with
    | error e => rw [he] at h; cases h
    | ok channelID =>
      rw [he] at h
      simp only at h
      split at h
      · cases h
      · rename_i hne
        cases h
        unfold ParseChannelIndex.extract at he
        cases hp : parse (ParseChannelIndex.linkTags b) with
        | error e => rw [hp] at he; cases he
        | ok r =>
          rw [hp] at he
          cases r with
          | none => simp only at he; cases he; exact absurd rfl hne
          | some root =>
            simp only at he
            cases he
            rcases scan_valid (ParseChannelIndex.bodyNodes root) with h0 | hv
            · exact absurd h0 hne
            · exact hv

/-- The id that `ParseChannelIndex` returns is the one of the first node, among the
children of the body, that yields one. -/
theorem ParseChannelIndex_first_node (parse : Str → Except Error (Option Node)) (b : Str)
    (root : Node) (before after : List Node) (node : Node) (id : Str) (hb : len b ≠ 0)
    (hparse : parse (ParseChannelIndex.linkTags b) = .ok (some root))
    (hnodes : ParseChannelIndex.bodyNodes root = before ++ node :: after)
    (hbefore : ∀ n ∈ before, ParseChannelIndex.nodeID n = none)
    (hnode : ParseChannelIndex.nodeID node = some id) :
    ParseChannelIndex parse b = .ok ⟨id⟩ := by
  have hv := nodeID_valid node id hnode
  have hne : id ≠ [] := by
    intro h0
    rw [h0] at hv
    revert hv
    decide
  unfold ParseChannelIndex ParseChannelIndex.extract
  rw [if_neg hb, hparse]
  simp only [hnodes, scan_first before after node id hbefore hnode, hne, if_false]

/-- C9 (amended): when `html.Parse` returns a document for the link tags taken from a
non-empty page, `ParseChannelIndex` returns the id of the first node, among the children of
the body of that document in document order, that yields a valid channel id by its own kind
(canonical or `itemprop="url"` link through `channel/<id>`, else alternate RSS link through
`channel_id=<id>`); nodes before it that yield no id are passed over, and the kind of the
nodes after it does not matter: there is no priority between the two kinds across
elements. The id returned is a valid channel id. -/
theorem C9_first_link_wins (parse : Str → Except Error (Option Node)) (b : Str) (root : Node)
    (before after : List Node) (node : Node) (id : Str) (hb : len b ≠ 0)
    (hparse : parse (ParseChannelIndex.linkTags b) = .ok (some root))
    (hnodes : ParseChannelIndex.bodyNodes root = before ++ node :: after)
    (hbefore : ∀ n ∈ before, ParseChannelIndex.nodeID n = none)
    (hnode : ParseChannelIndex.nodeID node = some id) :
    ParseChannelIndex parse b = .ok ⟨id⟩ ∧ IsValidChannelID id = true :=
  ⟨ParseChannelIndex_first_node parse b root before after node id hb hparse hnodes hbefore hnode,
    nodeID_valid node id hnode⟩

/-- C9 (as stated, refuted): the page made of an alternate RSS link to channel B followed
by a canonical link to channel A contains both links, each of which alone yields its id;
`ParseChannelIndex` returns B, the id of the link that comes first, not A. With the
canonical link first it returns A. -/
theorem C9_alternate_link_first_wins :
    IsValidChannelID channelA = true ∧ IsValidChannelID channelB = true ∧ channelB ≠ channelA ∧
    ParseChannelIndex htmlParse (canonicalLink channelA) = .ok ⟨channelA⟩ ∧
    ParseChannelIndex htmlParse (alternateLink channelB) = .ok ⟨channelB⟩ ∧
    ParseChannelIndex htmlParse (alternateLink channelB ++ canonicalLink channelA) =
      .ok ⟨channelB⟩ ∧
    ParseChannelIndex htmlParse (canonicalLink channelA ++ alternateLink channelB) =
      .ok ⟨channelA⟩ := by
  decide

/-- The canonical link element is `<link`, an inner part without `>`, and `>`. -/
theorem canonicalLink_eq (X : Str) :
    canonicalLink X = linkTagStart ++
      (" rel=\"canonical\" href=\"https://www.youtube.com/channel/".toList ++ X ++ "\"".toList)
      ++ linkTagEnd := by
  simp [canonicalLink, linkTagStart, linkTagEnd]

/-- A page with the canonical link to a valid channel id as its only link tag resolves to
the id, when the HTML parser builds the one-link tree for the document of that tag. -/
theorem ParseChannelIndex_canonical (parse : Str → Except Error (Option Node))
    (X pre post : Str) (hX : IsValidChannelID X = true)
    (hpre : Index (pre ++ linkTagStart) linkTagStart = some pre.length)
    (hpost : Index post linkTagStart = none)
    (hparse : parse ("<html><body>".toList ++ canonicalLink X ++ "</body></html>".toList) =
      .ok (some (documentOf [canonicalNode X]))) :
    ParseChannelIndex parse (pre ++ canonicalLink X ++ post) = .ok ⟨X⟩ := by
  obtain ⟨_, _, hall⟩ := (IsValidChannelID_iff X).mp hX
  have hgt : '>' ∉ X := fun h => (validIDRune_ne '>' (hall '>' h)).2.1 rfl
  have hinner : '>' ∉
      (" rel=\"canonical\" href=\"https://www.youtube.com/channel/".toList ++ X ++ "\"".toList) := by
    intro h
    rcases List.mem_append.mp h with h | h
    · rcases List.mem_append.mp h with h | h
      · revert h; decide
      · exact hgt h
    · revert h; decide
  have hlen : len
      (" rel=\"canonical\" href=\"https://www.youtube.com/channel/".toList ++ X ++ "\"".toList)
        > 0 := by
    rw [len_append, len_append]
    have : len "\"".toList = 1 := by decide
    omega
  have htags := linkTags_single pre _ post hpre hinner hlen hpost
  rw [← canonicalLink_eq] at htags
  apply ParseChannelIndex_first_node parse _ (documentOf [canonicalNode X]) [] []
    (canonicalNode X) X
  · rw [len_append, len_append, canonicalLink_eq, len_append, len_append]
    have : len linkTagEnd = 1 := by decide
    omega
  · rw [htags]; exact hparse
  · rw [bodyNodes_documentOf]; rfl
  · intro n hn; cases hn
  · exact nodeID_canonicalNode X hX

/-- C10 (as stated, refuted): two pages whose only `<link>` element is the canonical link
to channel A. In the first a comment in front holds the text of a canonical link to
channel B: the loop that collects what starts with `<link` takes it as well, the document
handed to `html.Parse` holds both elements, and B is returned. In the second an element
`<linkfoo>` stands in front: it is collected too, the link element becomes its child in
the parsed document, no child of the body is a link and the extraction fails. Each result
is given with the model of `html.Parse` and with the tree written out. -/
theorem C10_link_text_outside_the_element :
    IsValidChannelID channelA = true ∧ IsValidChannelID channelB = true ∧ channelB ≠ channelA ∧
    ParseChannelIndex.linkTags
        ("<!-- ".toList ++ canonicalLink channelB ++ " -->".toList ++ canonicalLink channelA) =
      "<html><body>".toList ++ canonicalLink channelB ++ canonicalLink channelA ++
        "</body></html>".toList ∧
    ParseChannelIndex htmlParse
        ("<!-- ".toList ++ canonicalLink channelB ++ " -->".toList ++ canonicalLink channelA) =
      .ok ⟨channelB⟩ ∧
    ParseChannelIndex (fun _ => .ok (some (documentOf
        [canonicalNode channelB, canonicalNode channelA])))
        ("<!-- ".toList ++ canonicalLink channelB ++ " -->".toList ++ canonicalLink channelA) =
      .ok ⟨channelB⟩ ∧
    ParseChannelIndex.linkTags ("<linkfoo>".toList ++ canonicalLink channelA) =
      "<html><body><linkfoo>".toList ++ canonicalLink channelA ++ "</body></html>".toList ∧
    ParseChannelIndex.scan (ParseChannelIndex.bodyNodes (documentOf
        [Node.mk .ElementNode .zero [] [canonicalNode channelA]])) = [] ∧
    ParseChannelIndex htmlParse ("<linkfoo>".toList ++ canonicalLink channelA) =
      .error (.new "failed HTML extraction") ∧
    ParseChannelIndex (fun _ => .ok (some (documentOf
        [Node.mk .ElementNode .zero [] [canonicalNode channelA]])))
        ("<linkfoo>".toList ++ canonicalLink channelA) =
      .error (.new "failed HTML extraction") := by
  decide

/-- C10 (amended): for every valid channel id `X` and every page made of a part in which no
`<link` starts, the element `<link rel="canonical" href="https://www.youtube.com/channel/X">` and a
part without `<link`, `ParseChannelIndex` returns `X`, the HTML library giving for the
document `<html><body>` + element + `</body></html>` the tree with that one link element;
and whenever `ParseChannelIndex` succeeds, on any input and with any parser, the id it
returns is a valid channel id. -/
theorem C10_canonical_link_resolves (parse : Str → Except Error (Option Node))
    (X pre post : Str) (hX : IsValidChannelID X = true)
    (hpre : Index (pre ++ linkTagStart) linkTagStart = some pre.length)
    (hpost : Index post linkTagStart = none)
    (hparse : parse ("<html><body>".toList ++ canonicalLink X ++ "</body></html>".toList) =
      .ok (some (documentOf [canonicalNode X]))) :
    ParseChannelIndex parse (pre ++ canonicalLink X ++ post) = .ok ⟨X⟩ ∧
    ∀ (parse2 : Str → Except Error (Option Node)) (b : Str) (index : ChannelIndex),
      ParseChannelIndex parse2 b = .ok index → IsValidChannelID index.ChannelID = true :=
  ⟨ParseChannelIndex_canonical parse X pre post hX hpre hpost hparse, ParseChannelIndex_ok_valid⟩

/-! ## The model of `html.Parse` on the canonical link -/

/-- Reading up to a rune that ends the run. -/
theorem takeWhile_append_stop (p : Char → Bool) (d : Char) (r : Str) (hd : p d = false) :
    ∀ v : Str, (∀ c ∈ v, p c = true) → (v ++ d :: r).takeWhile p = v := by
  intro v
  induction v with
  | nil => intro _; simp [List.takeWhile, hd]
  | cons c v ih =>
    intro h
    have hc := h c (List.mem_cons_self _ _)
    simp only [List.cons_append, List.takeWhile_cons, hc, if_true]
    rw [ih (fun x hx => h x (List.mem_cons_of_mem _ hx))]

/-- Skipping up to a rune that ends the run. -/
theorem dropWhile_append_stop (p : Char → Bool) (d : Char) (r : Str) (hd : p d = false) :
    ∀ v : Str, (∀ c ∈ v, p c = true) → (v ++ d :: r).dropWhile p = d :: r := by
  intro v
  induction v with
  | nil => intro _; simp [List.dropWhile, hd]
  | cons c v ih =>
    intro h
    have hc := h c (List.mem_cons_self _ _)
    simp only [List.cons_append, List.dropWhile_cons, hc, if_true]
    rw [ih (fun x hx => h x (List.mem_cons_of_mem _ hx))]

/-- The value of a double-quoted attribute without a double quote inside. -/
theorem readTagAttrVal_quoted (v r : Str) (hv : '"' ∉ v) :
    readTagAttrVal ('=' :: '"' :: (v ++ '"' :: r)) = (v, r) := by
  have hall : ∀ c ∈ v, (c != '"') = true := by
    intro c hc
    simp only [bne_iff_ne, ne_eq]
    intro h; exact hv (h ▸ hc)
  have hd : ('"' != '"') = false := by decide
  have h1 := takeWhile_append_stop (fun c => c != '"') '"' r hd v hall
  have h2 := dropWhile_append_stop (fun c => c != '"') '"' r hd v hall
  have s1 : isTagSpace '=' = false := by decide
  have s2 : isTagSpace '"' = false := by decide
  unfold readTagAttrVal
  simp only [List.dropWhile, s1, s2]
  have q1 : ('"' == '>') = false := by decide
  have q2 : ('"' == '"' || '"' == '\'') = true := by decide
  simp only [q1, q2, Bool.false_eq_true, if_false, if_true, h1, h2, List.drop_one, List.tail_cons]

/-- The attributes of the canonical link element, as the tokenizer reads them. -/
theorem readTagAttrs_canonical (X : Str) (hX : '"' ∉ X) (n : Nat) :
    readTagAttrs (n + 3)
      ("rel=\"canonical\" href=\"https://www.youtube.com/channel/".toList ++ X ++
        "\"></body></html>".toList) []
      = some ([⟨"rel".toList, "canonical".toList⟩,
          ⟨"href".toList, "https://www.youtube.com/channel/".toList ++ X⟩],
        "</body></html>".toList) := by
  have hv1 := readTagAttrVal_quoted "canonical".toList (" href=\"https://www.youtube.com/channel/".toList ++ X ++ "\"></body></html>".toList) (by decide)
  have hv2 := readTagAttrVal_quoted ("https://www.youtube.com/channel/".toList ++ X) ("></body></html>".toList) (by
    intro h
    rcases List.mem_append.mp h with h | h
    · revert h; decide
    · exact hX h)
  have k1 : ∀ r : Str, readTagAttrKey [] ('r' :: 'e' :: 'l' :: '=' :: r) = ("rel".toList, '=' :: r) := by
    intro r; simp [readTagAttrKey, isTagSpace]
  have k2 : ∀ r : Str, readTagAttrKey [] ('h' :: 'r' :: 'e' :: 'f' :: '=' :: r) = ("href".toList, '=' :: r) := by
    intro r; simp [readTagAttrKey, isTagSpace]
  simp only [String.toList] at *
  simp only [List.cons_append, List.nil_append, List.append_assoc] at *
  have t1 : isTagSpace ' ' = true := by decide
  have t2 : isTagSpace 'h' = false := by decide
  have t3 : isTagSpace '>' = false := by decide
  have l1 : lower ['r', 'e', 'l'] = ['r', 'e', 'l'] := by decide
  have l2 : lower ['h', 'r', 'e', 'f'] = ['h', 'r', 'e', 'f'] := by decide
  rw [readTagAttrs]
  simp only [k1, hv1, List.dropWhile_cons, t1, t2, if_true, Bool.false_eq_true, if_false, l1,
    List.isEmpty_cons, List.nil_append, (by decide : ('r' == '>') = false)]
  rw [readTagAttrs]
  simp only [k2, hv2, List.dropWhile_cons, t3, Bool.false_eq_true, if_false, l2,
    List.isEmpty_cons, List.singleton_append, (by decide : ('h' == '>') = false)]
  rw [readTagAttrs]
  simp


/-- The tokenizer on a start tag without attributes, for the two names of the wrapper. -/
theorem tokenize_wrapper_start (fuel : Nat) (rest : Str) :
    tokenize (fuel + 1) ("<html>".toList ++ rest) =
      Token.startTag "html".toList [] :: tokenize fuel rest ∧
    tokenize (fuel + 1) ("<body>".toList ++ rest) =
      Token.startTag "body".toList [] :: tokenize fuel rest := by
  constructor <;>
  · simp only [String.toList, List.cons_append, List.nil_append]
    rw [tokenize]
    simp [readTagName, isTagSpace, readTagAttrs, lower, HasPrefix]

/-- The tokenizer on the two end tags of the wrapper. -/
theorem tokenize_wrapper_end (fuel : Nat) (rest : Str) :
    tokenize (fuel + 1) ("</body>".toList ++ rest) =
      Token.endTag "body".toList :: tokenize fuel rest ∧
    tokenize (fuel + 1) ("</html>".toList ++ rest) =
      Token.endTag "html".toList :: tokenize fuel rest := by
  constructor <;>
  · simp only [String.toList, List.cons_append, List.nil_append]
    rw [tokenize]
    simp [readTagName, isTagSpace, readTagAttrs, lower, HasPrefix]

/-- The tokenizer on the canonical link element. -/
theorem tokenize_canonicalLink (X : Str) (hX : '"' ∉ X) (fuel : Nat) :
    tokenize (fuel + 1) (canonicalLink X ++ "</body></html>".toList) =
      Token.startTag "link".toList
        [⟨"rel".toList, "canonical".toList⟩,
          ⟨"href".toList, "https://www.youtube.com/channel/".toList ++ X⟩] ::
        tokenize fuel "</body></html>".toList := by
  have hattrs := readTagAttrs_canonical X hX (X.length + 73)
  unfold canonicalLink
  simp only [String.toList, List.cons_append, List.nil_append, List.append_assoc] at hattrs ⊢
  rw [tokenize]
  have e : (List.dropWhile isTagSpace
      (readTagName ('l' :: 'i' :: 'n' :: 'k' :: ' ' :: 'r' :: 'e' :: 'l' :: '=' :: '"' :: 'c' ::
        'a' :: 'n' :: 'o' :: 'n' :: 'i' :: 'c' :: 'a' :: 'l' :: '"' :: ' ' :: 'h' :: 'r' :: 'e' ::
        'f' :: '=' :: '"' :: 'h' :: 't' :: 't' :: 'p' :: 's' :: ':' :: '/' :: '/' :: 'w' :: 'w' ::
        'w' :: '.' :: 'y' :: 'o' :: 'u' :: 't' :: 'u' :: 'b' :: 'e' :: '.' :: 'c' :: 'o' :: 'm' ::
        '/' :: 'c' :: 'h' :: 'a' :: 'n' :: 'n' :: 'e' :: 'l' :: '/' ::
        (X ++ ['"', '>', '<', '/', 'b', 'o', 'd', 'y', '>', '<', '/', 'h', 't', 'm', 'l', '>']))).2)
      = 'r' :: 'e' :: 'l' :: '=' :: '"' :: 'c' ::
        'a' :: 'n' :: 'o' :: 'n' :: 'i' :: 'c' :: 'a' :: 'l' :: '"' :: ' ' :: 'h' :: 'r' :: 'e' ::
        'f' :: '=' :: '"' :: 'h' :: 't' :: 't' :: 'p' :: 's' :: ':' :: '/' :: '/' :: 'w' :: 'w' ::
        'w' :: '.' :: 'y' :: 'o' :: 'u' :: 't' :: 'u' :: 'b' :: 'e' :: '.' :: 'c' :: 'o' :: 'm' ::
        '/' :: 'c' :: 'h' :: 'a' :: 'n' :: 'n' :: 'e' :: 'l' :: '/' ::
        (X ++ ['"', '>', '<', '/', 'b', 'o', 'd', 'y', '>', '<', '/', 'h', 't', 'm', 'l', '>']) := by
    simp [readTagName, isTagSpace]
  have en : (readTagName ('l' :: 'i' :: 'n' :: 'k' :: ' ' :: 'r' :: 'e' :: 'l' :: '=' :: '"' :: 'c' ::
        'a' :: 'n' :: 'o' :: 'n' :: 'i' :: 'c' :: 'a' :: 'l' :: '"' :: ' ' :: 'h' :: 'r' :: 'e' ::
        'f' :: '=' :: '"' :: 'h' :: 't' :: 't' :: 'p' :: 's' :: ':' :: '/' :: '/' :: 'w' :: 'w' ::
        'w' :: '.' :: 'y' :: 'o' :: 'u' :: 't' :: 'u' :: 'b' :: 'e' :: '.' :: 'c' :: 'o' :: 'm' ::
        '/' :: 'c' :: 'h' :: 'a' :: 'n' :: 'n' :: 'e' :: 'l' :: '/' ::
        (X ++ ['"', '>', '<', '/', 'b', 'o', 'd', 'y', '>', '<', '/', 'h', 't', 'm', 'l', '>']))).1
      = ['l', 'i', 'n', 'k'] := by
    simp [readTagName, isTagSpace]
  have hl : lower ['l', 'i', 'n', 'k'] = ['l', 'i', 'n', 'k'] := by decide
  have hs : ∀ r : Str, HasPrefix ('l' :: r) ['/'] = false := by
    intro r; simp [HasPrefix]
  simp only [(by decide : ('<' == '<') = true), if_true, hs, Bool.false_eq_true, if_false, e, en,
    hl]
  have hf : (List.length ('l' :: 'i' :: 'n' :: 'k' :: ' ' :: 'r' :: 'e' :: 'l' :: '=' :: '"' :: 'c' ::
        'a' :: 'n' :: 'o' :: 'n' :: 'i' :: 'c' :: 'a' :: 'l' :: '"' :: ' ' :: 'h' :: 'r' :: 'e' ::
        'f' :: '=' :: '"' :: 'h' :: 't' :: 't' :: 'p' :: 's' :: ':' :: '/' :: '/' :: 'w' :: 'w' ::
        'w' :: '.' :: 'y' :: 'o' :: 'u' :: 't' :: 'u' :: 'b' :: 'e' :: '.' :: 'c' :: 'o' :: 'm' ::
        '/' :: 'c' :: 'h' :: 'a' :: 'n' :: 'n' :: 'e' :: 'l' :: '/' ::
        (X ++ ['"', '>', '<', '/', 'b', 'o', 'd', 'y', '>', '<', '/', 'h', 't', 'm', 'l', '>'])) + 1)
      = X.length + 73 + 3 := by
    simp only [List.length_cons, List.length_append, List.length_nil]
  rw [hf, hattrs]

/-- The model of `html.Parse` builds, for the document that holds the canonical link to a
channel id without a double quote, the tree with that one link element. -/
theorem htmlParse_canonicalLink (X : Str) (hX : '"' ∉ X) :
    htmlParse ("<html><body>".toList ++ canonicalLink X ++ "</body></html>".toList) =
      .ok (some (documentOf [canonicalNode X])) := by
  have e0 : "<html><body>".toList ++ canonicalLink X ++ "</body></html>".toList =
      "<html>".toList ++ ("<body>".toList ++ (canonicalLink X ++ "</body></html>".toList)) := by
    simp [String.toList]
  have e1 : "</body></html>".toList = "</body>".toList ++ ("</html>".toList ++ []) := by decide
  obtain ⟨k, hk⟩ : ∃ k, ("<html><body>".toList ++ canonicalLink X ++ "</body></html>".toList).length
      + 1 = k + 6 := by
    refine ⟨X.length + 83, ?_⟩
    simp only [canonicalLink, String.toList, List.length_cons, List.length_append,
      List.length_nil]
    omega
  unfold htmlParse
  rw [hk, e0, (tokenize_wrapper_start _ _).1, (tokenize_wrapper_start _ _).2,
    tokenize_canonicalLink X hX, e1, (tokenize_wrapper_end _ _).1, (tokenize_wrapper_end _ _).2]
  simp [bodyChildren, canonicalNode]

/-- With the model of `html.Parse`, a page with the canonical link to a valid channel id as
its only link tag resolves to the id. -/
theorem ParseChannelIndex_htmlParse_canonical (X pre post : Str)
    (hX : IsValidChannelID X = true)
    (hpre : Index (pre ++ linkTagStart) linkTagStart = some pre.length)
    (hpost : Index post linkTagStart = none) :
    ParseChannelIndex htmlParse (pre ++ canonicalLink X ++ post) = .ok ⟨X⟩ := by
  obtain ⟨_, _, hall⟩ := (IsValidChannelID_iff X).mp hX
  have hq : '"' ∉ X := fun h => (validIDRune_ne '"' (hall '"' h)).2.2.2.1 rfl
  exact ParseChannelIndex_canonical htmlParse X pre post hX hpre hpost
    (htmlParse_canonicalLink X hq)

/-- C10 (amended), at the example of the specification, with the model of `html.Parse`, in
a page with other markup before and after the link. -/
theorem C10_canonical_link_resolves_witness :
    IsValidChannelID channelA = true ∧
    ParseChannelIndex htmlParse
      ("<!DOCTYPE html><html><head><title>x</title>".toList ++ canonicalLink channelA ++
        "</head><body><a href=\"/\">home</a></body></html>".toList) = .ok ⟨channelA⟩ :=
  ⟨by decide,
    (C10_canonical_link_resolves htmlParse channelA
      "<!DOCTYPE html><html><head><title>x</title>".toList
      "</head><body><a href=\"/\">home</a></body></html>".toList
      (by decide) (by decide) (by decide) (by rfl)).1⟩

/-- C9 (amended), with the model of `html.Parse`: in the page made of a style sheet link,
the alternate RSS link to channel B and the canonical link to channel A, the style sheet
node yields no id and is passed over, the alternate node yields B, and B is returned
although a canonical link yielding A follows. -/
theorem C9_first_link_wins_witness :
    len (stylesheetLink ++ alternateLink channelB ++ canonicalLink channelA) ≠ 0 ∧
    htmlParse (ParseChannelIndex.linkTags
        (stylesheetLink ++ alternateLink channelB ++ canonicalLink channelA)) =
      .ok (some (documentOf [stylesheetNode, alternateNode channelB, canonicalNode channelA])) ∧
    ParseChannelIndex.nodeID stylesheetNode = none ∧
    ParseChannelIndex.nodeID (alternateNode channelB) = some channelB ∧
    ParseChannelIndex.nodeID (canonicalNode channelA) = some channelA ∧
    ParseChannelIndex htmlParse
        (stylesheetLink ++ alternateLink channelB ++ canonicalLink channelA) = .ok ⟨channelB⟩ ∧
    IsValidChannelID channelB = true :=
  ⟨by decide, by rfl, by decide, by decide, by decide,
    (C9_first_link_wins htmlParse
      (stylesheetLink ++ alternateLink channelB ++ canonicalLink channelA)
      (documentOf [stylesheetNode, alternateNode channelB, canonicalNode channelA])
      [stylesheetNode] [canonicalNode channelA] (alternateNode channelB) channelB
      (by decide) (by rfl) (by rfl) (by decide) (by decide)).1,
    (C9_first_link_wins htmlParse
      (stylesheetLink ++ alternateLink channelB ++ canonicalLink channelA)
      (documentOf [stylesheetNode, alternateNode channelB, canonicalNode channelA])
      [stylesheetNode] [canonicalNode channelA] (alternateNode channelB) channelB
      (by decide) (by rfl) (by rfl) (by decide) (by decide)).2⟩

/-- U+0130 is lowered to `i` and U+212A to `k`; so the relation `canonical` written with
U+0130 for its `i` is lowered to `canonical` and the link counts as a canonical link, as
with `strings.ToLower` of the library. -/
theorem nodeID_dotted_capital_I :
    ToLower "CANON\u0130CAL".toList = "canonical".toList ∧
    ToLower "\u212Aelvin".toList = "kelvin".toList ∧
    ParseChannelIndex.nodeID
      (Node.mk .ElementNode .Link
        [⟨"rel".toList, "canon\u0130cal".toList⟩,
         ⟨"href".toList, "https://www.youtube.com/channel/".toList ++ channelA⟩] []) =
      some channelA := by
  decide

/-! ## The thumbnail path of a valid video id -/

/-- A rune of a valid id is escaped by itself. -/
theorem PathEscape_rune (r : Char) (h : validIDRune r = true) :
    ((String.utf8EncodeChar r).flatMap fun b =>
      if shouldEscape b then ['%', upperhex (b.toNat / 16), upperhex (b.toNat % 16)]
      else [Char.ofNat b.toNat]) = [r] := by
  have hn := validIDRune_toNat r h
  have hle : r.val ≤ 127 := by
    show r.toNat ≤ 127
    omega
  have henc : String.utf8EncodeChar r = [r.val.toUInt8] := by
    unfold String.utf8EncodeChar
    simp [hle]
  have hb : r.val.toUInt8.toNat = r.toNat := by
    show r.val.toNat % 256 = r.toNat
    show r.toNat % 256 = r.toNat
    omega
  have hr : Char.ofNat r.val.toUInt8.toNat = r := by
    rw [hb]; exact Char.ofNat_toNat r
  have hs : shouldEscape r.val.toUInt8 = false := by
    unfold shouldEscape
    simp only [hr]
    unfold validIDRune at h
    revert h
    simp only [ge_iff_le]
    by_cases h1 : (('a' ≤ r && r ≤ 'z') || ('A' ≤ r && r ≤ 'Z') || ('0' ≤ r && r ≤ '9')) = true
    · simp [h1]
    · have h1' : (('0' ≤ r && r ≤ '9') || ('A' ≤ r && r ≤ 'Z') || ('a' ≤ r && r ≤ 'z')) = false := by
        revert h1
        cases (decide ('a' ≤ r) && decide (r ≤ 'z')) <;>
        cases (decide ('A' ≤ r) && decide (r ≤ 'Z')) <;>
        cases (decide ('0' ≤ r) && decide (r ≤ '9')) <;> simp
      simp only [h1, h1', Bool.not_false, if_true, Bool.false_eq_true, if_false]
      intro h2
      have h3 : (r == '-' || r == '_') = true := by
        revert h2
        cases (r == '-' || r == '_') <;> simp
      have h4 : (r == '-' || r == '_' || r == '.' || r == '~') = true := by
        revert h3
        cases (r == '-') <;> cases (r == '_') <;> simp
      simp [h4]
  rw [henc]
  simp only [List.flatMap_cons, List.flatMap_nil, hs, Bool.false_eq_true, if_false, hr,
    List.append_nil]

/-- Go `url.PathEscape` leaves a string of valid id runes as it is. -/
theorem PathEscape_valid (s : Str) (h : ∀ c ∈ s, validIDRune c = true) : PathEscape s = s := by
  unfold PathEscape
  induction s with
  | nil => rfl
  | cons c s ih =>
    simp only [List.flatMap_cons]
    rw [PathEscape_rune c (h c (List.mem_cons_self _ _)),
      ih (fun d hd => h d (List.mem_cons_of_mem _ hd))]
    rfl


/-- Go `strings.Cut` of a string without the separator. -/
theorem Cut_not_mem (sep : Char) (s : Str) (h : sep ∉ s) : Cut sep s = (s, [], false) := by
  induction s with
  | nil => rfl
  | cons c s ih =>
    have hc : c ≠ sep := fun e => h (by simp [e])
    have hs : sep ∉ s := fun e => h (by simp [e])
    simp [Cut, hc, ih hs]

/-- Percent-decoding leaves a string without `%` as it is. -/
theorem unescape_not_mem (s : Str) (h : '%' ∉ s) : unescape s = some s := by
  induction s with
  | nil => rfl
  | cons c s ih =>
    have hc : c ≠ '%' := fun e => h (by simp [e])
    have hs : '%' ∉ s := fun e => h (by simp [e])
    have hb : (c == '%') = false := by simp [hc]
    unfold unescape
    split
    · rename_i heq; rw [hb] at heq; cases heq
    · rw [ih hs]; rfl

/-- A valid video id: its runes pass the loop and its length is between 6 and 48. -/
theorem IsValidVideoID_iff (s : Str) :
    IsValidVideoID s = true ↔ (6 ≤ s.length ∧ s.length ≤ 48 ∧ ∀ c ∈ s, validIDRune c = true) := by
  have hlen : (∀ c ∈ s, validIDRune c = true) → len s = s.length := by
    intro hall
    unfold len
    induction s with
    | nil => rfl
    | cons c s ih =>
      simp only [List.map_cons, List.sum_cons, List.length_cons]
      rw [validIDRune_utf8Size c (hall c (List.mem_cons_self _ _)),
        ih (fun d hd => hall d (List.mem_cons_of_mem _ hd))]
      omega
  unfold IsValidVideoID
  simp only [Bool.or_eq_true, decide_eq_true_eq]
  constructor
  · intro h
    split at h
    · cases h
    · rename_i hn
      have hall : ∀ c ∈ s, validIDRune c = true := by simpa using h
      have := hlen hall
      refine ⟨by omega, by omega, hall⟩
  · rintro ⟨h1, h2, hall⟩
    have := hlen hall
    rw [if_neg (by omega)]
    simpa using hall

/-- A rune of a valid id is none of the separators of a URL and no control byte. -/
theorem validIDRune_url (c : Char) (h : validIDRune c = true) :
    c ≠ '#' ∧ c ≠ '?' ∧ c ≠ '%' ∧ c ≠ '/' ∧ c ≠ '.' ∧ ¬ (c.toNat < 0x20) ∧ c.toNat ≠ 0x7f := by
  have := validIDRune_toNat c h
  have n1 : '#'.toNat = 35 := rfl
  have n2 : '?'.toNat = 63 := rfl
  have n3 : '%'.toNat = 37 := rfl
  have n4 : '/'.toNat = 47 := rfl
  have n5 : '.'.toNat = 46 := rfl
  simp only [ne_eq, char_eq_toNat, n1, n2, n3, n4, n5]
  omega

/-- Go `url.Parse` on the thumbnail URL synthesized for a valid video id. -/
theorem urlParse_thumbnail (id : Str) (hall : ∀ c ∈ id, validIDRune c = true) :
    urlParse ("https://i.ytimg.com/vi/".toList ++ id ++ "/sddefault.jpg".toList) =
      some ⟨"https".toList, [], "i.ytimg.com".toList,
        "/vi/".toList ++ id ++ "/sddefault.jpg".toList, []⟩ := by
  have hmem : ∀ ch : Char, ch ∉ "https://i.ytimg.com/vi/".toList → (∀ c ∈ id, c ≠ ch) →
      ch ∉ "/sddefault.jpg".toList → ∀ pre : Str, (∀ c ∈ pre, c ∈ "https://i.ytimg.com/vi/".toList) →
      ch ∉ pre ++ id ++ "/sddefault.jpg".toList := by
    intro ch h1 h2 h3 pre hpre h
    rcases List.mem_append.mp h with h | h
    · rcases List.mem_append.mp h with h | h
      · exact h1 (hpre ch h)
      · exact h2 ch h rfl
    · exact h3 h
  have hsharp := hmem '#' (by decide) (fun c hc => (validIDRune_url c (hall c hc)).1) (by decide)
    "https://i.ytimg.com/vi/".toList (fun c hc => hc)
  have hq := hmem '?' (by decide) (fun c hc => (validIDRune_url c (hall c hc)).2.1) (by decide)
    "//i.ytimg.com/vi/".toList (by decide)
  have hpct := hmem '%' (by decide) (fun c hc => (validIDRune_url c (hall c hc)).2.2.1) (by decide)
    "/vi/".toList (by decide)
  have hctl : stringContainsCTLByte
      ("https://i.ytimg.com/vi/".toList ++ id ++ "/sddefault.jpg".toList) = false := by
    unfold stringContainsCTLByte
    rw [List.any_append, List.any_append]
    have h1 : ("https://i.ytimg.com/vi/".toList).any (fun c => c.toNat < 0x20 || c.toNat == 0x7f)
        = false := by decide
    have h3 : ("/sddefault.jpg".toList).any (fun c => c.toNat < 0x20 || c.toNat == 0x7f)
        = false := by decide
    have h2 : id.any (fun c => c.toNat < 0x20 || c.toNat == 0x7f) = false := by
      rw [List.any_eq_false]
      intro c hc
      have := validIDRune_url c (hall c hc)
      simp only [Bool.or_eq_true, decide_eq_true_eq, beq_iff_eq, not_or]
      exact ⟨this.2.2.2.2.2.1, this.2.2.2.2.2.2⟩
    rw [h1, h2, h3]; rfl
  have hscheme : getScheme ("https://i.ytimg.com/vi/".toList ++ id ++ "/sddefault.jpg".toList) =
      some ("https".toList, "//i.ytimg.com/vi/".toList ++ id ++ "/sddefault.jpg".toList) := by
    simp [getScheme, getScheme.go]
  have hlast : ("//i.ytimg.com/vi/".toList ++ id ++ "/sddefault.jpg".toList).getLast? = some 'g' := by
    have e : "//i.ytimg.com/vi/".toList ++ id ++ "/sddefault.jpg".toList =
        ("//i.ytimg.com/vi/".toList ++ id ++ "/sddefault.jp".toList) ++ ['g'] := by
      simp
    rw [e, List.getLast?_append]
    rfl
  have hcut := Cut_not_mem '?' _ hq
  have hidx : Index (("//i.ytimg.com/vi/".toList ++ id ++ "/sddefault.jpg".toList).drop 2)
      ['/'] = some 11 := by
    simp [Index, Index.go, HasPrefix]
  have hne : ¬ ("https://i.ytimg.com/vi/".toList ++ id ++ "/sddefault.jpg".toList = ['*']) := by
    simp
  unfold urlParse
  rw [Cut_not_mem '#' _ hsharp]
  simp only
  unfold urlParse.parse
  rw [hctl, hscheme]
  simp only [Bool.false_eq_true, if_false, hne, hlast, hcut, hidx]
  have hl : ToLower "https".toList = "https".toList := by decide
  rw [hl]
  have hp1 : HasPrefix ("//i.ytimg.com/vi/".toList ++ id ++ "/sddefault.jpg".toList) ['/'] = true := by
    simp [HasPrefix]
  have hp2 : HasPrefix ("//i.ytimg.com/vi/".toList ++ id ++ "/sddefault.jpg".toList) ['/', '/']
      = true := by
    simp [HasPrefix]
  have hsn : ("https".toList ≠ ([] : Str)) := by decide
  have hdrop : (("//i.ytimg.com/vi/".toList ++ id ++ "/sddefault.jpg".toList).drop 2).drop 11 =
      "/vi/".toList ++ id ++ "/sddefault.jpg".toList := by
    simp
  have htake : (("//i.ytimg.com/vi/".toList ++ id ++ "/sddefault.jpg".toList).drop 2).take 11 =
      "i.ytimg.com".toList := by
    simp
  have hg : decide (some 'g' = some '?') = false := by decide
  have hsd : decide ("https".toList ≠ ([] : Str)) = true := by decide
  have hauth : parseAuthority "i.ytimg.com".toList = some "i.ytimg.com".toList := by decide
  simp only [hg, Bool.false_and, Bool.false_eq_true, if_false, hp1, hp2, hsd, Bool.not_true,
    Bool.true_or, Bool.and_self, Bool.and_true, if_true, hidx, hdrop, htake, hauth,
    unescape_not_mem _ hpct]


/-- A prefix test does not see past a separator that the prefix does not have. -/
theorem HasPrefix_sep (sep : Char) (r : Str) :
    ∀ (sub u : Str), sep ∉ sub → sub ≠ [] → HasPrefix (u ++ sep :: r) sub = HasPrefix u sub := by
  intro sub
  induction sub with
  | nil => intro u _ h; exact absurd rfl h
  | cons d sub ih =>
    intro u hsep _
    have hd : sep ≠ d := fun e => hsep (by simp [e])
    have hsub : sep ∉ sub := fun e => hsep (by simp [e])
    cases u with
    | nil => simp [HasPrefix, hd]
    | cons c u =>
      have e1 : (c :: u) ++ sep :: r = c :: (u ++ sep :: r) := rfl
      rw [e1]
      unfold HasPrefix
      cases sub with
      | nil => cases u <;> simp [HasPrefix]
      | cons d2 sub2 => rw [ih u hsub (by simp)]

/-- Whether a search succeeds does not depend on the position it counts from. -/
theorem Index_go_isSome_shift (sub : Str) (l : Str) :
    ∀ i j, (Index.go sub l i).isSome = (Index.go sub l j).isSome := by
  induction l with
  | nil => intro i j; simp [Index.go]; split <;> rfl
  | cons c l ih =>
    intro i j
    unfold Index.go
    split
    · rfl
    · exact ih _ _

/-- A substring without the separator occurs in `u`, separator, `r` when it occurs in `u`
or in separator, `r`. -/
theorem Index_go_sep (sep : Char) (r sub : Str) (hsep : sep ∉ sub) (hne : sub ≠ []) :
    ∀ (u : Str) (i : Nat), (Index.go sub (u ++ sep :: r) i).isSome =
      ((Index.go sub u i).isSome || (Index.go sub (sep :: r) 0).isSome) := by
  intro u
  induction u with
  | nil =>
    intro i
    have : Index.go sub [] i = none := by
      cases sub with
      | nil => exact absurd rfl hne
      | cons d t => simp [Index.go]
    rw [this]
    simp only [List.nil_append, Option.isSome_none, Bool.false_or]
    exact Index_go_isSome_shift sub _ _ _
  | cons c u ih =>
    intro i
    have e1 : (c :: u) ++ sep :: r = c :: (u ++ sep :: r) := rfl
    have hp := HasPrefix_sep sep r sub (c :: u) hsep hne
    rw [e1] at hp ⊢
    unfold Index.go
    rw [hp]
    split
    · rfl
    · exact ih (i + 1)

/-- The marker occurs in the path before the extension exactly when it occurs in the id. -/
theorem Contains_thumbnail_path (id : Str) :
    Contains ("/vi/".toList ++ id ++ "/sddefault".toList) liveVideoThumbnailFilenameSuffix =
      Contains id liveVideoThumbnailFilenameSuffix := by
  have h := Index_go_sep '/' "sddefault".toList liveVideoThumbnailFilenameSuffix (by decide)
    (by decide) id 4
  have htail : (Index.go liveVideoThumbnailFilenameSuffix ('/' :: "sddefault".toList) 0).isSome
      = false := by decide
  rw [htail, Bool.or_false] at h
  unfold Contains Index
  rw [Index_go_isSome_shift _ id 0 4, ← h]
  have e : "/vi/".toList ++ id ++ "/sddefault".toList =
      '/' :: 'v' :: 'i' :: '/' :: (id ++ '/' :: "sddefault".toList) := by
    simp
  rw [e]
  simp [Index.go, HasPrefix, liveVideoThumbnailFilenameSuffix]

/-- The path that `CheckLiveVideoThumbnail` requests for a valid video id and an empty
hint: the marker `_live` is inserted before the extension of `/vi/<id>/sddefault.jpg`
exactly when the id does not contain `_live`. -/
theorem requestPath_valid (id : Str) (hid : IsValidVideoID id = true) :
    CheckLiveVideoThumbnail.requestPath id [] =
      .ok (if Contains id liveVideoThumbnailFilenameSuffix
        then "/vi/".toList ++ id ++ "/sddefault.jpg".toList
        else "/vi/".toList ++ id ++ "/sddefault_live.jpg".toList) := by
  obtain ⟨_, _, hall⟩ := (IsValidVideoID_iff id).mp hid
  have hbase : CheckLiveVideoThumbnail.baseURL id [] =
      some ⟨"https".toList, [], "i.ytimg.com".toList,
        "/vi/".toList ++ id ++ "/sddefault.jpg".toList, []⟩ := by
    unfold CheckLiveVideoThumbnail.baseURL
    simp only [ne_eq, not_true_eq_false, if_false]
    rw [PathEscape_valid id hall, urlParse_thumbnail id hall]
  have hsplit : "/vi/".toList ++ id ++ "/sddefault.jpg".toList =
      ("/vi/".toList ++ id ++ "/sddefault".toList) ++ '.' :: "jpg".toList := by
    simp
  have hlast := LastIndex_dot_append ("/vi/".toList ++ id ++ "/sddefault".toList) "jpg".toList
    (by decide)
  have hrw : CheckLiveVideoThumbnail.rewrite ("/vi/".toList ++ id ++ "/sddefault.jpg".toList) =
      some (if Contains id liveVideoThumbnailFilenameSuffix
        then "/vi/".toList ++ id ++ "/sddefault.jpg".toList
        else "/vi/".toList ++ id ++ "/sddefault_live.jpg".toList) := by
    unfold CheckLiveVideoThumbnail.rewrite
    rw [hsplit, hlast]
    simp only [List.take_left', List.drop_left', Contains_thumbnail_path]
    cases hc : Contains id liveVideoThumbnailFilenameSuffix
    · simp [liveVideoThumbnailFilenameSuffix]
    · simp
  unfold CheckLiveVideoThumbnail.requestPath
  rw [hbase]
  simp only [hrw]

/-! ## The videos of a feed -/

/-- The loop of `Videos` gives the videos of the entries that are the first with their
non-empty id, when `ids` holds the non-empty ids of the entries before. -/
theorem Videos_go_firstWithID (rfc3339 : Str → Option Int) (entries : List ChannelFeedEntry) :
    ∀ (ids : List Str) (earlier : List ChannelFeedEntry),
      (∀ id, id ∈ ids ↔ (id ≠ [] ∧ ∃ x ∈ earlier, x.VideoID = id)) →
      ChannelFeed.Videos.go rfc3339 ids entries =
        (firstWithID earlier entries).map (ChannelFeed.Videos.video rfc3339) := by
  induction entries with
  | nil => intro ids earlier _; rfl
  | cons entry rest ih =>
    intro ids earlier hinv
    unfold ChannelFeed.Videos.go firstWithID
    by_cases h0 : entry.VideoID.length = 0
    · have h0' : entry.VideoID = [] := List.length_eq_zero.mp h0
      have hinv2 : ∀ id, id ∈ ids ↔ (id ≠ [] ∧ ∃ x ∈ earlier ++ [entry], x.VideoID = id) := by
        intro id
        rw [hinv id]
        constructor
        · rintro ⟨h1, x, hx, hxe⟩
          exact ⟨h1, x, List.mem_append.mpr (Or.inl hx), hxe⟩
        · rintro ⟨h1, x, hx, hxe⟩
          rcases List.mem_append.mp hx with hx | hx
          · exact ⟨h1, x, hx, hxe⟩
          · simp only [List.mem_singleton] at hx
            subst hx
            exact absurd (hxe ▸ h0') h1
      rw [if_pos h0, if_neg (by simp [h0']), ih ids _ hinv2]
    · have h0' : entry.VideoID ≠ [] := fun e => h0 (by simp [e])
      rw [if_neg h0]
      by_cases hc : ids.contains entry.VideoID = true
      · have hmem : entry.VideoID ∈ ids := by simpa using hc
        obtain ⟨_, x, hx, hxe⟩ := (hinv _).mp hmem
        have hinv2 : ∀ id, id ∈ ids ↔ (id ≠ [] ∧ ∃ x ∈ earlier ++ [entry], x.VideoID = id) := by
          intro id
          rw [hinv id]
          constructor
          · rintro ⟨h1, y, hy, hye⟩
            exact ⟨h1, y, List.mem_append.mpr (Or.inl hy), hye⟩
          · rintro ⟨h1, y, hy, hye⟩
            rcases List.mem_append.mp hy with hy | hy
            · exact ⟨h1, y, hy, hye⟩
            · simp only [List.mem_singleton] at hy
              subst hy
              exact ⟨h1, x, hx, hxe.trans hye⟩
        have hnot : ¬ (entry.VideoID ≠ [] ∧ ∀ y ∈ earlier, y.VideoID ≠ entry.VideoID) :=
          fun h => h.2 x hx hxe
        rw [if_pos hc, if_neg hnot, ih ids _ hinv2]
      · have hmem : entry.VideoID ∉ ids := by simpa using hc
        have hfirst : entry.VideoID ≠ [] ∧ ∀ y ∈ earlier, y.VideoID ≠ entry.VideoID := by
          refine ⟨h0', fun y hy hye => hmem ((hinv _).mpr ⟨h0', y, hy, hye⟩)⟩
        have hinv2 : ∀ id, id ∈ ids ++ [entry.VideoID] ↔
            (id ≠ [] ∧ ∃ x ∈ earlier ++ [entry], x.VideoID = id) := by
          intro id
          rw [List.mem_append, hinv id]
          constructor
          · rintro (⟨h1, y, hy, hye⟩ | h)
            · exact ⟨h1, y, List.mem_append.mpr (Or.inl hy), hye⟩
            · simp only [List.mem_singleton] at h
              subst h
              exact ⟨h0', entry, by simp, rfl⟩
          · rintro ⟨h1, y, hy, hye⟩
            rcases List.mem_append.mp hy with hy | hy
            · exact Or.inl ⟨h1, y, hy, hye⟩
            · simp only [List.mem_singleton] at hy
              subst hy
              exact Or.inr (by simp [hye])
        rw [if_neg hc, if_pos hfirst, ih _ _ hinv2]
        rfl

/-- The first alternate link of a list with a head. -/
theorem firstAlternate_cons (link : Link) (rest : List Link) :
    firstAlternate (link :: rest) =
      if link.Href ≠ [] ∧ ToLower link.Rel = "alternate".toList ∧ isValidURL link.Href = false
      then some link else firstAlternate rest := by
  unfold firstAlternate
  rw [List.find?_cons]
  split
  · rename_i h
    simp only [Bool.and_eq_true, decide_eq_true_eq, Bool.not_eq_true'] at h
    rw [if_pos ⟨h.1.1, h.1.2, h.2⟩]
  · rename_i h
    rw [if_neg]
    rintro ⟨h1, h2, h3⟩
    simp [h1, h2, h3] at h

/-- The first media group with a valid thumbnail URL of a list with a head. -/
theorem firstWithThumbnail_cons (mg : MediaGroup) (rest : List MediaGroup) :
    firstWithThumbnail (mg :: rest) =
      if (∃ url, mg.Thumbnail = some url ∧ url ≠ [] ∧ isValidURL url = true)
      then some mg else firstWithThumbnail rest := by
  unfold firstWithThumbnail
  rw [List.find?_cons]
  cases hth : mg.Thumbnail with
  | none => simp
  | some url =>
    by_cases hv : url ≠ [] ∧ isValidURL url = true
    · simp [hv.1, hv.2]
    · have hq : (decide (url ≠ []) && isValidURL url) = false := by
        rw [Bool.eq_false_iff]
        intro hc
        simp only [Bool.and_eq_true, decide_eq_true_eq] at hc
        exact hv hc
      simp only [hq]
      rw [if_neg]
      rintro ⟨u, hu, h1, h2⟩
      cases hu
      exact hv ⟨h1, h2⟩

/-- The loop over the links gives the address of the first alternate link whose address is
not a valid URL, and the URL it started from when there is none. -/
theorem Videos_url_eq (url : Str) (links : List Link) :
    ChannelFeed.Videos.url url links =
      match firstAlternate links with
      | some link => link.Href
      | none => url := by
  induction links with
  | nil => rfl
  | cons link rest ih =>
    rw [firstAlternate_cons]
    unfold ChannelFeed.Videos.url
    by_cases h1 : link.Href = []
    · rw [if_pos (by simp [h1]), if_neg (fun h => h.1 h1)]
      exact ih
    · by_cases h2 : ToLower link.Rel = "alternate".toList
      · rw [if_neg (by simp [h1, h2])]
        by_cases h3 : isValidURL link.Href = true
        · rw [if_pos h3, if_neg (fun h => by simp [h3] at h)]
          exact ih
        · rw [if_neg h3, if_pos ⟨h1, h2, by simpa using h3⟩]
      · rw [if_pos (by simp; exact Or.inr h2), if_neg (fun h => h2 h.2.1)]
        exact ih

/-- The loop over the media groups gives description and thumbnail URL of the first group
with a valid thumbnail URL; without such a group, the description of the last group (the
one it started from when there is no group) and the thumbnail URL it started from. -/
theorem Videos_media_eq (groups : List MediaGroup) : ∀ (description thumbnailURL : Str),
    ChannelFeed.Videos.media description thumbnailURL groups =
      match firstWithThumbnail groups with
      | some mg => (mg.Description, mg.Thumbnail.getD [])
      | none => ((groups.getLast?.map MediaGroup.Description).getD description, thumbnailURL) := by
  induction groups with
  | nil => intro d t; rfl
  | cons mg rest ih =>
    intro d t
    have hlast : ((mg :: rest).getLast?.map MediaGroup.Description).getD d =
        (rest.getLast?.map MediaGroup.Description).getD mg.Description := by
      cases rest with
      | nil => rfl
      | cons m2 r2 =>
        obtain ⟨x, hx⟩ : ∃ x, (m2 :: r2).getLast? = some x :=
          ⟨_, List.getLast?_eq_getLast _ (by simp)⟩
        rw [List.getLast?_cons_cons, hx]
        rfl
    have hskip : (¬ ∃ url, mg.Thumbnail = some url ∧ url ≠ [] ∧ isValidURL url = true) →
        ChannelFeed.Videos.media mg.Description t rest =
          match firstWithThumbnail (mg :: rest) with
          | some mg => (mg.Description, mg.Thumbnail.getD [])
          | none => (((mg :: rest).getLast?.map MediaGroup.Description).getD d, t) := by
      intro hno
      rw [firstWithThumbnail_cons, if_neg hno, ih, hlast]
    unfold ChannelFeed.Videos.media
    cases hth : mg.Thumbnail with
    | none =>
      simp only
      exact hskip (by simp [hth])
    | some url =>
      simp only
      by_cases hv : url ≠ [] ∧ isValidURL url = true
      · rw [if_pos (by simp [hv.2, List.length_pos, hv.1]), firstWithThumbnail_cons,
          if_pos ⟨url, hth, hv.1, hv.2⟩]
        simp [hth]
      · rw [if_neg]
        · exact hskip (by
            rintro ⟨u, hu, h1, h2⟩
            rw [hth] at hu
            cases hu
            exact hv ⟨h1, h2⟩)
        · intro hc
          simp only [Bool.and_eq_true, decide_eq_true_eq, gt_iff_lt, List.length_pos] at hc
          exact hv ⟨hc.1, hc.2⟩

/-- The video that the code builds from an entry is the video of the specification. -/
theorem Videos_video_eq (rfc3339 : Str → Option Int) (entry : ChannelFeedEntry) :
    ChannelFeed.Videos.video rfc3339 entry = videoOf rfc3339 entry := by
  unfold ChannelFeed.Videos.video videoOf
  simp only [Videos_url_eq, Videos_media_eq, parseDate]
  cases firstWithThumbnail entry.MediaGroups <;>
    cases rfc3339 entry.Published <;> cases rfc3339 entry.Updated <;> simp

/-- C11: `ChannelFeed.Videos` returns one video per entry that has a non-empty video id
carried by no earlier entry, in the order of the entries, and the ids of the videos are
pairwise distinct. Each video is built from that entry alone: its video id, channel id and
title, its timestamps (0 when one does not parse), its links (the URL is the address of the
first `alternate` link with a non-empty address that is not a valid URL, else the watch
URL of the id) and its media groups (description and thumbnail URL of the first group with
a valid thumbnail URL). Entries with an empty id or an id seen before give nothing. -/
theorem C11_videos_first_occurrence (rfc3339 : Str → Option Int) (feed : ChannelFeed) :
    ChannelFeed.Videos rfc3339 (some feed) =
      (firstWithID [] feed.Entries).map (videoOf rfc3339) ∧
    ((ChannelFeed.Videos rfc3339 (some feed)).map ChannelFeedVideo.ID).Nodup := by
  refine ⟨?_, (Videos_go_nodup rfc3339 feed.Entries []).2⟩
  have h := Videos_go_firstWithID rfc3339 feed.Entries [] [] (by simp)
  have hv : ChannelFeed.Videos.video rfc3339 = videoOf rfc3339 :=
    funext (Videos_video_eq rfc3339)
  rw [← hv]
  exact h

/-- The example of the specification for the dedup. -/
theorem dedup_example :
    (ChannelFeed.Videos demoRfc3339
      (some ⟨[demoEntry "video-edge0" "2023-11-02T00:00:00Z", demoEntry "" "2023-12-31T23:00:00Z",
        demoEntry "video-hour1" "2023-12-31T23:00:00Z",
        { demoEntry "video-edge0" "2023-12-31T23:00:00Z" with Title := "other".toList }]⟩)).map
      (fun v => (v.ID, v.Title, v.Updated)) =
      [("video-edge0".toList, "title".toList, 1698883200000),
       ("video-hour1".toList, "title".toList, 1704063600000)] := by
  decide

/-- The model of `url.Parse` behind `isValidURL`, on examples: an absolute URL is valid; a
port that is not a number, a space in the host, an IP literal without `]` and a malformed
escape make `url.Parse` fail; user information, a numeric port and a zone are accepted; a
URL without a scheme is not valid, a scheme with an opaque part is. -/
theorem isValidURL_examples :
    isValidURL "https://www.youtube.com/watch?v=abc".toList = true ∧
    isValidURL "http://a:b/".toList = false ∧
    isValidURL "http://exa mple.com/".toList = false ∧
    isValidURL "http://user@example.com:8080/x".toList = true ∧
    isValidURL "http://[fe80::1%25en0]:80/".toList = true ∧
    isValidURL "http://[fe80::1/".toList = false ∧
    isValidURL "http://example.com/%zz".toList = false ∧
    isValidURL "/relative/path".toList = false ∧
    isValidURL "mailto:someone".toList = true := by
  decide

/-- The links and media groups of an entry, on an example: the valid URL of the first
alternate link is passed over and the address of the second, which is not a valid URL, is
taken; description and thumbnail URL come from the first group with a valid thumbnail
URL. -/
theorem video_links_media_example :
    (ChannelFeed.Videos demoRfc3339
      (some ⟨[{ demoEntry "video-hour1" "2023-12-31T23:00:00Z" with
        Links := [⟨"self".toList, "not a url".toList⟩,
                  ⟨"Alternate".toList, "https://www.youtube.com/watch?v=video-hour1".toList⟩,
                  ⟨"alternate".toList, "http://a:b/".toList⟩],
        MediaGroups := [⟨"first".toList, none⟩,
                        ⟨"second".toList, some "http://a:b/thumb.jpg".toList⟩,
                        ⟨"third".toList, some "https://i.ytimg.com/vi/x/hq.jpg".toList⟩,
                        ⟨"fourth".toList, some "https://i.ytimg.com/vi/x/sd.jpg".toList⟩] }]⟩)).map
      (fun v => (v.URL, v.Description, v.ThumbnailURL)) =
      [("http://a:b/".toList, "third".toList, "https://i.ytimg.com/vi/x/hq.jpg".toList)] := by
  decide

/-! ## The authoritative probe -/

/-- The loop over the items computes the verdict of the specification. -/
theorem scan_eq_liveVerdict (videoID : Str) (items : List VideoItem) :
    CheckLiveVideoState.scan videoID items = liveVerdict videoID items := by
  induction items with
  | nil => rfl
  | cons item rest ih =>
    unfold CheckLiveVideoState.scan liveVerdict
    cases hd : item.LiveStreamingDetails with
    | none =>
      simp only [List.find?, hd, Option.isSome_none, Bool.and_false]
      rw [ih]; rfl
    | some d =>
      by_cases hid : item.Id = videoID
      · simp only [List.find?, hd, hid, Option.isSome_some, Bool.and_true, decide_True, ne_eq,
          not_true_eq_false, if_false]
        by_cases he : d.ActualEndTime = []
        · by_cases hs : d.ActualStartTime = [] <;> simp [he, hs]
        · simp [he]
      · simp only [List.find?, hd, hid, decide_False, Bool.false_and, ne_eq, not_false_eq_true,
          if_true]
        rw [ih]; rfl

/-- The verdict of the loop over the items is never live and finished at once. -/
theorem scan_not_both (videoID : Str) (items : List VideoItem) :
    ¬ ((CheckLiveVideoState.scan videoID items).1 = true ∧
       (CheckLiveVideoState.scan videoID items).2 = true) := by
  induction items with
  | nil => simp [CheckLiveVideoState.scan]
  | cons item rest ih =>
    unfold CheckLiveVideoState.scan
    cases item.LiveStreamingDetails with
    | none => exact ih
    | some d =>
      simp only
      split
      · exact ih
      · split
        · simp
        · split <;> simp

/-- A successful call of `CheckLiveVideoState` returns the verdict of the loop over the
items of a response. -/
theorem CheckLiveVideoState_ok (cr : Crawler) (obs : StateObs) (videoID : Str)
    (live finished : Bool) (h : CheckLiveVideoState cr obs videoID = .ok (live, finished)) :
    ∃ items, obs.response = .ok items ∧
      CheckLiveVideoState.scan videoID items = (live, finished) := by
  unfold CheckLiveVideoState at h
  split at h
  · cases h
  · split at h
    · cases h
    · cases hc : obs.ctxErr with
      | some e => rw [hc] at h; cases h
      | none =>
        rw [hc] at h
        cases hr : obs.response with
        | error e => rw [hr] at h; cases h
        | ok items =>
          rw [hr] at h
          simp only [Except.ok.injEq] at h
          exact ⟨items, rfl, h⟩

/-- C12: when `CheckLiveVideoState` gets a response (valid video id, service and context
alive, the API call returns items), it returns the verdict of the first item whose id is
`videoID` and that has live-streaming details: finished when `ActualEndTime` is non-empty,
live when `ActualEndTime` is empty and `ActualStartTime` is not; both false without such
an item. The verdict is never live and finished at once. -/
theorem C12_live_verdict (cr : Crawler) (obs : StateObs) (videoID : Str)
    (items : List VideoItem) (hid : IsValidVideoID videoID = true)
    (hsvc : cr.serviceNil = false) (hctx : obs.ctxErr = none)
    (hresp : obs.response = .ok items) :
    CheckLiveVideoState cr obs videoID = .ok (liveVerdict videoID items) ∧
    ¬ ((liveVerdict videoID items).1 = true ∧ (liveVerdict videoID items).2 = true) := by
  have hne : videoID ≠ [] := by
    intro h0; rw [h0] at hid; revert hid; decide
  refine ⟨?_, ?_⟩
  · unfold CheckLiveVideoState
    simp [hne, hid, hsvc, hctx, hresp, scan_eq_liveVerdict]
  · rw [← scan_eq_liveVerdict]; exact scan_not_both videoID items

/-- C12, at the response `stateLive` (started, not ended: live), with the verdicts of two
more responses: an item that has ended (finished) and an item with neither time. -/
theorem C12_live_verdict_witness :
    IsValidVideoID "abc123def45".toList = true ∧
    CheckLiveVideoState demoCrawler (stateLive "abc123def45".toList) "abc123def45".toList =
      .ok (liveVerdict "abc123def45".toList
        [⟨"abc123def45".toList, some ⟨"2024-01-01T00:00:00Z".toList, []⟩⟩]) ∧
    liveVerdict "abc123def45".toList
        [⟨"abc123def45".toList, some ⟨"2024-01-01T00:00:00Z".toList, []⟩⟩] = (true, false) ∧
    liveVerdict "abc123def45".toList
        [⟨"other-video".toList, some ⟨"2024-01-01T00:00:00Z".toList, []⟩⟩,
         ⟨"abc123def45".toList, none⟩,
         ⟨"abc123def45".toList,
           some ⟨"2024-01-01T00:00:00Z".toList, "2024-01-01T01:00:00Z".toList⟩⟩]
      = (false, true) ∧
    liveVerdict "abc123def45".toList [⟨"abc123def45".toList, some ⟨[], []⟩⟩] = (false, false) :=
  ⟨by decide,
    (C12_live_verdict demoCrawler (stateLive "abc123def45".toList) "abc123def45".toList
      [⟨"abc123def45".toList, some ⟨"2024-01-01T00:00:00Z".toList, []⟩⟩]
      (by decide) rfl rfl rfl).1,
    by decide, by decide, by decide⟩

/-! ## The status of the thumbnail response and a failed thumbnail probe -/

/-- What `processVideoCandidate` does when the context is alive, the not-livestream cache
is stale and the thumbnail probe fails: the cached verdict is cleared, nothing else of the
candidate changes, the probe's error is returned wrapped and only the thumbnail probe was
called. -/
theorem processVideoCandidate_thumbnail_failure (cr : Crawler) (obs : CheckObs)
    (vc : VideoCandidate) (e : Error) (hctx : obs.ctxErr = none)
    (hstale : Sub obs.nowCache vc.LastNotLivestream ≥
      entityHandler.maximumCachedNotLivestreamAge cr.settings)
    (hfail : CheckLiveVideoThumbnail cr obs.thumb vc.ID [] = .error e) :
    entityHandler.processVideoCandidate cr obs vc =
      ⟨{ vc with NotLivestream := false }, some (.wrapped "CheckLiveVideoThumbnail" e),
        [Call.thumbnail]⟩ := by
  unfold entityHandler.processVideoCandidate
  simp only [hctx, hstale, if_true, hfail]

/-- The status switch of `CheckLiveVideoThumbnail`, once a response has been received. -/
theorem CheckLiveVideoThumbnail_status (cr : Crawler) (obs : ThumbObs)
    (videoID thumbnailURL path : Str) (status : Nat) (hid : IsValidVideoID videoID = true)
    (hclient : cr.clientNil = false) (hctx : obs.ctxErr = none)
    (hpath : CheckLiveVideoThumbnail.requestPath videoID thumbnailURL = .ok path)
    (hresp : obs.request path = .ok status) :
    CheckLiveVideoThumbnail cr obs videoID thumbnailURL =
      if status = 404 then .ok false
      else if status = 200 ∨ status = 302 ∨ status = 304 then .ok true
      else .error .UncertainLiveVideoThumbnail := by
  have hne : videoID ≠ [] := by
    intro h0; rw [h0] at hid; revert hid; decide
  unfold CheckLiveVideoThumbnail
  simp only [hne, hid, hclient, hctx, hpath, hresp, decide_False, Bool.not_true, Bool.or_self,
    Bool.false_eq_true, if_false, Bool.or_eq_true, decide_eq_true_eq]
  by_cases h404 : status = 404
  · simp [h404]
  · by_cases h200 : status = 200
    · simp [h200]
    · by_cases h302 : status = 302
      · simp [h302]
      · by_cases h304 : status = 304
        · simp [h304]
        · simp [h404, h200, h302, h304]

/-- C13: when `CheckLiveVideoThumbnail` receives a response (valid video id, a client, the
context alive, the request path built), status 404 yields `exists = false` without error,
status 200, 302 or 304 yields `exists = true` without error, and every other status yields
the error `UncertainLiveVideoThumbnail`; in that last case `processVideoCandidate`, which
probes with an empty thumbnail URL when the not-livestream cache is stale, leaves
`LastNotLivestream` as it was and returns the error wrapped with the name of the probe. -/
theorem C13_status_codes (cr : Crawler) (obs : ThumbObs) (videoID thumbnailURL path : Str)
    (status : Nat) (hid : IsValidVideoID videoID = true) (hclient : cr.clientNil = false)
    (hctx : obs.ctxErr = none)
    (hpath : CheckLiveVideoThumbnail.requestPath videoID thumbnailURL = .ok path)
    (hresp : obs.request path = .ok status) :
    (status = 404 → CheckLiveVideoThumbnail cr obs videoID thumbnailURL = .ok false) ∧
    (status = 200 ∨ status = 302 ∨ status = 304 →
      CheckLiveVideoThumbnail cr obs videoID thumbnailURL = .ok true) ∧
    (status ≠ 404 ∧ status ≠ 200 ∧ status ≠ 302 ∧ status ≠ 304 →
      CheckLiveVideoThumbnail cr obs videoID thumbnailURL = .error .UncertainLiveVideoThumbnail ∧
      ∀ (check : CheckObs) (vc : VideoCandidate), thumbnailURL = [] → check.thumb = obs →
        vc.ID = videoID → check.ctxErr = none →
        Sub check.nowCache vc.LastNotLivestream ≥
          entityHandler.maximumCachedNotLivestreamAge cr.settings →
        (entityHandler.processVideoCandidate cr check vc).vc.LastNotLivestream =
          vc.LastNotLivestream ∧
        (entityHandler.processVideoCandidate cr check vc).err =
          some (.wrapped "CheckLiveVideoThumbnail" .UncertainLiveVideoThumbnail)) := by
  have hs := CheckLiveVideoThumbnail_status cr obs videoID thumbnailURL path status hid hclient
    hctx hpath hresp
  refine ⟨?_, ?_, ?_⟩
  · intro h; rw [hs, if_pos h]
  · intro h
    have h404 : status ≠ 404 := by omega
    rw [hs, if_neg h404, if_pos h]
  · rintro ⟨h1, h2, h3, h4⟩
    have hu : CheckLiveVideoThumbnail cr obs videoID thumbnailURL =
        .error .UncertainLiveVideoThumbnail := by
      rw [hs, if_neg h1, if_neg (by omega)]
    refine ⟨hu, ?_⟩
    intro check vc hurl hobs hvid hc hstale
    subst hurl
    have hfail : CheckLiveVideoThumbnail cr check.thumb vc.ID [] =
        .error .UncertainLiveVideoThumbnail := by
      rw [hobs, hvid]; exact hu
    rw [processVideoCandidate_thumbnail_failure cr check vc _ hc hstale hfail]
    exact ⟨rfl, rfl⟩

/-- C13, at the candidate `neverProbed` and a response with status 500: the probe returns
`UncertainLiveVideoThumbnail` and `processVideoCandidate` leaves `LastNotLivestream`
unchanged. -/
theorem C13_status_codes_witness :
    IsValidVideoID neverProbed.ID = true ∧
    CheckLiveVideoThumbnail.requestPath neverProbed.ID [] =
      .ok "/vi/abc123def45/sddefault_live.jpg".toList ∧
    thumbFails.request "/vi/abc123def45/sddefault_live.jpg".toList = .ok 500 ∧
    CheckLiveVideoThumbnail demoCrawler thumbFails neverProbed.ID [] =
      .error .UncertainLiveVideoThumbnail ∧
    (entityHandler.processVideoCandidate demoCrawler (checkLive thumbFails neverProbed.ID)
      neverProbed).vc.LastNotLivestream = neverProbed.LastNotLivestream ∧
    (entityHandler.processVideoCandidate demoCrawler (checkLive thumbFails neverProbed.ID)
      neverProbed).err =
        some (.wrapped "CheckLiveVideoThumbnail" .UncertainLiveVideoThumbnail) :=
  ⟨by decide, by decide, by decide,
    ((C13_status_codes demoCrawler thumbFails neverProbed.ID []
      "/vi/abc123def45/sddefault_live.jpg".toList 500 (by decide) rfl rfl (by decide)
      (by decide)).2.2 (by decide)).1,
    (((C13_status_codes demoCrawler thumbFails neverProbed.ID []
      "/vi/abc123def45/sddefault_live.jpg".toList 500 (by decide) rfl rfl (by decide)
      (by decide)).2.2 (by decide)).2 (checkLive thumbFails neverProbed.ID) neverProbed
        rfl rfl rfl rfl (by decide)).1,
    (((C13_status_codes demoCrawler thumbFails neverProbed.ID []
      "/vi/abc123def45/sddefault_live.jpg".toList 500 (by decide) rfl rfl (by decide)
      (by decide)).2.2 (by decide)).2 (checkLive thumbFails neverProbed.ID) neverProbed
        rfl rfl rfl rfl (by decide)).2⟩

/-- C17 (as stated, refuted): a candidate whose cached verdict is `NotLivestream = true`
and whose not-livestream cache is stale is processed with a thumbnail probe that fails
(status 500); afterwards `NotLivestream` is false, not what it was before the call. -/
theorem C17_stale_verdict_is_cleared :
    ({ neverProbed with NotLivestream := true } : VideoCandidate).NotLivestream = true ∧
    (Sub (checkLive thumbFails neverProbed.ID).nowCache
        ({ neverProbed with NotLivestream := true } : VideoCandidate).LastNotLivestream ≥
      entityHandler.maximumCachedNotLivestreamAge demoCrawler.settings) ∧
    CheckLiveVideoThumbnail demoCrawler (checkLive thumbFails neverProbed.ID).thumb
      neverProbed.ID [] = .error .UncertainLiveVideoThumbnail ∧
    (entityHandler.processVideoCandidate demoCrawler (checkLive thumbFails neverProbed.ID)
      { neverProbed with NotLivestream := true }).vc.NotLivestream = false := by
  decide

/-- C17 (amended): when the context is alive, the not-livestream cache is stale and the
thumbnail probe fails, `processVideoCandidate` returns the probe's error wrapped with
"CheckLiveVideoThumbnail", makes no authoritative probe call, leaves `LastNotLivestream`,
`LivestreamFinished` and `LastLivestreamFinished` unchanged, and leaves `NotLivestream`
false (line 121 clears the expired verdict before the probe); no other field changes. -/
theorem C17_thumbnail_failure_frame (cr : Crawler) (obs : CheckObs) (vc : VideoCandidate)
    (e : Error) (hctx : obs.ctxErr = none)
    (hstale : Sub obs.nowCache vc.LastNotLivestream ≥
      entityHandler.maximumCachedNotLivestreamAge cr.settings)
    (hfail : CheckLiveVideoThumbnail cr obs.thumb vc.ID [] = .error e) :
    (entityHandler.processVideoCandidate cr obs vc).err =
      some (.wrapped "CheckLiveVideoThumbnail" e) ∧
    Call.state ∉ (entityHandler.processVideoCandidate cr obs vc).calls ∧
    (entityHandler.processVideoCandidate cr obs vc).vc.NotLivestream = false ∧
    (entityHandler.processVideoCandidate cr obs vc).vc.LastNotLivestream =
      vc.LastNotLivestream ∧
    (entityHandler.processVideoCandidate cr obs vc).vc.LivestreamFinished =
      vc.LivestreamFinished ∧
    (entityHandler.processVideoCandidate cr obs vc).vc.LastLivestreamFinished =
      vc.LastLivestreamFinished ∧
    (entityHandler.processVideoCandidate cr obs vc).vc = { vc with NotLivestream := false } := by
  rw [processVideoCandidate_thumbnail_failure cr obs vc e hctx hstale hfail]
  exact ⟨rfl, by simp, rfl, rfl, rfl, rfl, rfl⟩

/-- C17 (amended), at a candidate flagged not-a-livestream and finished whose cache is
stale, with a thumbnail probe that gets status 500: only `NotLivestream` changes. -/
theorem C17_thumbnail_failure_frame_witness :
    (Sub (checkLive thumbFails neverProbed.ID).nowCache
        ({ neverProbed with NotLivestream := true, LivestreamFinished := true } :
          VideoCandidate).LastNotLivestream ≥
      entityHandler.maximumCachedNotLivestreamAge demoCrawler.settings) ∧
    (entityHandler.processVideoCandidate demoCrawler (checkLive thumbFails neverProbed.ID)
      { neverProbed with NotLivestream := true, LivestreamFinished := true }).vc =
      { neverProbed with NotLivestream := false, LivestreamFinished := true } :=
  ⟨by decide,
    (C17_thumbnail_failure_frame demoCrawler (checkLive thumbFails neverProbed.ID)
      { neverProbed with NotLivestream := true, LivestreamFinished := true }
      .UncertainLiveVideoThumbnail rfl (by decide) (by decide)).2.2.2.2.2.2⟩


/-! ## The refresh of the feed -/

/-- Whether lines 208 to 241 call `FetchChannelXMLFeed`: the condition of line 208. -/
theorem refresh_fetched (cr : Crawler) (rfc3339 : Str → Option Int) (obs : PassObs)
    (channelID : Str) (data : EntityData) :
    (entityHandler.refresh cr rfc3339 obs channelID data).2.2 = true ↔
      (data.Feed = none ∨ data.FeedVideoCandidates = []) ∧
      Sub obs.nowFeed data.LastFeedFetch ≥
        entityHandler.minimumFetchChannelFeedDelay cr.settings := by
  unfold entityHandler.refresh
  split
  · rename_i hc
    simp only [Bool.and_eq_true, Bool.or_eq_true, Option.isNone_iff_eq_none, decide_eq_true_eq,
      List.length_eq_zero] at hc
    have : ∀ x : EntityData × Option Error × Bool, x.2.2 = true → (x.2.2 = true ↔
        (data.Feed = none ∨ data.FeedVideoCandidates = []) ∧
        Sub obs.nowFeed data.LastFeedFetch ≥
          entityHandler.minimumFetchChannelFeedDelay cr.settings) :=
      fun x hx => ⟨fun _ => hc, fun _ => hx⟩
    apply this
    cases FetchChannelXMLFeed cr obs.feed channelID with
    | error e => rfl
    | ok feed =>
      simp only
      cases entityHandler.getVideoCandidates cr.settings rfc3339 obs.nowCandidates (some feed)
        channelID <;> rfl
  · rename_i hc
    simp only [Bool.and_eq_true, Bool.or_eq_true, Option.isNone_iff_eq_none, decide_eq_true_eq,
      List.length_eq_zero] at hc
    simp only [Bool.false_eq_true, false_iff]
    exact hc

/-- The refresh of the feed when `FetchChannelXMLFeed` is called and fails. -/
theorem refresh_fetch_fails (cr : Crawler) (rfc3339 : Str → Option Int) (obs : PassObs)
    (channelID : Str) (data : EntityData) (e : Error)
    (hf : (entityHandler.refresh cr rfc3339 obs channelID data).2.2 = true)
    (he : FetchChannelXMLFeed cr obs.feed channelID = .error e) :
    entityHandler.refresh cr rfc3339 obs channelID data =
      ({ data with Feed := none, FeedVideoCandidates := [], LiveVideos := [] },
        some (.wrapped "FetchChannelXMLFeed" e), true) := by
  have hc := (refresh_fetched cr rfc3339 obs channelID data).mp hf
  unfold entityHandler.refresh
  rw [if_pos (by simpa using hc)]
  simp only [he]

/-- What a pass on a valid handle of type `HandleChannelID` is, in terms of the refresh. -/
theorem entityHandler_fetched (cr : Crawler) (rfc3339 : Str → Option Int) (obs : PassObs)
    (h : Handle) (entityData : Option EntityData) (hv : h.Valid = true)
    (ht : h.Type_ = HandleChannelID) :
    (entityHandler cr rfc3339 obs (some h) entityData).fetched =
      (entityHandler.refresh cr rfc3339 obs h.Value
        { entityData.getD EntityData.zero with Live := false }).2.2 := by
  unfold entityHandler
  simp only [hv, ht, Bool.not_true, Bool.false_eq_true, if_false, ne_eq, not_true]
  rcases entityHandler.refresh cr rfc3339 obs h.Value
    { entityData.getD EntityData.zero with Live := false } with ⟨d, e, f⟩
  cases e <;> rfl

/-- C14: in a pass on a valid handle of type `HandleChannelID` that calls
`FetchChannelXMLFeed` and gets an error from it, the pass returns that error wrapped with
"FetchChannelXMLFeed", no call is made for any candidate, and the state afterwards has
`FeedVideoCandidates` empty, `Feed` nil, `LiveVideos` empty, `Live` false and
`LastFeedFetch` as before the pass. -/
theorem C14_failed_fetch_aborts (cr : Crawler) (rfc3339 : Str → Option Int) (obs : PassObs)
    (h : Handle) (entityData : Option EntityData) (e : Error) (hv : h.Valid = true)
    (ht : h.Type_ = HandleChannelID)
    (hf : (entityHandler cr rfc3339 obs (some h) entityData).fetched = true)
    (he : FetchChannelXMLFeed cr obs.feed h.Value = .error e) :
    (entityHandler cr rfc3339 obs (some h) entityData).err =
      some (.wrapped "FetchChannelXMLFeed" e) ∧
    (entityHandler cr rfc3339 obs (some h) entityData).calls = [] ∧
    (entityHandler cr rfc3339 obs (some h) entityData).data =
      some { Live := false, LiveVideos := [], Feed := none,
             LastFeedFetch := (entityData.getD EntityData.zero).LastFeedFetch,
             FeedVideoCandidates := [] } := by
  rw [entityHandler_fetched cr rfc3339 obs h entityData hv ht] at hf
  have hr := refresh_fetch_fails cr rfc3339 obs h.Value _ e hf he
  unfold entityHandler
  simp only [hv, ht, Bool.not_true, Bool.false_eq_true, if_false, ne_eq, not_true]
  rw [hr]
  exact ⟨rfl, rfl, rfl⟩

/-- C14, at a state with three candidates and no feed whose fetch is due and fails: the pass
returns the wrapped error, probes nothing and leaves no candidate. -/
theorem C14_failed_fetch_aborts_witness :
    demoHandle.Valid = true ∧ demoHandle.Type_ = HandleChannelID ∧
    (entityHandler demoCrawler noRfc3339 firstAndThirdLive (some demoHandle)
      (some candidatesWithoutFeed)).fetched = true ∧
    FetchChannelXMLFeed demoCrawler firstAndThirdLive.feed demoHandle.Value =
      .error (.foreign 1) ∧
    (entityHandler demoCrawler noRfc3339 firstAndThirdLive (some demoHandle)
      (some candidatesWithoutFeed)).err =
        some (.wrapped "FetchChannelXMLFeed" (.foreign 1)) ∧
    (entityHandler demoCrawler noRfc3339 firstAndThirdLive (some demoHandle)
      (some candidatesWithoutFeed)).calls = [] ∧
    (entityHandler demoCrawler noRfc3339 firstAndThirdLive (some demoHandle)
      (some candidatesWithoutFeed)).data =
      some { Live := false, LiveVideos := [], Feed := none,
             LastFeedFetch := demoNow - 3600 * Second, FeedVideoCandidates := [] } :=
  ⟨by decide, by decide, by decide, by decide,
    C14_failed_fetch_aborts demoCrawler noRfc3339 firstAndThirdLive demoHandle
      (some candidatesWithoutFeed) (.foreign 1) (by decide) (by decide) (by decide) (by decide)⟩

/-- A state that no pass leaves, three candidates without a feed, is fetched for again
once the delay has elapsed: line 208 tests for a nil `Feed` as well. -/
theorem refetch_without_feed_example :
    candidatesWithoutFeed.FeedVideoCandidates = demoCandidates ∧
    candidatesWithoutFeed.FeedVideoCandidates.length = 3 ∧
    (entityHandler demoCrawler demoRfc3339 passFetching (some demoHandle)
      (some candidatesWithoutFeed)).fetched = true ∧
    (entityHandler demoCrawler demoRfc3339 passFetching (some demoHandle)
      (some candidatesWithoutFeed)).candidates.map VideoCandidate.ID =
        ["video-hour1".toList] := by
  decide

/-- The condition of line 208, for a pass on a valid handle of type `HandleChannelID`:
`FetchChannelXMLFeed` is called if and only if the state has no feed or no candidates and
the delay has elapsed. -/
theorem entityHandler_fetched_iff (cr : Crawler) (rfc3339 : Str → Option Int) (obs : PassObs)
    (h : Handle) (data : EntityData) (hv : h.Valid = true) (ht : h.Type_ = HandleChannelID) :
    ((entityHandler cr rfc3339 obs (some h) (some data)).fetched = true ↔
      (data.Feed = none ∨ data.FeedVideoCandidates = []) ∧
      Sub obs.nowFeed data.LastFeedFetch ≥
        entityHandler.max (1 * Second) cr.settings.MinimumFetchChannelFeedDelay) ∧
    (data.Feed ≠ none → data.FeedVideoCandidates ≠ [] →
      (entityHandler cr rfc3339 obs (some h) (some data)).fetched = false) := by
  have hiff : (entityHandler cr rfc3339 obs (some h) (some data)).fetched = true ↔
      (data.Feed = none ∨ data.FeedVideoCandidates = []) ∧
      Sub obs.nowFeed data.LastFeedFetch ≥
        entityHandler.max (1 * Second) cr.settings.MinimumFetchChannelFeedDelay := by
    rw [entityHandler_fetched cr rfc3339 obs h (some data) hv ht, refresh_fetched]
    rfl
  refine ⟨hiff, ?_⟩
  intro hfeed hcands
  cases hfe : (entityHandler cr rfc3339 obs (some h) (some data)).fetched with
  | false => rfl
  | true =>
    rcases (hiff.mp hfe).1 with h1 | h1
    · exact absurd h1 hfeed
    · exact absurd h1 hcands

/-- The refresh of the feed keeps the invariant. -/
theorem refresh_consistent (cr : Crawler) (rfc3339 : Str → Option Int) (obs : PassObs)
    (channelID : Str) (data : EntityData) (h : data.consistent = true) :
    (entityHandler.refresh cr rfc3339 obs channelID data).1.consistent = true := by
  unfold entityHandler.refresh
  split
  · cases FetchChannelXMLFeed cr obs.feed channelID with
    | error e => rfl
    | ok feed =>
      simp only
      cases entityHandler.getVideoCandidates cr.settings rfc3339 obs.nowCandidates (some feed)
        channelID with
      | error e => rfl
      | ok vcs => simp [EntityData.consistent]
  · exact h

/-- Every pass keeps the invariant, whatever the handle and the observations. -/
theorem entityHandler_consistent (cr : Crawler) (rfc3339 : Str → Option Int) (obs : PassObs)
    (handle : Option Handle) (entityData : Option EntityData)
    (h : ∀ d0, entityData = some d0 → d0.consistent = true) :
    ∀ d, (entityHandler cr rfc3339 obs handle entityData).data = some d →
      d.consistent = true := by
  have hz : (entityData.getD EntityData.zero).consistent = true := by
    cases entityData with
    | none => rfl
    | some d0 => exact h d0 rfl
  intro d hd
  unfold entityHandler at hd
  cases handle with
  | none => exact h d hd
  | some hh =>
    simp only at hd
    split at hd
    · exact h d hd
    · split at hd
      · simp only [Option.some.injEq] at hd
        rw [← hd]; exact hz
      · have hr := refresh_consistent cr rfc3339 obs hh.Value
          { entityData.getD EntityData.zero with Live := false } hz
        have hlen := fun cands => loop_length cr obs cands 0 []
        rcases hre : entityHandler.refresh cr rfc3339 obs hh.Value
          { entityData.getD EntityData.zero with Live := false } with ⟨d1, e, f⟩
        rw [hre] at hd hr
        cases e with
        | some err =>
          simp only [Option.some.injEq] at hd
          rw [← hd]; exact hr
        | none =>
          simp only [Option.some.injEq] at hd
          rw [← hd]
          simp only [EntityData.consistent, Bool.or_eq_true, List.isEmpty_iff] at hr ⊢
          rcases hr with hr | hr
          · left
            have := hlen d1.FeedVideoCandidates
            rw [hr] at this ⊢
            exact List.length_eq_zero.mp (by simpa using this)
          · right; exact hr

/-- C16: for every channel state that passes can start from (the zero state and every
state a pass leaves satisfy `consistent`: a state that holds candidates holds their feed),
a pass on a valid handle of type `HandleChannelID` calls `FetchChannelXMLFeed` if and only
if the state has no candidates and `now - LastFeedFetch >= max(1 second,
MinimumFetchChannelFeedDelay)`; in particular a state that has candidates is never
refetched. The invariant holds of the zero state and of the state that any pass, with any
settings, handle and observations, leaves from a state that satisfies it or from no
state. -/
theorem C16_fetch_iff_no_candidates (cr : Crawler) (rfc3339 : Str → Option Int)
    (obs : PassObs) (h : Handle) (data : EntityData) (hv : h.Valid = true)
    (ht : h.Type_ = HandleChannelID) (hinv : data.consistent = true) :
    ((entityHandler cr rfc3339 obs (some h) (some data)).fetched = true ↔
      data.FeedVideoCandidates = [] ∧
      Sub obs.nowFeed data.LastFeedFetch ≥
        entityHandler.max (1 * Second) cr.settings.MinimumFetchChannelFeedDelay) ∧
    (data.FeedVideoCandidates ≠ [] →
      (entityHandler cr rfc3339 obs (some h) (some data)).fetched = false) ∧
    EntityData.zero.consistent = true ∧
    (∀ (cr2 : Crawler) (obs2 : PassObs) (handle : Option Handle) (d : EntityData),
      (entityHandler cr2 rfc3339 obs2 handle (some data)).data = some d →
      d.consistent = true) ∧
    (∀ (cr2 : Crawler) (obs2 : PassObs) (handle : Option Handle) (d : EntityData),
      (entityHandler cr2 rfc3339 obs2 handle none).data = some d →
      d.consistent = true) := by
  have hiff : (entityHandler cr rfc3339 obs (some h) (some data)).fetched = true ↔
      data.FeedVideoCandidates = [] ∧
      Sub obs.nowFeed data.LastFeedFetch ≥
        entityHandler.max (1 * Second) cr.settings.MinimumFetchChannelFeedDelay := by
    rw [entityHandler_fetched cr rfc3339 obs h (some data) hv ht, refresh_fetched]
    have hfeed : data.FeedVideoCandidates ≠ [] → data.Feed ≠ none := by
      intro hc hn
      simp [EntityData.consistent, hn, hc] at hinv
    show (data.Feed = none ∨ data.FeedVideoCandidates = []) ∧ _ ↔ _
    constructor
    · rintro ⟨h1, h2⟩
      refine ⟨?_, h2⟩
      by_contra hc
      rcases h1 with h1 | h1
      · exact hfeed hc h1
      · exact hc h1
    · rintro ⟨h1, h2⟩
      exact ⟨Or.inr h1, h2⟩
  refine ⟨hiff, ?_, rfl, ?_, ?_⟩
  · intro hcands
    cases hfe : (entityHandler cr rfc3339 obs (some h) (some data)).fetched with
    | false => rfl
    | true => exact absurd (hiff.mp hfe).1 hcands
  · intro cr2 obs2 handle d hd
    exact entityHandler_consistent cr2 rfc3339 obs2 handle (some data)
      (fun d0 h0 => by cases h0; exact hinv) d hd
  · intro cr2 obs2 handle d hd
    exact entityHandler_consistent cr2 rfc3339 obs2 handle none
      (fun d0 h0 => by cases h0) d hd

/-- C16, at three states that satisfy the invariant: no feed and no candidates, an hour
after the last fetch, is fetched; a feed and candidates, an hour after the last fetch, is
not; no feed and no candidates 44 seconds after the last fetch is not (the default delay is
45 seconds). -/
theorem C16_fetch_iff_no_candidates_witness :
    demoHandle.Valid = true ∧ demoHandle.Type_ = HandleChannelID ∧
    dueData.consistent = true ∧
    ({ demoData with LastFeedFetch := demoNow - 3600 * Second } : EntityData).consistent = true ∧
    (entityHandler demoCrawler demoRfc3339 passFetching (some demoHandle)
      (some dueData)).fetched = true ∧
    (entityHandler demoCrawler demoRfc3339 passFetching (some demoHandle)
      (some { demoData with LastFeedFetch := demoNow - 3600 * Second })).fetched = false ∧
    (entityHandler demoCrawler demoRfc3339 passFetching (some demoHandle)
      (some { dueData with LastFeedFetch := demoNow - 44 * Second })).fetched = false :=
  ⟨by decide, by decide, by decide, by decide,
    (C16_fetch_iff_no_candidates demoCrawler demoRfc3339 passFetching demoHandle dueData
      (by decide) (by decide) (by decide)).1.mpr (by decide),
    (C16_fetch_iff_no_candidates demoCrawler demoRfc3339 passFetching demoHandle
      { demoData with LastFeedFetch := demoNow - 3600 * Second }
      (by decide) (by decide) (by decide)).2.1 (by decide),
    by decide⟩

/-! ## A pass inside the cache windows -/

/-- A candidate that is not due is left alone by `visit`. -/
theorem visit_not_due (cr : Crawler) (obs : PassObs) (idx : Nat) (vc : VideoCandidate)
    (h : Sub (obs.nowLoop idx) vc.LastProcess < entityHandler.minimumCheckVideoDelay cr.settings) :
    entityHandler.visit cr obs idx vc = (vc, []) := by
  unfold entityHandler.visit
  rw [if_neg (not_le.mpr h)]

/-- The loop over candidates none of which is due: no candidate changes and no call is
made. -/
theorem loop_idle (cr : Crawler) (obs : PassObs) (cands : List VideoCandidate) :
    ∀ (idx : Nat) (live : List Str),
      (∀ j vc, cands[j]? = some vc → Sub (obs.nowLoop (idx + j)) vc.LastProcess <
        entityHandler.minimumCheckVideoDelay cr.settings) →
      (entityHandler.loop cr obs idx cands live).1 = cands ∧
      (entityHandler.loop cr obs idx cands live).2.2 = [] := by
  induction cands with
  | nil => intro idx live _; simp [entityHandler.loop]
  | cons v0 rest ih =>
    intro idx live hfresh
    have h0 := visit_not_due cr obs idx v0 (by simpa using hfresh 0 v0 (by simp))
    have hrest : ∀ j vc, rest[j]? = some vc → Sub (obs.nowLoop (idx + 1 + j)) vc.LastProcess <
        entityHandler.minimumCheckVideoDelay cr.settings := by
      intro j vc hj
      have := hfresh (j + 1) vc (by simpa using hj)
      rwa [show idx + (j + 1) = idx + 1 + j by omega] at this
    unfold entityHandler.loop
    simp only [h0]
    split
    · split
      · exact ⟨rfl, rfl⟩
      · simp [ih (idx + 1) _ hrest]
    · simp [ih (idx + 1) _ hrest]

/-- The loop over candidates none of which is due gives the same result whatever else is
observed. -/
theorem loop_idle_eq (cr : Crawler) (obs obs2 : PassObs) (cands : List VideoCandidate) :
    ∀ (idx idx2 : Nat) (live : List Str),
      (∀ j vc, cands[j]? = some vc → Sub (obs.nowLoop (idx + j)) vc.LastProcess <
        entityHandler.minimumCheckVideoDelay cr.settings) →
      (∀ j vc, cands[j]? = some vc → Sub (obs2.nowLoop (idx2 + j)) vc.LastProcess <
        entityHandler.minimumCheckVideoDelay cr.settings) →
      entityHandler.loop cr obs idx cands live = entityHandler.loop cr obs2 idx2 cands live := by
  induction cands with
  | nil => intro idx idx2 live _ _; simp [entityHandler.loop]
  | cons v0 rest ih =>
    intro idx idx2 live hfresh hfresh2
    have h0 := visit_not_due cr obs idx v0 (by simpa using hfresh 0 v0 (by simp))
    have h02 := visit_not_due cr obs2 idx2 v0 (by simpa using hfresh2 0 v0 (by simp))
    have hrest : ∀ j vc, rest[j]? = some vc → Sub (obs.nowLoop (idx + 1 + j)) vc.LastProcess <
        entityHandler.minimumCheckVideoDelay cr.settings := by
      intro j vc hj
      have := hfresh (j + 1) vc (by simpa using hj)
      rwa [show idx + (j + 1) = idx + 1 + j by omega] at this
    have hrest2 : ∀ j vc, rest[j]? = some vc →
        Sub (obs2.nowLoop (idx2 + 1 + j)) vc.LastProcess <
        entityHandler.minimumCheckVideoDelay cr.settings := by
      intro j vc hj
      have := hfresh2 (j + 1) vc (by simpa using hj)
      rwa [show idx2 + (j + 1) = idx2 + 1 + j by omega] at this
    unfold entityHandler.loop
    simp only [h0, h02]
    split
    · split
      · rfl
      · rw [ih (idx + 1) (idx2 + 1) _ hrest hrest2]
    · rw [ih (idx + 1) (idx2 + 1) _ hrest hrest2]

/-- A pass on a valid handle of type `HandleChannelID` over a state with a feed and with
candidates: the feed is not fetched and the loop runs over the candidates of the state. -/
theorem entityHandler_keeps_feed (cr : Crawler) (rfc3339 : Str → Option Int) (obs : PassObs)
    (h : Handle) (data : EntityData) (hv : h.Valid = true) (ht : h.Type_ = HandleChannelID)
    (hfeed : data.Feed ≠ none) (hcands : data.FeedVideoCandidates ≠ []) :
    entityHandler cr rfc3339 obs (some h) (some data) =
      ⟨some { data with
          FeedVideoCandidates := (entityHandler.loop cr obs 0 data.FeedVideoCandidates []).1,
          LiveVideos := (entityHandler.loop cr obs 0 data.FeedVideoCandidates []).2.1,
          Live := decide ((entityHandler.loop cr obs 0 data.FeedVideoCandidates []).2.1.length
            > 0) },
        none, false, (entityHandler.loop cr obs 0 data.FeedVideoCandidates []).2.2⟩ := by
  have hr : entityHandler.refresh cr rfc3339 obs h.Value { data with Live := false } =
      ({ data with Live := false }, none, false) := by
    unfold entityHandler.refresh
    rw [if_neg]
    simp only [Bool.and_eq_true, Bool.or_eq_true, Option.isNone_iff_eq_none, decide_eq_true_eq,
      List.length_eq_zero, not_and]
    intro hc
    rcases hc with hc | hc
    · exact absurd hc hfeed
    · exact absurd hc hcands
  unfold entityHandler
  simp only [hv, ht, Bool.not_true, Bool.false_eq_true, if_false, ne_eq, not_true,
    Option.getD_some]
  rw [hr]

/-- C15: on a valid handle of type `HandleChannelID`, for a state with a non-nil `Feed` and
a non-empty candidate list in which every candidate has `now - LastProcess <
minimumCheckVideoDelay`, a pass fetches no feed, makes no call for any candidate (neither
`processVideoCandidate` nor a probe), returns no error and leaves every candidate as it
was; of the state only `LiveVideos` and `Live` are recomputed. A second such pass, run on
the resulting state, yields the very same result: the same state (hence the same
`LiveVideos` and `Live`), no error, no fetch and no call. -/
theorem C15_idle_pass (cr : Crawler) (rfc3339 : Str → Option Int) (obs obs2 : PassObs)
    (h : Handle) (data : EntityData) (hv : h.Valid = true) (ht : h.Type_ = HandleChannelID)
    (hfeed : data.Feed ≠ none) (hcands : data.FeedVideoCandidates ≠ [])
    (hfresh : ∀ i vc, data.FeedVideoCandidates[i]? = some vc →
      Sub (obs.nowLoop i) vc.LastProcess < entityHandler.minimumCheckVideoDelay cr.settings)
    (hfresh2 : ∀ i vc, data.FeedVideoCandidates[i]? = some vc →
      Sub (obs2.nowLoop i) vc.LastProcess < entityHandler.minimumCheckVideoDelay cr.settings) :
    (entityHandler cr rfc3339 obs (some h) (some data)).fetched = false ∧
    (entityHandler cr rfc3339 obs (some h) (some data)).calls = [] ∧
    (entityHandler cr rfc3339 obs (some h) (some data)).err = none ∧
    (entityHandler cr rfc3339 obs (some h) (some data)).candidates = data.FeedVideoCandidates ∧
    (∃ live, (entityHandler cr rfc3339 obs (some h) (some data)).data =
      some { data with LiveVideos := live, Live := decide (live.length > 0) }) ∧
    entityHandler cr rfc3339 obs2 (some h)
        (entityHandler cr rfc3339 obs (some h) (some data)).data =
      entityHandler cr rfc3339 obs (some h) (some data) := by
  have hp := entityHandler_keeps_feed cr rfc3339 obs h data hv ht hfeed hcands
  have hi := loop_idle cr obs data.FeedVideoCandidates 0 []
    (by intro j vc hj; simpa using hfresh j vc hj)
  rw [hi.1, hi.2] at hp
  rw [hp]
  refine ⟨rfl, rfl, rfl, rfl, ⟨_, rfl⟩, ?_⟩
  simp only
  have hi2 := loop_idle cr obs2 data.FeedVideoCandidates 0 []
    (by intro j vc hj; simpa using hfresh2 j vc hj)
  have he := loop_idle_eq cr obs2 obs data.FeedVideoCandidates 0 0 []
    (by intro j vc hj; simpa using hfresh2 j vc hj)
    (by intro j vc hj; simpa using hfresh j vc hj)
  have h2 := entityHandler_keeps_feed cr rfc3339 obs2 h
    { data with
      LiveVideos := (entityHandler.loop cr obs 0 data.FeedVideoCandidates []).2.1,
      Live := decide ((entityHandler.loop cr obs 0 data.FeedVideoCandidates []).2.1.length > 0) }
    hv ht hfeed hcands
  simp only at h2
  rw [hi2.1, hi2.2, he] at h2
  exact h2

/-- C15, at the state `restingData`, whose three candidates were processed a second ago:
the pass makes no call, lists the candidate that was live, and a second pass gives the same
result. -/
theorem C15_idle_pass_witness :
    demoHandle.Valid = true ∧ demoHandle.Type_ = HandleChannelID ∧
    restingData.Feed ≠ none ∧ restingData.FeedVideoCandidates ≠ [] ∧
    (entityHandler demoCrawler noRfc3339 firstAndThirdLive (some demoHandle)
      (some restingData)).calls = [] ∧
    (entityHandler demoCrawler noRfc3339 firstAndThirdLive (some demoHandle)
      (some restingData)).liveVideos = ["video-aaaa1".toList] ∧
    entityHandler demoCrawler noRfc3339 firstProbeFails (some demoHandle)
        (entityHandler demoCrawler noRfc3339 firstAndThirdLive (some demoHandle)
          (some restingData)).data =
      entityHandler demoCrawler noRfc3339 firstAndThirdLive (some demoHandle)
        (some restingData) :=
  ⟨by decide, by decide, by decide, by decide,
    (C15_idle_pass demoCrawler noRfc3339 firstAndThirdLive firstProbeFails demoHandle restingData
      (by decide) (by decide) (by decide) (by decide)
      (by
        intro i vc hi
        rcases i with _ | _ | _ | i <;>
          simp [restingData, restingCandidates] at hi <;> subst hi <;> decide)
      (by
        intro i vc hi
        rcases i with _ | _ | _ | i <;>
          simp [restingData, restingCandidates] at hi <;> subst hi <;> decide)).2.1,
    by decide,
    (C15_idle_pass demoCrawler noRfc3339 firstAndThirdLive firstProbeFails demoHandle restingData
      (by decide) (by decide) (by decide) (by decide)
      (by
        intro i vc hi
        rcases i with _ | _ | _ | i <;>
          simp [restingData, restingCandidates] at hi <;> subst hi <;> decide)
      (by
        intro i vc hi
        rcases i with _ | _ | _ | i <;>
          simp [restingData, restingCandidates] at hi <;> subst hi <;> decide)).2.2.2.2.2⟩


/-! ## Consistency of the verdicts -/

/-- A successful call of `CheckLiveVideoState` never answers live and finished at once. -/
theorem CheckLiveVideoState_not_both (cr : Crawler) (obs : StateObs) (videoID : Str)
    (finished : Bool) (h : CheckLiveVideoState cr obs videoID = .ok (true, finished)) :
    finished = false := by
  obtain ⟨items, _, hs⟩ := CheckLiveVideoState_ok cr obs videoID true finished h
  have hn := scan_not_both videoID items
  rw [hs] at hn
  cases finished with
  | false => rfl
  | true => exact absurd ⟨rfl, rfl⟩ hn

/-- Lines 151 to 201 of `processVideoCandidate` end without an error and with `Live` set
only on a candidate that is flagged neither not-a-livestream nor finished. -/
theorem verdict_live_consistent (cr : Crawler) (obs : CheckObs) (vc : VideoCandidate)
    (calls : List Call)
    (herr : (entityHandler.processVideoCandidate.verdict cr obs vc calls).err = none)
    (hlive : (entityHandler.processVideoCandidate.verdict cr obs vc calls).vc.Live = true) :
    (entityHandler.processVideoCandidate.verdict cr obs vc calls).vc.NotLivestream = false ∧
    (entityHandler.processVideoCandidate.verdict cr obs vc calls).vc.LivestreamFinished
      = false := by
  revert herr hlive
  unfold entityHandler.processVideoCandidate.verdict
  by_cases hnl : vc.NotLivestream = true
  · rw [if_pos hnl]; intro _ hl; cases hl
  · rw [if_neg hnl]
    split
    · intro _ hl; cases hl
    · cases hs : CheckLiveVideoState cr obs.state vc.ID with
      | error e => intro he; cases he
      | ok r =>
        obtain ⟨live, finished⟩ := r
        intro _ hl
        simp only at hl
        subst hl
        exact ⟨by simpa using hnl, CheckLiveVideoState_not_both cr obs.state vc.ID finished hs⟩

/-- The candidate state machine is consistent: when `processVideoCandidate` returns no
error and leaves `Live` set, the candidate is flagged neither not-a-livestream nor
finished. -/
theorem processVideoCandidate_live_consistent (cr : Crawler) (obs : CheckObs)
    (vc : VideoCandidate)
    (herr : (entityHandler.processVideoCandidate cr obs vc).err = none)
    (hlive : (entityHandler.processVideoCandidate cr obs vc).vc.Live = true) :
    (entityHandler.processVideoCandidate cr obs vc).vc.NotLivestream = false ∧
    (entityHandler.processVideoCandidate cr obs vc).vc.LivestreamFinished = false := by
  revert herr hlive
  unfold entityHandler.processVideoCandidate
  cases obs.ctxErr with
  | some e => intro he; cases he
  | none =>
    simp only
    split
    · cases CheckLiveVideoThumbnail cr obs.thumb vc.ID [] with
      | error e => intro he; cases he
      | ok b => exact verdict_live_consistent cr obs _ _
    · exact verdict_live_consistent cr obs _ _

/-- An element at a position before `n` is in the first `n` elements. -/
theorem mem_take_of_getElem {α : Type} (l : List α) (k n : Nat) (x : α)
    (h : l[k]? = some x) (hk : k < n) : x ∈ l.take n := by
  have : (l.take n)[k]? = some x := by
    rw [List.getElem?_take_of_lt hk]; exact h
  exact List.getElem?_mem this

/-- The element at position `i` that passes a test sits, among the elements that pass it,
at the position given by the number of those before `i`. -/
theorem filter_getElem_of_count {α : Type} (p : α → Bool) (l : List α) (i : Nat) (x : α)
    (h : l[i]? = some x) (hp : p x = true) :
    (l.filter p)[((l.take i).filter p).length]? = some x := by
  induction l generalizing i with
  | nil => simp at h
  | cons a rest ih =>
    cases i with
    | zero =>
      simp only [List.getElem?_cons_zero, Option.some.injEq] at h
      subst h
      simp [List.filter, hp]
    | succ i =>
      simp only [List.getElem?_cons_succ] at h
      have := ih i h
      by_cases ha : p a = true
      · simp [List.take, List.filter, ha, this]
      · simp [List.take, List.filter, ha, this]

/-- C18: whatever the two probes observe, when `processVideoCandidate` returns no error
and leaves `Live = true` the candidate has `NotLivestream = false` and
`LivestreamFinished = false`. Consequently, in a pass on a valid handle of type
`HandleChannelID`, a candidate that was processed in the pass and passes the test
`LiveGenuine && Live` of line 268 has its id in `LiveVideos` and is flagged neither
not-a-livestream nor finished. -/
theorem C18_live_is_consistent (cr : Crawler) (rfc3339 : Str → Option Int) (obs : PassObs)
    (h : Handle) (entityData : Option EntityData) (hv : h.Valid = true)
    (ht : h.Type_ = HandleChannelID) :
    (∀ (check : CheckObs) (vc : VideoCandidate),
      (entityHandler.processVideoCandidate cr check vc).err = none →
      (entityHandler.processVideoCandidate cr check vc).vc.Live = true →
      (entityHandler.processVideoCandidate cr check vc).vc.NotLivestream = false ∧
      (entityHandler.processVideoCandidate cr check vc).vc.LivestreamFinished = false) ∧
    ∀ i vc, (entityHandler cr rfc3339 obs (some h) entityData).candidates[i]? = some vc →
      (i, Call.process) ∈ (entityHandler cr rfc3339 obs (some h) entityData).calls →
      (vc.LiveGenuine && vc.Live) = true →
      vc.ID ∈ (entityHandler cr rfc3339 obs (some h) entityData).liveVideos ∧
      vc.NotLivestream = false ∧ vc.LivestreamFinished = false := by
  refine ⟨fun check vc => processVideoCandidate_live_consistent cr check vc, ?_⟩
  intro i vc hvc hcall hlg
  obtain ⟨_, _, hok⟩ := entityHandler_channel cr rfc3339 obs h entityData hv ht
  have hs0 : entityHandler.stops cr.settings ([] : List Str).length = false := by
    simp [entityHandler.stops]
  cases hre : entityHandler.refreshErr cr rfc3339 obs h entityData with
  | some err =>
    have := (entityHandler_refresh_err cr rfc3339 obs h entityData hv ht (by simp [hre])).1
    rw [this] at hcall
    simp at hcall
  | none =>
    obtain ⟨hc, hl, hcalls⟩ := hok hre
    -- the candidate at `i` before the loop, and its visit
    have hcall2 := hcall
    rw [hcalls] at hcall2
    obtain ⟨k, w, hk, hw, hm⟩ := loop_calls_sound cr obs _ 0 [] i Call.process hcall2
    have hki : k = i := by omega
    subst hki
    have hv := loop_visit cr obs _ 0 [] hs0 k w hw
    rw [← hc, ← hcalls] at hv
    simp only [List.length_nil, Nat.zero_add] at hv
    have hsi : entityHandler.stops cr.settings
        (liveBefore (entityHandler cr rfc3339 obs (some h) entityData).candidates k) = false := by
      cases hst : entityHandler.stops cr.settings
        (liveBefore (entityHandler cr rfc3339 obs (some h) entityData).candidates k) with
      | false => rfl
      | true => exact absurd hcall ((hv.2 hst).2 Call.process)
    have hvis := (hv.1 hsi).1
    rw [hvc] at hvis
    simp only [Option.some.injEq] at hvis
    have hdue : Sub (obs.nowLoop k) w.LastProcess ≥
        entityHandler.minimumCheckVideoDelay cr.settings := by
      rw [visit_calls] at hm
      by_contra hnd
      simp [hnd] at hm
    rw [visit_candidate, if_pos hdue] at hvis
    simp only [Bool.and_eq_true] at hlg
    refine ⟨?_, ?_⟩
    · -- the id is listed
      have hlive := loop_liveVideos cr obs (entityHandler.candidates cr rfc3339 obs h entityData)
        0 [] hs0
      rw [← hc, ← hl] at hlive
      simp only [List.nil_append, List.length_nil, Nat.sub_zero] at hlive
      have hpos := filter_getElem_of_count VideoCandidate.liveGenuine _ k vc hvc
        (by simp [VideoCandidate.liveGenuine, hlg.1, hlg.2])
      have hid : (((entityHandler cr rfc3339 obs (some h) entityData).candidates.filter
          VideoCandidate.liveGenuine).map VideoCandidate.ID)[liveBefore
            (entityHandler cr rfc3339 obs (some h) entityData).candidates k]? = some vc.ID := by
        unfold liveBefore
        rw [List.getElem?_map, hpos]; rfl
      rw [hlive]
      by_cases hn : entityHandler.stopAfterLiveVideos cr.settings > 0
      · rw [if_pos hn]
        apply mem_take_of_getElem _ _ _ _ hid
        simp only [entityHandler.stops, hn, decide_True, Bool.true_and, decide_eq_false_iff_not]
          at hsi
        omega
      · rw [if_neg hn]
        exact List.getElem?_mem hid
    · have hp := processVideoCandidate_live_consistent cr (obs.check k) w
      rw [hvis] at hlg ⊢
      simp only [Option.isNone_iff_eq_none] at hlg
      exact hp hlg.1 hlg.2

/-- C18, at the pass `firstAndThirdLive`: the first candidate is processed, found live and
listed in `LiveVideos`. -/
theorem C18_live_is_consistent_witness :
    demoHandle.Valid = true ∧ demoHandle.Type_ = HandleChannelID ∧
    (entityHandler demoCrawler noRfc3339 firstAndThirdLive (some demoHandle)
      (some demoData)).candidates[0]? =
      some { VideoCandidate.fresh (demoID 0) demoHandle.Value with
        Live := true, LiveGenuine := true, LastLive := demoNow, LastProcess := demoNow,
        LastNotLivestream := demoNow, LastLivestreamFinished := demoNow } ∧
    (0, Call.process) ∈ (entityHandler demoCrawler noRfc3339 firstAndThirdLive
      (some demoHandle) (some demoData)).calls ∧
    demoID 0 ∈ (entityHandler demoCrawler noRfc3339 firstAndThirdLive (some demoHandle)
      (some demoData)).liveVideos :=
  ⟨by decide, by decide, by decide, by decide,
    ((C18_live_is_consistent demoCrawler noRfc3339 firstAndThirdLive demoHandle (some demoData)
      (by decide) (by decide)).2 0
      { VideoCandidate.fresh (demoID 0) demoHandle.Value with
        Live := true, LiveGenuine := true, LastLive := demoNow, LastProcess := demoNow,
        LastNotLivestream := demoNow, LastLivestreamFinished := demoNow }
      (by decide) (by decide) (by decide)).1⟩

end CrawlyLiveYoutube
